import Mathlib

/-!
# Verification of the sandboxed patch-validation runner (`internal/qa/runner.go`)

(with the job handler that calls it, `internal/worker/worker.go`, and the
object references of `internal/storage/s3.go`)

The development embeds `RunTests` and its helpers as pure functions over an
explicit model of everything outside the file: the Docker engine, the clock,
the process environment and the library calls whose outcome the code branches
on.  Every engine call is recorded, with its arguments and its answer, in a
list of events; theorems speak about the returned values and about that list.
The job handler `handleQA` is embedded the same way, over the database, the
object store and the runner.

Conventions.
* A Go `string` is a sequence of bytes (`GoString`); literals of the source are
  written `str "..."`, their UTF-8 encoding.
* Go `int` is taken as 64 bits wide, so `int(st.StatusCode)` is the identity;
  integers are modelled by `Int`.
* A function that makes engine calls takes the history `h` of all earlier
  events (the engine may answer depending on it) and returns the events it
  emitted itself, oldest first.
* `log.Print*` calls and `defer cancel()` have no effect on any modelled value
  and are left out.
-/

namespace QA

/-! ## Strings -/

/-- One byte. -/
abbrev Byte := Fin 256

/-- A Go string: an immutable sequence of bytes. -/
abbrev GoString := List Byte

/-- The byte with value `n % 256`. -/
def byte (n : Nat) : Byte := ⟨n % 256, Nat.mod_lt _ (by decide)⟩

/-- UTF-8 encoding of the code point `n` (as `utf8.EncodeRune` writes it for a
valid code point). -/
def encodeRune (n : Nat) : GoString :=
  if n < 0x80 then [byte n]
  else if n < 0x800 then [byte (0xC0 + n / 64), byte (0x80 + n % 64)]
  else if n < 0x10000 then
    [byte (0xE0 + n / 4096), byte (0x80 + n / 64 % 64), byte (0x80 + n % 64)]
  else
    [byte (0xF0 + n / 262144), byte (0x80 + n / 4096 % 64),
     byte (0x80 + n / 64 % 64), byte (0x80 + n % 64)]

/-- The bytes of a source-level string literal. -/
def str (s : String) : GoString := s.toList.flatMap (fun c => encodeRune c.toNat)

/-- The code points for which Go's `unicode.IsSpace` holds: the Latin-1 spaces
`\t \n \v \f \r`, space, U+0085, U+00A0, and the `White_Space` property beyond
Latin-1. -/
def spaceRunes : List Nat :=
  [0x09, 0x0A, 0x0B, 0x0C, 0x0D, 0x20, 0x85, 0xA0, 0x1680,
   0x2000, 0x2001, 0x2002, 0x2003, 0x2004, 0x2005, 0x2006, 0x2007, 0x2008,
   0x2009, 0x200A, 0x2028, 0x2029, 0x202F, 0x205F, 0x3000]

/-- The byte sequences that decode to a white-space code point. -/
def spaceEncodings : List GoString := spaceRunes.map encodeRune

/-- If `s` starts with a white-space code point, the rest of `s` after it. -/
def dropLeadingSpace (s : GoString) : Option GoString :=
  spaceEncodings.findSome? (fun e => if e.isPrefixOf s then some (s.drop e.length) else none)

/-- If `s` ends with a white-space code point, `s` without it. -/
def dropTrailingSpace (s : GoString) : Option GoString :=
  spaceEncodings.findSome?
    (fun e => if e.isSuffixOf s then some (s.take (s.length - e.length)) else none)

/-- Removal of all leading white space (`strings.TrimLeftFunc(s, unicode.IsSpace)`);
`fuel` bounds the number of code points removed. -/
def trimLeftSpace : Nat → GoString → GoString
  | 0, s => s
  | fuel + 1, s =>
    match dropLeadingSpace s with
    | some rest => trimLeftSpace fuel rest
    | none => s

/-- Removal of all trailing white space (`strings.TrimRightFunc(s, unicode.IsSpace)`). -/
def trimRightSpace : Nat → GoString → GoString
  | 0, s => s
  | fuel + 1, s =>
    match dropTrailingSpace s with
    | some rest => trimRightSpace fuel rest
    | none => s

/-- Model of `strings.TrimSpace`: `s` with all leading and trailing white space
removed, as defined by Unicode; a code point is recognised from its UTF-8
encoding, so a byte that is not part of a valid encoding is never white space. -/
def TrimSpace (s : GoString) : GoString :=
  let l := trimLeftSpace s.length s
  trimRightSpace l.length l

/-- Model of `strings.Contains`. -/
def Contains (s sub : GoString) : Bool := decide (sub <:+: s)

/-- Model of `strings.Join`. -/
def Join : List GoString → GoString → GoString
  | [], _ => []
  | [a], _ => a
  | a :: b :: rest, sep => a ++ sep ++ Join (b :: rest) sep

/-- Decimal rendering of an integer (`%d`). -/
def fmtInt (n : Int) : GoString := str (toString n)

/-! ## Errors -/

/-- A Go `error`: its message and, when built with `%w`, the error it wraps. -/
inductive GoError where
  | leaf (msg : GoString)
  | wrapped (msg : GoString) (cause : GoError)
  deriving DecidableEq, Repr

/-- The `Error()` text. -/
def GoError.Error : GoError → GoString
  | .leaf m => m
  | .wrapped m _ => m

/-- An error made by `fmt.Errorf(pre + "%w", e)`, where `pre` is the already
formatted text in front of the verb. -/
def wrapErr (pre : GoString) (e : GoError) : GoError := .wrapped (pre ++ e.Error) e

/-- An error made by `fmt.Errorf` without `%w`. -/
def newErr (msg : GoString) : GoError := .leaf msg

/-! ## The engine interface -/

/-- The contexts that reach an engine call: the caller's `ctx`, the
`phaseCtx` derived from it with a 15 minute timeout, and
`context.Background()`. -/
inductive Ctx where
  | caller
  | phase
  | background
  deriving DecidableEq, Repr

/-- The fields of `container.Resources` that the code sets. -/
structure Resources where
  Memory : Int := 0
  NanoCPUs : Int := 0
  deriving DecidableEq, Repr

/-- The type of a `mount.Mount`. -/
inductive MountType where
  | volume
  | bind
  deriving DecidableEq, Repr

/-- A `mount.Mount`. -/
structure Mount where
  Typ : MountType
  Source : GoString
  Target : GoString
  deriving DecidableEq, Repr

/-- The fields of `container.Config` that the code sets. -/
structure Config where
  Image : GoString
  Cmd : List GoString
  Tty : Bool
  deriving DecidableEq, Repr

/-- The fields of `container.HostConfig` that the code sets; an empty
`NetworkMode` is the zero value (the engine's default network). -/
structure HostConfig where
  NetworkMode : GoString := []
  Mounts : List Mount := []
  Resources : Resources := {}
  deriving DecidableEq, Repr

/-- The single-entry archive built by `copyBytesToVolume`. -/
structure TarFile where
  Name : GoString
  Mode : Nat
  Size : Nat
  Data : List Byte
  deriving DecidableEq, Repr

/-- Answer of `ImagePull`: an error, or the reader of the progress stream,
given by the bytes it delivers and by how it ends: at end of file (`none`) or
with a read error. -/
inductive PullResult where
  | failed (e : GoError)
  | stream (data : List Byte) (readErr : Option GoError)
  deriving DecidableEq, Repr

/-- Answer of `ContainerCreate`. -/
inductive CreateResult where
  | failed (e : GoError)
  | created (id : GoString)
  deriving DecidableEq, Repr

/-- What the `select` over the two channels of `ContainerWait` receives: a
value from the error channel, or a status from the status channel. -/
inductive WaitResult where
  | errCh (e : Option GoError)
  | status (code : Int)
  deriving DecidableEq, Repr

/-- Answer of `ContainerLogs`: an error, or a reader; `data` is what `io.Copy`
reads from it before end of file or a read error. -/
inductive LogsResult where
  | failed (e : GoError)
  | stream (data : List Byte)
  deriving DecidableEq, Repr

/-- One engine call, with its arguments and its answer. -/
inductive Event where
  | ping (ctx : Ctx) (r : Option GoError)
  | imagePull (ctx : Ctx) (ref : GoString) (r : PullResult)
  | volumeCreate (ctx : Ctx) (name : GoString) (r : Option GoError)
  | volumeRemove (ctx : Ctx) (name : GoString) (force : Bool) (r : Option GoError)
  | containerCreate (ctx : Ctx) (cfg : Config) (host : HostConfig) (r : CreateResult)
  | containerStart (ctx : Ctx) (cid : GoString) (r : Option GoError)
  | containerWait (ctx : Ctx) (cid : GoString) (r : WaitResult)
  | containerLogs (ctx : Ctx) (cid : GoString) (showStdout showStderr : Bool) (r : LogsResult)
  | containerStop (ctx : Ctx) (cid : GoString) (timeout : Int) (r : Option GoError)
  | containerRemove (ctx : Ctx) (cid : GoString) (force : Bool) (r : Option GoError)
  | copyToContainer (ctx : Ctx) (cid : GoString) (path : GoString) (content : TarFile)
      (allowOverwriteDirWithFile : Bool) (r : Option GoError)
  deriving DecidableEq, Repr

/-- Everything outside `runner.go`.  Each engine method answers from the
history of earlier events and the arguments of the call. -/
structure World where
  /-- `client.NewClientWithOpts` -/
  newClient : Option GoError
  /-- `os.Getenv("DOCKER_HOST")` -/
  dockerHost : GoString
  /-- `time.Now().UnixNano()` -/
  now : List Event → Int
  /-- `strconv.Quote`, behind the `%q` verb -/
  quote : GoString → GoString
  /-- `tar.Writer.WriteHeader` -/
  tarWriteHeader : TarFile → Option GoError
  /-- `tar.Writer.Write` -/
  tarWrite : TarFile → Option GoError
  /-- `tar.Writer.Close` -/
  tarClose : TarFile → Option GoError
  ping : List Event → Ctx → Option GoError
  imagePull : List Event → Ctx → GoString → PullResult
  volumeCreate : List Event → Ctx → GoString → Option GoError
  volumeRemove : List Event → Ctx → GoString → Bool → Option GoError
  containerCreate : List Event → Ctx → Config → HostConfig → CreateResult
  containerStart : List Event → Ctx → GoString → Option GoError
  containerWait : List Event → Ctx → GoString → WaitResult
  containerLogs : List Event → Ctx → GoString → Bool → Bool → LogsResult
  containerStop : List Event → Ctx → GoString → Int → Option GoError
  containerRemove : List Event → Ctx → GoString → Bool → Option GoError
  copyToContainer : List Event → Ctx → GoString → GoString → TarFile → Bool → Option GoError

/-! ## Log demultiplexing -/

/-- What `stdcopy.StdCopy` leaves behind: the bytes written to the two
destinations and whether it returned an error. -/
structure StdCopyResult where
  out : List Byte
  err : List Byte
  failed : Bool
  deriving DecidableEq, Repr

/-- Model of `stdcopy.StdCopy` reading from an in-memory reader.  A frame is an
8-byte header (stream type, three unused bytes, big-endian 32-bit payload
length) followed by the payload.  Stream types 0 and 1 go to `out`, 2 goes to
`err`; type 3 (a daemon error) and any other type make the call fail.  Input
that ends inside a header or inside a payload ends the copy without error, the
incomplete frame being dropped. -/
def stdCopyLoop : Nat → List Byte → List Byte → List Byte → StdCopyResult
  | fuel + 1, ty :: _ :: _ :: _ :: b4 :: b5 :: b6 :: b7 :: rest, out, err =>
    if 3 < ty.val then ⟨out, err, true⟩
    else
      let frameSize := b4.val * 16777216 + b5.val * 65536 + b6.val * 256 + b7.val
      if rest.length < frameSize then ⟨out, err, false⟩
      else if ty.val = 3 then ⟨out, err, true⟩
      else if ty.val = 2 then
        stdCopyLoop fuel (rest.drop frameSize) out (err ++ rest.take frameSize)
      else
        stdCopyLoop fuel (rest.drop frameSize) (out ++ rest.take frameSize) err
  | _, _, out, err => ⟨out, err, false⟩

/-- `stdcopy.StdCopy(&outBuf, &errBuf, bytes.NewReader(src))` on empty buffers. -/
def StdCopy (src : List Byte) : StdCopyResult := stdCopyLoop src.length src [] []

/-! ## The runner -/

/-- The Go struct `TestResult`. -/
structure TestResult where
  OK : Bool := false
  Stdout : GoString := []
  Stderr : GoString := []
  ExitCode : Int := 0
  deriving DecidableEq, Repr

/-- The four values returned by `runWithLogs`. -/
structure RunOut where
  stdout : GoString
  stderr : GoString
  exitCode : Int
  err : Option GoError
  deriving DecidableEq, Repr

/-- The values returned by `RunTests` (`res` is `none` for a nil pointer) and
the events of the run. -/
structure RunTestsOut where
  res : Option TestResult
  err : Option GoError
  events : List Event
  deriving DecidableEq, Repr

/-- Source: `imageRef`. -/
def imageRef (img : GoString) : GoString :=
  if Contains img (str "/") || Contains img (str ":") then img
  else str "docker.io/library/" ++ img ++ str ":latest"

/-- Model of `io.Copy(io.Discard, reader)` on a reader that delivers `data`
and then ends, at end of file (`none`) or with a read error: the copy reads
until that end and returns the number of bytes copied and the error (nil at
end of file). -/
def ioCopyDiscard (data : List Byte) (readErr : Option GoError) : Int × Option GoError :=
  (data.length, readErr)

/-- What a call of `pullIfNeeded` does: the error it returns, the events it
emits, and the two values returned by `io.Copy`, which the code assigns to
blanks (`none` when `io.Copy` is not reached). -/
structure PullRun where
  err : Option GoError
  events : List Event
  copied : Option (Int × Option GoError)
  deriving DecidableEq, Repr

/-- Source: `pullIfNeeded`, line by line: a failed `ImagePull` returns its
error; otherwise the progress stream is copied to `io.Discard` until it ends,
the result of the copy is dropped (`_, _ = io.Copy(...)`) and nil is
returned. -/
def pullIfNeededRun (w : World) (h : List Event) (ctx : Ctx) (image : GoString) : PullRun :=
  let r := w.imagePull h ctx (imageRef image)
  let t := [Event.imagePull ctx (imageRef image) r]
  match r with
  | .failed e => ⟨some e, t, none⟩
  | .stream data readErr => ⟨none, t, some (ioCopyDiscard data readErr)⟩

/-- Source: `pullIfNeeded`: the error it returns and the events it emits. -/
def pullIfNeeded (w : World) (h : List Event) (ctx : Ctx) (image : GoString) :
    Option GoError × List Event :=
  ((pullIfNeededRun w h ctx image).err, (pullIfNeededRun w h ctx image).events)

/-- The deferred function of `runWithLogs` and of `copyBytesToVolume`: stop
with a grace period, then forced remove, both on `context.Background()`, both
results discarded. -/
def stopAndRemove (w : World) (h : List Event) (cid : GoString) (timeout : Int) : List Event :=
  let s := Event.containerStop .background cid timeout (w.containerStop h .background cid timeout)
  let r := Event.containerRemove .background cid true
    (w.containerRemove (h ++ [s]) .background cid true)
  [s, r]

/-- Source: `runWithLogs`, lines 237-255: log collection, once the exit code is
known.  A failing `ContainerLogs` leaves both buffers empty; a failing
`StdCopy` puts the whole raw stream into the stdout buffer and leaves in the
stderr buffer what had been written to it. -/
def collectLogs (w : World) (h : List Event) (ctx : Ctx) (cid : GoString) (exitCode : Int) :
    RunOut × List Event :=
  let lr := w.containerLogs h ctx cid true true
  let t := [Event.containerLogs ctx cid true true lr]
  match lr with
  | .failed _ => (⟨[], [], exitCode, none⟩, t)
  | .stream sb =>
    let c := StdCopy sb
    (⟨if c.failed then sb else c.out, c.err, exitCode, none⟩, t)

/-- Source: `runWithLogs`, lines 222-255: everything after the deferred
cleanup has been registered.  The named result `exitCode` is still zero when
the error channel delivers a nil error. -/
def runWithLogsBody (w : World) (h : List Event) (ctx : Ctx) (cid : GoString) :
    RunOut × List Event :=
  let sr := w.containerStart h ctx cid
  let t1 := [Event.containerStart ctx cid sr]
  match sr with
  | some e => (⟨[], [], 0, some (wrapErr (str "start: ") e)⟩, t1)
  | none =>
    let wr := w.containerWait (h ++ t1) ctx cid
    let t2 := t1 ++ [Event.containerWait ctx cid wr]
    match wr with
    | .errCh (some e) => (⟨[], [], 0, some (wrapErr (str "wait: ") e)⟩, t2)
    | .errCh none =>
      let l := collectLogs w (h ++ t2) ctx cid 0
      (l.1, t2 ++ l.2)
    | .status code =>
      let l := collectLogs w (h ++ t2) ctx cid code
      (l.1, t2 ++ l.2)

/-- Source: `runWithLogs`. -/
def runWithLogs (w : World) (h : List Event) (ctx : Ctx) (image volName : GoString)
    (cmd : List GoString) (netEnabled : Bool) (res : Option Resources) : RunOut × List Event :=
  let networkMode : GoString := if netEnabled then [] else str "none"
  let hostCfg : HostConfig :=
    { NetworkMode := networkMode
      Mounts := [{ Typ := .volume, Source := volName, Target := str "/repo" }]
      Resources := match res with
        | some r => r
        | none => {} }
  let cfg : Config := { Image := image, Cmd := cmd, Tty := false }
  let cr := w.containerCreate h ctx cfg hostCfg
  let t1 := [Event.containerCreate ctx cfg hostCfg cr]
  match cr with
  | .failed e => (⟨[], [], 0, some (wrapErr (str "create: ") e)⟩, t1)
  | .created cid =>
    let b := runWithLogsBody w (h ++ t1) ctx cid
    (b.1, t1 ++ b.2 ++ stopAndRemove w (h ++ t1 ++ b.2) cid 5)

/-- Source: `runOneShot`. -/
def runOneShot (w : World) (h : List Event) (ctx : Ctx) (image volName : GoString)
    (cmd : List GoString) (expectZeroExit : Bool) (res : Option Resources) :
    Option GoError × List Event :=
  let r := runWithLogs w h ctx image volName cmd false res
  match r.1.err with
  | some err =>
    (some (wrapErr (Join cmd (str " ") ++ str " failed (exit=" ++ fmtInt r.1.exitCode
      ++ str ")\nstdout:\n" ++ r.1.stdout ++ str "\nstderr:\n" ++ r.1.stderr ++ str "\nerr: ") err),
     r.2)
  | none =>
    if expectZeroExit = true ∧ r.1.exitCode ≠ 0 then
      (some (newErr (Join cmd (str " ") ++ str " exit code=" ++ fmtInt r.1.exitCode)), r.2)
    else (none, r.2)

/-- Source: `runOneShotNet`. -/
def runOneShotNet (w : World) (h : List Event) (ctx : Ctx) (image volName : GoString)
    (cmd : List GoString) (expectZeroExit : Bool) (res : Option Resources) (netEnabled : Bool) :
    Option GoError × List Event :=
  let r := runWithLogs w h ctx image volName cmd netEnabled res
  match r.1.err with
  | some err =>
    (some (wrapErr (Join cmd (str " ") ++ str " failed (exit=" ++ fmtInt r.1.exitCode
      ++ str ")\nstdout:\n" ++ r.1.stdout ++ str "\nstderr:\n" ++ r.1.stderr ++ str "\nerr: ") err),
     r.2)
  | none =>
    if expectZeroExit = true ∧ r.1.exitCode ≠ 0 then
      (some (newErr (Join cmd (str " ") ++ str " exit code=" ++ fmtInt r.1.exitCode
        ++ str "\nstdout:\n" ++ r.1.stdout ++ str "\nstderr:\n" ++ r.1.stderr)), r.2)
    else (none, r.2)

/-- Source: `copyBytesToVolume`, lines 284-315: everything after the deferred
cleanup has been registered. -/
def copyBytesToVolumeBody (w : World) (h : List Event) (ctx : Ctx) (cid destPath : GoString)
    (data : List Byte) : Option GoError × List Event :=
  let sr := w.containerStart h ctx cid
  let t1 := [Event.containerStart ctx cid sr]
  match sr with
  | some e => (some (wrapErr (str "copy helper start: ") e), t1)
  | none =>
    let hdr : TarFile := { Name := destPath, Mode := 0o644, Size := data.length, Data := data }
    match w.tarWriteHeader hdr with
    | some e => (some e, t1)
    | none =>
    match w.tarWrite hdr with
    | some e => (some e, t1)
    | none =>
    match w.tarClose hdr with
    | some e => (some e, t1)
    | none =>
      let cr := w.copyToContainer (h ++ t1) ctx cid (str "/repo") hdr true
      let t2 := t1 ++ [Event.copyToContainer ctx cid (str "/repo") hdr true cr]
      match cr with
      | some e => (some e, t2)
      | none => (none, t2)

/-- Source: `copyBytesToVolume`. -/
def copyBytesToVolume (w : World) (h : List Event) (ctx : Ctx) (volName destPath : GoString)
    (data : List Byte) : Option GoError × List Event :=
  let cfg : Config := { Image := str "alpine/git:latest", Cmd := [str "sleep", str "60"], Tty := false }
  let hostCfg : HostConfig :=
    { Mounts := [{ Typ := .volume, Source := volName, Target := str "/repo" }] }
  let cr := w.containerCreate h ctx cfg hostCfg
  let t1 := [Event.containerCreate ctx cfg hostCfg cr]
  match cr with
  | .failed e => (some (wrapErr (str "copy helper create: ") e), t1)
  | .created cid =>
    let b := copyBytesToVolumeBody w (h ++ t1) ctx cid destPath data
    (b.1, t1 ++ b.2 ++ stopAndRemove w (h ++ t1 ++ b.2) cid 2)

/-- The constant `gitImage`. -/
def gitImage : GoString := str "alpine/git:latest"

/-- Source: `RunTests`, lines 114-128: the test phase and the assembly of the
result. -/
def runTestPhase (w : World) (h : List Event) (volName image cmd : GoString) : RunTestsOut :=
  let testCmd := [str "sh", str "-c", str "cd /repo && " ++ cmd]
  let r := runWithLogs w h .phase image volName testCmd false
    (some { Memory := 1073741824, NanoCPUs := 2000000000 })
  let res : TestResult :=
    { Stdout := r.1.stdout, Stderr := r.1.stderr, ExitCode := r.1.exitCode
      OK := decide (r.1.err = none ∧ r.1.exitCode = 0) }
  match r.1.err with
  | some err => ⟨some res, some (wrapErr (str "test run: ") err), r.2⟩
  | none => ⟨some res, none, r.2⟩

/-- Source: `RunTests`, lines 97-128: the optional patch phase, then the test
phase. -/
def runPatchPhase (w : World) (h : List Event) (volName finalPatch image cmd : GoString) :
    RunTestsOut :=
  if TrimSpace finalPatch ≠ [] then
    let c := copyBytesToVolume w h .phase volName (str "patch.diff") finalPatch
    match c.1 with
    | some err => ⟨none, some (wrapErr (str "copy patch: ") err), c.2⟩
    | none =>
      let applyCmd := [str "-C", str "/repo", str "apply", str "patch.diff"]
      let a := runOneShot w (h ++ c.2) .phase (str "alpine/git:latest") volName applyCmd true none
      match a.1 with
      | some err => ⟨none, some (wrapErr (str "git apply: ") err), c.2 ++ a.2⟩
      | none =>
        let t := runTestPhase w (h ++ c.2 ++ a.2) volName image cmd
        ⟨t.res, t.err, c.2 ++ a.2 ++ t.events⟩
  else runTestPhase w h volName image cmd

/-- Source: `RunTests`, lines 71-128: everything after the deferred volume
removal has been registered. -/
def runPhases (w : World) (h : List Event) (volName repoURL startCommit finalPatch image cmd :
    GoString) : RunTestsOut :=
  let p := pullIfNeeded w h .phase gitImage
  match p.1 with
  | some err => ⟨none, some (wrapErr (str "pull " ++ gitImage ++ str ": ") err), p.2⟩
  | none =>
    let cl := runOneShotNet w (h ++ p.2) .phase gitImage volName
      [str "clone", repoURL, str "/repo"] true none true
    match cl.1 with
    | some err => ⟨none, some (wrapErr (str "git clone phase: ") err), p.2 ++ cl.2⟩
    | none =>
      let c := TrimSpace startCommit
      if c ≠ [] ∧ c ≠ str "HEAD" then
        let co := runOneShotNet w (h ++ p.2 ++ cl.2) .phase gitImage volName
          [str "-C", str "/repo", str "checkout", c] true none true
        match co.1 with
        | some err =>
          ⟨none, some (wrapErr (str "git checkout " ++ w.quote c ++ str ": ") err),
            p.2 ++ cl.2 ++ co.2⟩
        | none =>
          let r := runPatchPhase w (h ++ p.2 ++ cl.2 ++ co.2) volName finalPatch image cmd
          ⟨r.res, r.err, p.2 ++ cl.2 ++ co.2 ++ r.events⟩
      else
        let r := runPatchPhase w (h ++ p.2 ++ cl.2) volName finalPatch image cmd
        ⟨r.res, r.err, p.2 ++ cl.2 ++ r.events⟩

/-- Source: `RunTests`.  The deferred volume removal runs after `runPhases`
has produced the return values, on `context.Background()`, forced; its error
is only logged. -/
def RunTests (w : World) (h : List Event) (repoURL startCommit finalPatch image cmd : GoString) :
    RunTestsOut :=
  match w.newClient with
  | some err => ⟨none, some (wrapErr (str "docker client: ") err), []⟩
  | none =>
    let pr := w.ping h .caller
    let t0 := [Event.ping .caller pr]
    match pr with
    | some err =>
      ⟨none, some (wrapErr (str "cannot reach docker daemon (" ++ w.dockerHost ++ str "): ") err),
        t0⟩
    | none =>
      let p := pullIfNeeded w (h ++ t0) .phase image
      match p.1 with
      | some err =>
        ⟨none, some (wrapErr (str "pull test image " ++ image ++ str ": ") err), t0 ++ p.2⟩
      | none =>
        let volName := str "qa-runner-" ++ fmtInt (w.now (h ++ t0 ++ p.2))
        let vr := w.volumeCreate (h ++ t0 ++ p.2) .phase volName
        let t1 := t0 ++ p.2 ++ [Event.volumeCreate .phase volName vr]
        match vr with
        | some err => ⟨none, some (wrapErr (str "volume create: ") err), t1⟩
        | none =>
          let r := runPhases w (h ++ t1) volName repoURL startCommit finalPatch image cmd
          let rm := Event.volumeRemove .background volName true
            (w.volumeRemove (h ++ t1 ++ r.events) .background volName true)
          ⟨r.res, r.err, t1 ++ r.events ++ [rm]⟩

/-! ## The pipeline as a gated sequence of stages -/

/-- The stages of a validation run, in the order of the specification's state
machine (`client` is the construction of the engine client, which makes no
engine call). -/
inductive Stage where
  | client
  | ping
  | pullTest
  | volume
  | pullGit
  | clone
  | checkout
  | inject
  | apply
  | test
  deriving DecidableEq, Repr

/-- The name `RunTests` gives the workspace volume: `"qa-runner-"` followed by
the clock reading taken once the daemon check and the pull of the test image
are done. -/
def workspaceName (w : World) (h : List Event) (image : GoString) : GoString :=
  str "qa-runner-" ++ fmtInt (w.now (h ++ [Event.ping .caller (w.ping h .caller)]
    ++ (pullIfNeeded w (h ++ [Event.ping .caller (w.ping h .caller)]) .phase image).2))

/-- The resource limits of the test container. -/
def testLimits : Resources := { Memory := 1073741824, NanoCPUs := 2000000000 }

/-- The command of the test container. -/
def testCmd (cmd : GoString) : List GoString := [str "sh", str "-c", str "cd /repo && " ++ cmd]

/-- The command of the clone container. -/
def cloneCmd (repoURL : GoString) : List GoString := [str "clone", repoURL, str "/repo"]

/-- The command of the checkout container, for the trimmed commit `c`. -/
def checkoutArgs (c : GoString) : List GoString := [str "-C", str "/repo", str "checkout", c]

/-- The command of the patch-apply container. -/
def applyCmd : List GoString := [str "-C", str "/repo", str "apply", str "patch.diff"]

/-- The command of the helper container of `copyBytesToVolume`. -/
def helperCmd : List GoString := [str "sleep", str "60"]

/-- The call `RunTests` makes for each stage, with the arguments it passes, as
a function of the history at the time of the call: the error the call returns
and the events it emits. -/
def stageCall (w : World) (volName repoURL startCommit finalPatch image cmd : GoString) :
    Stage → List Event → Option GoError × List Event
  | .client, _ => (w.newClient, [])
  | .ping, h => (w.ping h .caller, [Event.ping .caller (w.ping h .caller)])
  | .pullTest, h => pullIfNeeded w h .phase image
  | .volume, h =>
    (w.volumeCreate h .phase volName, [Event.volumeCreate .phase volName (w.volumeCreate h .phase volName)])
  | .pullGit, h => pullIfNeeded w h .phase gitImage
  | .clone, h => runOneShotNet w h .phase gitImage volName (cloneCmd repoURL) true none true
  | .checkout, h =>
    runOneShotNet w h .phase gitImage volName (checkoutArgs (TrimSpace startCommit)) true none true
  | .inject, h => copyBytesToVolume w h .phase volName (str "patch.diff") finalPatch
  | .apply, h => runOneShot w h .phase (str "alpine/git:latest") volName applyCmd true none
  | .test, h =>
    let r := runWithLogs w h .phase image volName (testCmd cmd) false (some testLimits)
    (r.1.err, r.2)

/-- The patch stages: present unless the trimmed patch is empty. -/
def patchStages (finalPatch : GoString) : List Stage :=
  if TrimSpace finalPatch ≠ [] then [.inject, .apply] else []

/-- The checkout stage: present unless the trimmed start commit is empty or
`HEAD`. -/
def checkoutStages (startCommit : GoString) : List Stage :=
  if TrimSpace startCommit ≠ [] ∧ TrimSpace startCommit ≠ str "HEAD" then [.checkout] else []

/-- The stages between the creation of the workspace volume and the test
phase. -/
def phaseStages (startCommit finalPatch : GoString) : List Stage :=
  [.pullGit, .clone] ++ checkoutStages startCommit ++ patchStages finalPatch

/-- The stages a run goes through before the test phase when nothing fails. -/
def setupPlan (startCommit finalPatch : GoString) : List Stage :=
  [.client, .ping, .pullTest, .volume] ++ phaseStages startCommit finalPatch

/-- All stages of a run when nothing fails. -/
def plan (startCommit finalPatch : GoString) : List Stage :=
  setupPlan startCommit finalPatch ++ [.test]

/-- Gated sequential execution: the stages run in the given order, each one at
most once and only when every earlier one returned no error; the first error
ends the run.  Returns the failing stage with its error, if any, and the
events of all stages that ran. -/
def runStages (call : Stage → List Event → Option GoError × List Event) :
    List Stage → List Event → Option (Stage × GoError) × List Event
  | [], _ => (none, [])
  | s :: rest, h =>
    match (call s h).1 with
    | some e => (some (s, e), (call s h).2)
    | none =>
      let r := runStages call rest (h ++ (call s h).2)
      (r.1, (call s h).2 ++ r.2)

/-- The text `RunTests` puts in front of the error of a failed stage. -/
def stagePrefix (w : World) (startCommit image : GoString) : Stage → GoString
  | .client => str "docker client: "
  | .ping => str "cannot reach docker daemon (" ++ w.dockerHost ++ str "): "
  | .pullTest => str "pull test image " ++ image ++ str ": "
  | .volume => str "volume create: "
  | .pullGit => str "pull " ++ gitImage ++ str ": "
  | .clone => str "git clone phase: "
  | .checkout => str "git checkout " ++ w.quote (TrimSpace startCommit) ++ str ": "
  | .inject => str "copy patch: "
  | .apply => str "git apply: "
  | .test => str "test run: "

/-- The stages whose failure happens before the workspace volume exists. -/
def beforeVolume : Stage → Bool
  | .client | .ping | .pullTest | .volume => true
  | _ => false

/-- Whether the run got past the creation of the workspace volume, given the
failing stage, if any. -/
def volumeExists : Option (Stage × GoError) → Bool
  | none => true
  | some f => !beforeVolume f.1

/-- The result `RunTests` assembles from the values returned by the test
phase. -/
def assemble (r : RunOut) : TestResult :=
  { Stdout := r.stdout, Stderr := r.stderr, ExitCode := r.exitCode
    OK := decide (r.err = none ∧ r.exitCode = 0) }

/-- The values the test phase returns when it is started at history `h`. -/
def testOut (w : World) (volName image cmd : GoString) (h : List Event) : RunOut :=
  (runWithLogs w h .phase image volName (testCmd cmd) false (some testLimits)).1

/-- The result of a gated run of the stages `pre` followed by the test phase:
assembled from the test phase when every stage of `pre` succeeded, absent
otherwise. -/
def resultAfter (call : Stage → List Event → Option GoError × List Event)
    (out : List Event → RunOut) (pre : List Stage) (h : List Event) : Option TestResult :=
  match (runStages call pre h).1 with
  | none => some (assemble (out (h ++ (runStages call pre h).2)))
  | some _ => none

/-- What it means for the values `o` returned by a part of `RunTests` started
at history `h` to be those of the gated run of `pre` followed by the test
phase. -/
def Refines (w : World) (vol repoURL startCommit finalPatch image cmd : GoString)
    (pre : List Stage) (h : List Event) (o : RunTestsOut) : Prop :=
  o.err = (runStages (stageCall w vol repoURL startCommit finalPatch image cmd)
      (pre ++ [.test]) h).1.map (fun f => wrapErr (stagePrefix w startCommit image f.1) f.2) ∧
  o.events = (runStages (stageCall w vol repoURL startCommit finalPatch image cmd)
      (pre ++ [.test]) h).2 ∧
  o.res = resultAfter (stageCall w vol repoURL startCommit finalPatch image cmd)
      (testOut w vol image cmd) pre h

/-- The engine call that opens a stage, with its arguments. -/
inductive Op where
  | ping (ctx : Ctx)
  | imagePull (ctx : Ctx) (ref : GoString)
  | volumeCreate (ctx : Ctx) (name : GoString)
  | containerCreate (ctx : Ctx) (cfg : Config) (host : HostConfig)
  deriving DecidableEq, Repr

/-- The stage-opening call recorded by an event; `none` for the calls made on
an existing container (start, wait, logs, upload) and for the cleanup calls
(stop, remove, volume remove). -/
def Event.op : Event → Option Op
  | .ping ctx _ => some (.ping ctx)
  | .imagePull ctx ref _ => some (.imagePull ctx ref)
  | .volumeCreate ctx name _ => some (.volumeCreate ctx name)
  | .containerCreate ctx cfg host _ => some (.containerCreate ctx cfg host)
  | _ => none

/-- The host configuration `runWithLogs` builds. -/
def phaseHost (volName : GoString) (netEnabled : Bool) (res : Option Resources) : HostConfig :=
  { NetworkMode := if netEnabled then [] else str "none"
    Mounts := [{ Typ := .volume, Source := volName, Target := str "/repo" }]
    Resources := match res with
      | some r => r
      | none => {} }

/-- The host configuration `copyBytesToVolume` builds. -/
def helperHost (volName : GoString) : HostConfig :=
  { Mounts := [{ Typ := .volume, Source := volName, Target := str "/repo" }] }

/-- The call that opens each stage of `RunTests`, in the fixed order of the
pipeline; the construction of the client makes no engine call. -/
def stageOp (volName repoURL startCommit image cmd : GoString) : Stage → Option Op
  | .client => none
  | .ping => some (.ping .caller)
  | .pullTest => some (.imagePull .phase (imageRef image))
  | .volume => some (.volumeCreate .phase volName)
  | .pullGit => some (.imagePull .phase (imageRef gitImage))
  | .clone =>
    some (.containerCreate .phase ⟨gitImage, cloneCmd repoURL, false⟩ (phaseHost volName true none))
  | .checkout =>
    some (.containerCreate .phase ⟨gitImage, checkoutArgs (TrimSpace startCommit), false⟩
      (phaseHost volName true none))
  | .inject =>
    some (.containerCreate .phase ⟨str "alpine/git:latest", helperCmd, false⟩ (helperHost volName))
  | .apply =>
    some (.containerCreate .phase ⟨str "alpine/git:latest", applyCmd, false⟩
      (phaseHost volName false none))
  | .test =>
    some (.containerCreate .phase ⟨image, testCmd cmd, false⟩
      (phaseHost volName false (some testLimits)))

/-- The events `t` of a stage open with the call `o` and make no other
stage-opening call; a stage without opening call makes none at all. -/
def Opens (o : Option Op) (t : List Event) : Prop :=
  match o with
  | none => ∀ x ∈ t, x.op = none
  | some op => ∃ e tail, t = e :: tail ∧ e.op = some op ∧ ∀ x ∈ tail, x.op = none

/-- The four phases before the test phase. -/
def isSetupPhase : Stage → Bool
  | .clone | .checkout | .inject | .apply => true
  | _ => false

/-- The calls made on containers: create, start, wait, logs, upload, stop and
remove. -/
def Event.isContainerEvent : Event → Bool
  | .containerCreate .. | .containerStart .. | .containerWait .. | .containerLogs ..
  | .containerStop .. | .containerRemove .. | .copyToContainer .. => true
  | _ => false

/-- The removals of a volume. -/
def Event.isVolumeRemove : Event → Bool
  | .volumeRemove .. => true
  | _ => false

/-- The creations of a volume. -/
def Event.isVolumeCreate : Event → Bool
  | .volumeCreate .. => true
  | _ => false

/-- Every container the events show as created is later stopped and then
forcibly removed, both on `context.Background()`, before any further
stage-opening call (in particular before any other container is created). -/
def CleanedUp (t : List Event) : Prop :=
  ∀ pre post ctx cfg host cid,
    t = pre ++ Event.containerCreate ctx cfg host (.created cid) :: post →
    ∃ mid timeout s r rest,
      post = mid ++ Event.containerStop .background cid timeout s ::
        Event.containerRemove .background cid true r :: rest ∧
      ∀ x ∈ mid, x.op = none

/-- The string consists only of white space: it is the concatenation of the
UTF-8 encodings of code points for which `unicode.IsSpace` holds (the empty
string included). -/
def onlyWhitespace (s : GoString) : Prop :=
  ∃ runes : List Nat, (∀ r ∈ runes, r ∈ spaceRunes) ∧ s = runes.flatMap encodeRune

/-- The archive uploads. -/
def Event.isCopy : Event → Bool
  | .copyToContainer .. => true
  | _ => false

/-! ## The multiplexed log stream -/

/-- The stream a frame of the multiplexed log stream is tagged with. -/
inductive StreamTag where
  | stdout
  | stderr
  deriving DecidableEq, Repr

/-- The stream type byte of a frame header: 1 for stdout, 2 for stderr. -/
def StreamTag.toByte : StreamTag → Byte
  | .stdout => 1
  | .stderr => 2

/-- The 8-byte header of a frame: the stream type, three zero bytes, and the
payload length as a big-endian 32-bit number. -/
def frameHeader (tag : StreamTag) (n : Nat) : List Byte :=
  [tag.toByte, 0, 0, 0, byte (n / 16777216), byte (n / 65536), byte (n / 256), byte n]

/-- One frame on the wire: header, then payload. -/
def encodeFrame (f : StreamTag × List Byte) : List Byte :=
  frameHeader f.1 f.2.length ++ f.2

/-- A sequence of frames on the wire. -/
def encodeFrames (fs : List (StreamTag × List Byte)) : List Byte :=
  fs.flatMap encodeFrame

/-- Every payload length fits the 32-bit length field of the header. -/
def WellFormed (fs : List (StreamTag × List Byte)) : Prop :=
  ∀ f ∈ fs, f.2.length < 4294967296

/-- The concatenation, in order, of the payloads of the frames tagged `tag`. -/
def payloads (tag : StreamTag) (fs : List (StreamTag × List Byte)) : List Byte :=
  (fs.filter (fun f => f.1 = tag)).flatMap (fun f => f.2)

/-! ## Reading a decimal back -/

/-- The number written by a sequence of decimal digits (bytes `0`..`9`),
most significant first. -/
def parseNat (s : List Byte) : Nat :=
  s.foldl (fun acc b => acc * 10 + (b.val - 48)) 0

/-- The integer written by an optional minus sign followed by decimal
digits. -/
def parseInt : List Byte → Int
  | [] => 0
  | b :: rest => if b.val = 45 then -((parseNat rest : Nat) : Int) else (parseNat (b :: rest) : Nat)

/-- The clock reading (`time.Now().UnixNano()`) from which `RunTests` makes
the name of the workspace volume: it is taken once the daemon check and the
pull of the test image are done. -/
def volumeClock (w : World) (h : List Event) (image : GoString) : Int :=
  w.now (h ++ [Event.ping .caller (w.ping h .caller)]
    ++ (pullIfNeeded w (h ++ [Event.ping .caller (w.ping h .caller)]) .phase image).2)

/-! ## The worker (`internal/worker/worker.go`) -/

/-- A decoded JSON value, as `encoding/json` decodes into `any`: `nil`, `bool`,
`float64` (kept as its text, the code never looks at a number), `string`,
`[]any` and `map[string]any`. -/
inductive JSON where
  | null
  | bool (b : Bool)
  | number (text : GoString)
  | string (s : GoString)
  | array (elems : List JSON)
  | object (fields : List (GoString × JSON))

/-- A `map[string]any`: the fields of a JSON object; `m[k]` is the first
field with key `k`. -/
abbrev Obj := List (GoString × JSON)

/-- The type assertion `m[k].(string)`. -/
def Obj.asString (m : Obj) (k : GoString) : Option GoString :=
  match m.lookup k with
  | some (.string s) => some s
  | _ => none

/-- The Go struct `JudgeResult`; the scores are whole numbers in the source. -/
structure JudgeResult where
  Model : GoString
  RubricVersion : GoString
  Scores : List (GoString × Int)
  Overall : Int
  Comments : GoString
  deriving DecidableEq, Repr

/-- Source: `Judge` (`internal/qa/judge.go`). -/
def Judge (_traceSummary model : GoString) : JudgeResult :=
  { Model := model
    RubricVersion := str "v1"
    Scores := [(str "problem_understanding", 4), (str "investigation_strategy", 4),
      (str "decision_rationale", 4), (str "use_of_evidence", 4), (str "reproducibility", 4),
      (str "safety_privacy_awareness", 4)]
    Overall := 4
    Comments := str "stub" }

/-- The value under `"tests"` of the document `handleQA` stores. -/
structure TestsDoc where
  runner : GoString
  image : GoString
  command : GoString
  ok : Bool
  stdout : GoString
  stderr : GoString
  exit_code : Int
  deriving DecidableEq, Repr

/-- The document `qaOut` that `handleQA` stores after a run without error. -/
structure QAOut where
  tests : TestsDoc
  judge : JudgeResult
  deriving DecidableEq, Repr

/-- One call `handleQA` makes to the database, the object store or the
runner, with its arguments and its answer.  `setQAError id text` is the
statement that sets the key `error` of the `qa` document of trace `id` to
`text`; `setQA b id` is the statement that sets the `qa` document of trace
`id` to `b`. -/
inductive WEvent where
  | selectRefs (traceID : GoString) (r : Except GoError (List GoString))
  | getJSON (ref : GoString) (r : Except GoError Obj)
  | getTask (traceID : GoString) (r : Except GoError (List Byte))
  | runTests (repositoryURL startCommit patch testImage testCommand : GoString)
      (res : Option TestResult) (err : Option GoError)
  | setQAError (traceID text : GoString) (r : Option GoError)
  | setQA (b : List Byte) (traceID : GoString) (r : Option GoError)

/-- Everything outside `worker.go`: the database, the object store, the
runner (`qa.RunTests`, here free to return any pair), the JSON library and the
environment.  The stateful ones answer from the history of earlier calls. -/
structure Server where
  /-- `select object_ref from event_batches where trace_id=$1` -/
  selectRefs : List WEvent → GoString → Except GoError (List GoString)
  /-- `s.S3.GetJSON` -/
  getJSON : List WEvent → GoString → Except GoError Obj
  /-- `select task from traces where id=$1` -/
  getTask : List WEvent → GoString → Except GoError (List Byte)
  /-- `json.Unmarshal` into a `map[string]any` -/
  unmarshal : List Byte → Except GoError Obj
  /-- `qa.RunTests` -/
  runTests : List WEvent → GoString → GoString → GoString → GoString → GoString →
    Option TestResult × Option GoError
  /-- `os.Getenv("LLM_MODEL")` -/
  llmModel : GoString
  /-- `json.Marshal(qaOut)`, whose error the code discards -/
  marshal : QAOut → List Byte
  /-- the `UPDATE traces SET qa = jsonb_set(..., '{error}', ...)` statement -/
  setQAError : List WEvent → GoString → GoString → Option GoError
  /-- the `update traces set qa=$1 where id=$2` statement -/
  setQA : List WEvent → List Byte → GoString → Option GoError

/-- How a call of `handleQA` ends: it returns an error value (nil or not), or
it dereferences the nil result of a run that returned no error either. -/
inductive Outcome where
  | returned (err : Option GoError)
  | panicked
  deriving DecidableEq, Repr

/-- What `handleQA` returns and the calls it made. -/
structure HandleOut where
  ret : Outcome
  events : List WEvent

/-- Source: `handleQA`, lines 60-66: the object-typed elements of one `events`
array are appended, in order, to the events collected so far. -/
def appendObjects : List JSON → List Obj → List Obj
  | [], events => events
  | .object em :: rest, events => appendObjects rest (events ++ [em])
  | _ :: rest, events => appendObjects rest events

/-- Source: `handleQA`, lines 44-67: the loop over the object references.  A
failed fetch ends `handleQA` with that error; a document without an `events`
array is skipped. -/
def collectEvents (sv : Server) : List WEvent → List GoString → List Obj →
    Except GoError (List Obj) × List WEvent
  | _, [], events => (.ok events, [])
  | h, ref :: rest, events =>
    let d := sv.getJSON h ref
    let t := [WEvent.getJSON ref d]
    match d with
    | .error e => (.error e, t)
    | .ok doc =>
      match doc.lookup (str "events") with
      | some (.array evsAny) =>
        let r := collectEvents sv (h ++ t) rest (appendObjects evsAny events)
        (r.1, t ++ r.2)
      | _ =>
        let r := collectEvents sv (h ++ t) rest events
        (r.1, t ++ r.2)

/-- The comparison `e["op"] == "replace"` of an `any` with a string. -/
def isReplace (e : Obj) : Bool :=
  match e.lookup (str "op") with
  | some (.string s) => decide (s = str "replace")
  | _ => false

/-- Source: `handleQA`, lines 69-77: the loop that picks the patch; it stops
at the first event it takes the patch from. -/
def selectPatch : List Obj → GoString
  | [] => []
  | e :: rest =>
    if isReplace e then
      match e.asString (str "patch_unified") with
      | some v => v
      | none => selectPatch rest
    else selectPatch rest

/-- Source: `handleQA`, lines 113-137: the call of the runner and the
recording of its outcome.  An error of the runner is written to the trace and
`handleQA` returns nil whatever the result of that write; without error the
tests result is stored and the result of that write is returned. -/
def recordRun (sv : Server) (h : List WEvent)
    (id repositoryURL startCommit patch testImage testCommand : GoString) : HandleOut :=
  let rr := sv.runTests h repositoryURL startCommit patch testImage testCommand
  let t := [WEvent.runTests repositoryURL startCommit patch testImage testCommand rr.1 rr.2]
  match rr.2 with
  | some err =>
    let x := sv.setQAError (h ++ t) id err.Error
    ⟨.returned none, t ++ [WEvent.setQAError id err.Error x]⟩
  | none =>
    match rr.1 with
    | none => ⟨.panicked, t⟩
    | some res =>
      let b := sv.marshal
        { tests := { runner := str "docker", image := testImage, command := testCommand
                     ok := res.OK, stdout := res.Stdout, stderr := res.Stderr
                     exit_code := res.ExitCode }
          judge := Judge (str "(summary)") sv.llmModel }
      let x := sv.setQA (h ++ t) b id
      ⟨.returned x, t ++ [WEvent.setQA b id x]⟩

/-- Source: `handleQA`. -/
def handleQA (sv : Server) (h : List WEvent) (id : GoString) : HandleOut :=
  let r0 := sv.selectRefs h id
  let t0 := [WEvent.selectRefs id r0]
  match r0 with
  | .error e => ⟨.returned (some e), t0⟩
  | .ok object_refs =>
    let c := collectEvents sv (h ++ t0) object_refs []
    match c.1 with
    | .error e => ⟨.returned (some e), t0 ++ c.2⟩
    | .ok events =>
      let patch := selectPatch events
      let tr := sv.getTask (h ++ t0 ++ c.2) id
      let t1 := t0 ++ c.2 ++ [WEvent.getTask id tr]
      match tr with
      | .error e => ⟨.returned (some e), t1⟩
      | .ok taskJSON =>
        match sv.unmarshal taskJSON with
        | .error e => ⟨.returned (some e), t1⟩
        | .ok task =>
          let startCommit := (task.asString (str "commit")).getD []
          let repositoryURL := (task.asString (str "repository")).getD []
          let testImage := (task.asString (str "test_image")).getD (str "golang:1.22")
          let testCommand := (task.asString (str "test_command")).getD (str "go test ./...")
          let r := recordRun sv (h ++ t1) id repositoryURL startCommit patch testImage testCommand
          ⟨r.ret, t1 ++ r.events⟩

/-- The patch-type edit events: op `replace` and a string `patch_unified`. -/
def isPatchEvent (e : Obj) : Bool :=
  isReplace e && (e.asString (str "patch_unified")).isSome

/-- The `patch_unified` string of an event (empty when it has none). -/
def patchOf (e : Obj) : GoString := (e.asString (str "patch_unified")).getD []

/-- The patch of the most recent patch-type edit event, as the specification
words it: the last one in batch order, the empty string when there is none. -/
def mostRecentPatch (events : List Obj) : GoString :=
  match (events.filter isPatchEvent).getLast? with
  | some e => patchOf e
  | none => []

/-- The patch of the first patch-type edit event in batch order, the empty
string when there is none. -/
def firstPatch (events : List Obj) : GoString :=
  match events.find? isPatchEvent with
  | some e => patchOf e
  | none => []

/-- The object-typed elements of the `events` array of a batch document, in
order; nothing when `events` is missing or not an array. -/
def objectEvents (doc : Obj) : List Obj :=
  match doc.lookup (str "events") with
  | some (.array elems) =>
    elems.filterMap (fun e => match e with
      | .object em => some em
      | _ => none)
  | _ => []

/-- The documents the fetches recorded in `t` returned, in order. -/
def fetchedDocs (t : List WEvent) : List Obj :=
  t.filterMap (fun x => match x with
    | .getJSON _ (.ok doc) => some doc
    | _ => none)

/-- The references the fetches recorded in `t` asked for, in order. -/
def fetchedRefs (t : List WEvent) : List GoString :=
  t.filterMap (fun x => match x with
    | .getJSON ref _ => some ref
    | _ => none)

/-- The patch of the first call of the runner recorded in `t`. -/
def passedPatch (t : List WEvent) : Option GoString :=
  t.findSome? (fun x => match x with
    | .runTests _ _ patch _ _ _ _ => some patch
    | _ => none)

/-- The statements that store a tests result. -/
def WEvent.isSetQA : WEvent → Bool
  | .setQA .. => true
  | _ => false

/-! ## Object references (`internal/storage/s3.go`) -/

/-- Model of `strings.HasPrefix`. -/
def HasPrefix (s p : GoString) : Bool := p.isPrefixOf s

/-- Model of `strings.TrimPrefix`. -/
def TrimPrefix (s p : GoString) : GoString :=
  if HasPrefix s p then s.drop p.length else s

/-- Model of `strings.IndexByte`: the index of the first occurrence of `c` in
`s`, or -1. -/
def IndexByte : GoString → Byte → Int
  | [], _ => -1
  | b :: rest, c =>
    if b = c then 0
    else if IndexByte rest c < 0 then -1
    else IndexByte rest c + 1

/-- Source: `parseS3Ref`.  The three returned values are the bucket, the key
and the error; `quote` is `strconv.Quote`, behind the `%q` verb; the byte 47
is `'/'`. -/
def parseS3Ref (quote : GoString → GoString) (ref : GoString) :
    GoString × GoString × Option GoError :=
  let p := str "s3://"
  if ¬ HasPrefix ref p = true then
    ([], [], some (newErr (str "bad s3 ref (missing s3://): " ++ quote ref)))
  else
    let s := TrimPrefix ref p
    let slash := IndexByte s 47
    if slash ≤ 0 ∨ slash = (s.length : Int) - 1 then
      ([], [], some (newErr (str "bad s3 ref (need bucket/key): " ++ quote ref)))
    else (s.take slash.toNat, s.drop (slash + 1).toNat, none)

/-- The Go struct `Client` of the storage package: the bucket it works on (the
S3 handle is the environment below). -/
structure Client where
  bucket : GoString
  deriving DecidableEq, Repr

/-- Everything `PutJSON` calls outside `s3.go`. -/
structure Store where
  /-- `uuid.New().String()` -/
  uuid : GoString
  /-- `json.Marshal` -/
  marshal : JSON → Except GoError (List Byte)
  /-- `PutObject`, with bucket, key, body and content type -/
  putObject : GoString → GoString → List Byte → GoString → Option GoError

/-- Source: `PutJSON`: the returned reference and error. -/
def PutJSON (st : Store) (c : Client) (v : JSON) : GoString × Option GoError :=
  let key := str "batches/" ++ st.uuid ++ str ".json"
  match st.marshal v with
  | .error e => ([], some e)
  | .ok b =>
    match st.putObject c.bucket key b (str "application/json") with
    | some e => ([], some e)
    | none => (str "s3://" ++ c.bucket ++ str "/" ++ key, none)

/-! ## Scripted engines, for concrete runs -/

/-- The command of the most recently created container. -/
def lastCreatedCmd : List Event → List GoString
  | [] => []
  | e :: rest =>
    match lastCreatedCmd rest, e with
    | [], .containerCreate _ cfg _ (.created _) => cfg.Cmd
    | c, _ => c

/-- An engine in which every call succeeds: a created container gets the
number of earlier events as its id, exits with `exitOf cmd` and has the raw
log stream `logsOf cmd`, where `cmd` is the command it was created with; the
clock reads 42. -/
def scripted (exitOf : List GoString → Int) (logsOf : List GoString → List Byte) : World where
  newClient := none
  dockerHost := str "tcp://dind:2375"
  now := fun _ => 42
  quote := fun s => str "\"" ++ s ++ str "\""
  tarWriteHeader := fun _ => none
  tarWrite := fun _ => none
  tarClose := fun _ => none
  ping := fun _ _ => none
  imagePull := fun _ _ _ => .stream [] none
  volumeCreate := fun _ _ _ => none
  volumeRemove := fun _ _ _ _ => none
  containerCreate := fun h _ _ _ => .created (fmtInt h.length)
  containerStart := fun _ _ _ => none
  containerWait := fun h _ _ => .status (exitOf (lastCreatedCmd h))
  containerLogs := fun h _ _ _ _ => .stream (logsOf (lastCreatedCmd h))
  containerStop := fun _ _ _ _ => none
  containerRemove := fun _ _ _ _ => none
  copyToContainer := fun _ _ _ _ _ _ => none

/-- An engine error used in concrete runs. -/
def boom : GoError := .leaf (str "boom")

/-- An engine in which every call succeeds and every container exits with
status 0 and empty logs. -/
def allGood : World := scripted (fun _ => 0) (fun _ => [])

/-- An engine in which every call succeeds, the test container (the one whose
command starts with `sh`) exits with status 3 and every other container with
status 0; all logs are empty. -/
def exitThree : World :=
  scripted (fun c => if c.head? = some (str "sh") then 3 else 0) (fun _ => [])

/-- An engine in which every call succeeds, the patch-apply container exits
with status 1 (the patch does not apply) and every other container with
status 0. -/
def applyFails : World :=
  scripted (fun c => if c = applyCmd then 1 else 0) (fun _ => [])

/-- An engine in which every call succeeds except the start of the test
container (the one whose command starts with `sh`). -/
def testStartFails : World :=
  { allGood with
    containerStart := fun h _ _ => if (lastCreatedCmd h).head? = some (str "sh") then some boom else none }

/-- An engine whose daemon does not answer the liveness probe; every other
call would succeed. -/
def pingFails : World :=
  { allGood with ping := fun _ _ => some boom }

/-- An engine in which every call succeeds, every container exits with status
0, and the logs of the test container (the one whose command starts with `sh`)
are three frames: `out` on stdout, `err` on stderr, `more` on stdout. -/
def twoStreams : World :=
  scripted (fun _ => 0) (fun c =>
    if c.head? = some (str "sh") then
      encodeFrames [(.stdout, str "out"), (.stderr, str "err"), (.stdout, str "more")]
    else [])

/-- An engine on which every pull starts normally and its progress stream
delivers the two bytes `{}` and then ends with a read error; every other call
succeeds. -/
def pullDrainFails : World :=
  { allGood with imagePull := fun _ _ _ => .stream (str "{}") (some boom) }

/-- An engine on which no pull can be started; every other call would
succeed. -/
def pullFails : World :=
  { allGood with imagePull := fun _ _ _ => .failed boom }

/-- An engine in which every call succeeds and the patch-apply container
writes `checking` to stdout and `patch failed` to stderr and exits with
status 1; every other container exits with status 0 and empty logs. -/
def applyFailsLoud : World :=
  scripted (fun c => if c = applyCmd then 1 else 0) (fun c =>
    if c = applyCmd then
      encodeFrames [(.stdout, str "checking"), (.stderr, str "patch failed")]
    else [])

/-- An engine in which every call succeeds and whose clock reads 43. -/
def laterClock : World :=
  { allGood with now := fun _ => 43 }

/-- A patch-type edit event with the patch `A`. -/
def patchA : Obj :=
  [(str "op", .string (str "replace")), (str "patch_unified", .string (str "A"))]

/-- A patch-type edit event with the patch `B`. -/
def patchB : Obj :=
  [(str "op", .string (str "replace")), (str "patch_unified", .string (str "B"))]

/-- A batch document whose `events` array holds the event `patchA`, a number
and the event `patchB`. -/
def batchDoc : Obj :=
  [(str "events", .array [.object patchA, .number (str "5"), .object patchB])]

/-- A batch document whose `events` value is not an array. -/
def noEventsDoc : Obj := [(str "events", .string (str "none"))]

/-- A trace with two stored batches, `batchDoc` then `noEventsDoc`; every call
succeeds and the runner returns a passing result. -/
def twoPatches : Server where
  selectRefs := fun _ _ => .ok [str "s3://b/1", str "s3://b/2"]
  getJSON := fun _ ref => if ref = str "s3://b/1" then .ok batchDoc else .ok noEventsDoc
  getTask := fun _ _ => .ok []
  unmarshal := fun _ => .ok [(str "repository", .string (str "u"))]
  runTests := fun _ _ _ _ _ _ => (some ⟨true, [], [], 0⟩, none)
  llmModel := []
  marshal := fun _ => []
  setQAError := fun _ _ _ => none
  setQA := fun _ _ _ => none

/-- The same trace, with a runner that returns the error `boom` and no result
and a database that refuses the write of the error. -/
def runnerFails : Server :=
  { twoPatches with
    runTests := fun _ _ _ _ _ _ => (none, some boom)
    setQAError := fun _ _ _ => some boom }

/-- A store in which every call succeeds; the fresh identifier is `id1`. -/
def goodStore : Store where
  uuid := str "id1"
  marshal := fun _ => .ok []
  putObject := fun _ _ _ _ => none

example : str "HEAD" = [72, 69, 65, 68] := by decide
example : TrimSpace (str "  HEAD\n") = str "HEAD" := by decide
example : TrimSpace (str " \t ") = [] := by decide
example : TrimSpace (encodeRune 0x2003 ++ str "a b" ++ encodeRune 0xA0) = str "a b" := by decide
example : fmtInt 42 = str "42" := by decide
example : fmtInt (-7) = str "-7" := by decide
example : Join [str "a", str "b", str "c"] (str " ") = str "a b c" := by decide

/-! ## Gated sequences -/

theorem runStages_append (call : Stage → List Event → Option GoError × List Event)
    (a b : List Stage) (h : List Event) :
    runStages call (a ++ b) h =
      match (runStages call a h).1 with
      | some f => (some f, (runStages call a h).2)
      | none =>
        ((runStages call b (h ++ (runStages call a h).2)).1,
          (runStages call a h).2 ++ (runStages call b (h ++ (runStages call a h).2)).2) := by
  induction a generalizing h with
  | nil => simp [runStages]
  | cons s rest ih =>
    simp only [List.cons_append, runStages]
    cases hc : (call s h).1 with
    | some e => simp
    | none =>
      show ((runStages call (rest ++ b) (h ++ (call s h).2)).1,
        (call s h).2 ++ (runStages call (rest ++ b) (h ++ (call s h).2)).2) = _
      rw [ih]
      cases hr : (runStages call rest (h ++ (call s h).2)).1 with
      | some f => simp
      | none => simp [List.append_assoc]

theorem runStages_cons_none {call : Stage → List Event → Option GoError × List Event}
    {s : Stage} {h : List Event} (rest : List Stage) (hc : (call s h).1 = none) :
    runStages call (s :: rest) h =
      ((runStages call rest (h ++ (call s h).2)).1,
        (call s h).2 ++ (runStages call rest (h ++ (call s h).2)).2) := by
  simp [runStages, hc]

theorem runStages_cons_some {call : Stage → List Event → Option GoError × List Event}
    {s : Stage} {h : List Event} {e : GoError} (rest : List Stage) (hc : (call s h).1 = some e) :
    runStages call (s :: rest) h = (some (s, e), (call s h).2) := by
  simp [runStages, hc]

theorem resultAfter_nil (call : Stage → List Event → Option GoError × List Event)
    (out : List Event → RunOut) (h : List Event) :
    resultAfter call out [] h = some (assemble (out h)) := by
  simp [resultAfter, runStages]

theorem resultAfter_cons_none {call : Stage → List Event → Option GoError × List Event}
    {s : Stage} {h : List Event} (out : List Event → RunOut) (rest : List Stage)
    (hc : (call s h).1 = none) :
    resultAfter call out (s :: rest) h = resultAfter call out rest (h ++ (call s h).2) := by
  simp only [resultAfter, runStages_cons_none rest hc]
  cases (runStages call rest (h ++ (call s h).2)).1 <;> simp [List.append_assoc]

theorem resultAfter_cons_some {call : Stage → List Event → Option GoError × List Event}
    {s : Stage} {h : List Event} {e : GoError} (out : List Event → RunOut) (rest : List Stage)
    (hc : (call s h).1 = some e) :
    resultAfter call out (s :: rest) h = none := by
  simp [resultAfter, runStages_cons_some rest hc]

theorem Refines.cons_none {w : World} {vol repoURL startCommit finalPatch image cmd : GoString}
    {s : Stage} {pre : List Stage} {h : List Event} {o : RunTestsOut}
    (hc : (stageCall w vol repoURL startCommit finalPatch image cmd s h).1 = none)
    (hr : Refines w vol repoURL startCommit finalPatch image cmd pre
      (h ++ (stageCall w vol repoURL startCommit finalPatch image cmd s h).2) o) :
    Refines w vol repoURL startCommit finalPatch image cmd (s :: pre) h
      ⟨o.res, o.err, (stageCall w vol repoURL startCommit finalPatch image cmd s h).2 ++ o.events⟩ := by
  obtain ⟨h1, h2, h3⟩ := hr
  refine ⟨?_, ?_, ?_⟩
  · simp only [List.cons_append, runStages_cons_none _ hc]; exact h1
  · simp only [List.cons_append, runStages_cons_none _ hc]; rw [h2]
  · rw [resultAfter_cons_none _ _ hc]; exact h3

theorem Refines.cons_some {w : World} {vol repoURL startCommit finalPatch image cmd : GoString}
    {s : Stage} (pre : List Stage) {h : List Event} {e : GoError}
    (hc : (stageCall w vol repoURL startCommit finalPatch image cmd s h).1 = some e) :
    Refines w vol repoURL startCommit finalPatch image cmd (s :: pre) h
      ⟨none, some (wrapErr (stagePrefix w startCommit image s) e),
        (stageCall w vol repoURL startCommit finalPatch image cmd s h).2⟩ := by
  refine ⟨?_, ?_, ?_⟩
  · simp [List.cons_append, runStages_cons_some _ hc]
  · simp [List.cons_append, runStages_cons_some _ hc]
  · rw [resultAfter_cons_some _ _ hc]

theorem runTestPhase_refines (w : World) (h : List Event)
    (vol repoURL startCommit finalPatch image cmd : GoString) :
    Refines w vol repoURL startCommit finalPatch image cmd [] h
      (runTestPhase w h vol image cmd) := by
  refine ⟨?_, ?_, ?_⟩
  · cases hr : (stageCall w vol repoURL startCommit finalPatch image cmd .test h).1 with
    | none =>
      rw [List.nil_append, runStages_cons_none _ hr]
      simp only [stageCall, testCmd, testLimits] at hr
      simp [runTestPhase, runStages, testCmd, testLimits, hr]
    | some e =>
      rw [List.nil_append, runStages_cons_some _ hr]
      simp only [stageCall, testCmd, testLimits] at hr
      simp [runTestPhase, testCmd, testLimits, hr, stagePrefix]
  · cases hr : (stageCall w vol repoURL startCommit finalPatch image cmd .test h).1 with
    | none =>
      rw [List.nil_append, runStages_cons_none _ hr]
      simp only [stageCall, testCmd, testLimits] at hr
      simp [runTestPhase, runStages, stageCall, testCmd, testLimits, hr]
    | some e =>
      rw [List.nil_append, runStages_cons_some _ hr]
      simp only [stageCall, testCmd, testLimits] at hr
      simp [runTestPhase, stageCall, testCmd, testLimits, hr]
  · rw [resultAfter_nil]
    cases hr : (runWithLogs w h .phase image vol (testCmd cmd) false (some testLimits)).1.err <;>
    simp only [testCmd, testLimits] at hr <;>
    simp [runTestPhase, testOut, assemble, testCmd, testLimits, hr]

theorem runPatchPhase_refines (w : World) (h : List Event)
    (vol repoURL startCommit finalPatch image cmd : GoString) :
    Refines w vol repoURL startCommit finalPatch image cmd (patchStages finalPatch) h
      (runPatchPhase w h vol finalPatch image cmd) := by
  by_cases hp : TrimSpace finalPatch = []
  · simp only [runPatchPhase, patchStages, hp, ne_eq, not_true_eq_false, if_false]
    exact runTestPhase_refines w h vol repoURL startCommit finalPatch image cmd
  · simp only [runPatchPhase, patchStages, hp, ne_eq, not_false_eq_true, if_true]
    cases hi : (stageCall w vol repoURL startCommit finalPatch image cmd .inject h).1 with
    | some e =>
      have := Refines.cons_some [.apply] hi
      simp only [stageCall] at hi this
      simpa [hi, stagePrefix] using this
    | none =>
      cases ha : (stageCall w vol repoURL startCommit finalPatch image cmd .apply
          (h ++ (stageCall w vol repoURL startCommit finalPatch image cmd .inject h).2)).1 with
      | some e =>
        have := Refines.cons_none hi (Refines.cons_some [] ha)
        simp only [stageCall, applyCmd] at hi ha this
        simpa [hi, ha, stagePrefix] using this
      | none =>
        have := Refines.cons_none hi (Refines.cons_none ha
          (runTestPhase_refines w _ vol repoURL startCommit finalPatch image cmd))
        simp only [stageCall, applyCmd] at hi ha this
        simpa [hi, ha, List.append_assoc] using this

theorem runPhases_refines (w : World) (h : List Event)
    (vol repoURL startCommit finalPatch image cmd : GoString) :
    Refines w vol repoURL startCommit finalPatch image cmd (phaseStages startCommit finalPatch) h
      (runPhases w h vol repoURL startCommit finalPatch image cmd) := by
  simp only [phaseStages, List.cons_append, List.nil_append]
  cases hg : (stageCall w vol repoURL startCommit finalPatch image cmd .pullGit h).1 with
  | some e =>
    have := Refines.cons_some
      (.clone :: (checkoutStages startCommit ++ patchStages finalPatch)) hg
    simp only [stageCall] at hg this
    simpa [runPhases, hg, stagePrefix] using this
  | none =>
    cases hcl : (stageCall w vol repoURL startCommit finalPatch image cmd .clone
        (h ++ (stageCall w vol repoURL startCommit finalPatch image cmd .pullGit h).2)).1 with
    | some e =>
      have := Refines.cons_none hg (Refines.cons_some
        (checkoutStages startCommit ++ patchStages finalPatch) hcl)
      simp only [stageCall, cloneCmd] at hg hcl this
      simpa [runPhases, hg, hcl, stagePrefix] using this
    | none =>
      by_cases hc : TrimSpace startCommit ≠ [] ∧ TrimSpace startCommit ≠ str "HEAD"
      · simp only [checkoutStages, hc, and_self, if_true, List.cons_append, List.nil_append,
          ne_eq, not_false_eq_true]
        cases hco : (stageCall w vol repoURL startCommit finalPatch image cmd .checkout
            (h ++ (stageCall w vol repoURL startCommit finalPatch image cmd .pullGit h).2
              ++ (stageCall w vol repoURL startCommit finalPatch image cmd .clone
                (h ++ (stageCall w vol repoURL startCommit finalPatch image cmd .pullGit h).2)).2)).1 with
        | some e =>
          have := Refines.cons_none hg (Refines.cons_none hcl (Refines.cons_some
            (patchStages finalPatch) hco))
          simp only [stageCall, cloneCmd, checkoutArgs, List.append_assoc] at hg hcl hco this
          simpa [runPhases, hg, hcl, hco, hc, stagePrefix, List.append_assoc] using this
        | none =>
          have := Refines.cons_none hg (Refines.cons_none hcl (Refines.cons_none hco
            (runPatchPhase_refines w _ vol repoURL startCommit finalPatch image cmd)))
          simp only [stageCall, cloneCmd, checkoutArgs, List.append_assoc] at hg hcl hco this
          simpa [runPhases, hg, hcl, hco, hc, List.append_assoc] using this
      · simp only [checkoutStages, hc, if_false, List.nil_append]
        have := Refines.cons_none hg (Refines.cons_none hcl
            (runPatchPhase_refines w _ vol repoURL startCommit finalPatch image cmd))
        simp only [stageCall, cloneCmd, List.append_assoc] at hg hcl this
        simpa [runPhases, hg, hcl, hc, List.append_assoc] using this

theorem runStages_fail_mem {call : Stage → List Event → Option GoError × List Event}
    {l : List Stage} {h : List Event} {f : Stage × GoError}
    (hf : (runStages call l h).1 = some f) : f.1 ∈ l := by
  induction l generalizing h with
  | nil => simp [runStages] at hf
  | cons s rest ih =>
    cases hc : (call s h).1 with
    | some e =>
      rw [runStages_cons_some _ hc] at hf
      simp only [Option.some.injEq] at hf
      simp [← hf]
    | none =>
      rw [runStages_cons_none _ hc] at hf
      exact List.mem_cons_of_mem _ (ih hf)

theorem beforeVolume_of_mem_phaseStages {startCommit finalPatch : GoString} {s : Stage}
    (hs : s ∈ phaseStages startCommit finalPatch ++ [.test]) : beforeVolume s = false := by
  simp only [phaseStages, checkoutStages, patchStages, List.mem_append, List.mem_cons,
    List.mem_singleton, List.not_mem_nil, or_false] at hs
  rcases hs with ((h | h) | h) | h
  · rcases h with h | h <;> subst h <;> rfl
  · split at h
    · simp only [List.mem_singleton] at h; subst h; rfl
    · simp at h
  · split at h
    · simp only [List.mem_cons, List.mem_singleton, List.not_mem_nil, or_false] at h
      rcases h with h | h <;> subst h <;> rfl
    · simp at h
  · subst h; rfl

/-- The refinement theorem: the values `RunTests` returns and the events it
emits are those of the gated run of `plan`, followed by the removal of the
workspace volume when the run got past its creation. -/
theorem RunTests_refines (w : World) (h : List Event)
    (repoURL startCommit finalPatch image cmd : GoString) :
    (RunTests w h repoURL startCommit finalPatch image cmd).err =
      (runStages (stageCall w (workspaceName w h image) repoURL startCommit finalPatch image cmd)
        (plan startCommit finalPatch) h).1.map
          (fun f => wrapErr (stagePrefix w startCommit image f.1) f.2) ∧
    (RunTests w h repoURL startCommit finalPatch image cmd).events =
      (runStages (stageCall w (workspaceName w h image) repoURL startCommit finalPatch image cmd)
        (plan startCommit finalPatch) h).2 ++
      (if volumeExists (runStages (stageCall w (workspaceName w h image) repoURL startCommit
          finalPatch image cmd) (plan startCommit finalPatch) h).1 then
        [Event.volumeRemove .background (workspaceName w h image) true
          (w.volumeRemove (h ++ (runStages (stageCall w (workspaceName w h image) repoURL
            startCommit finalPatch image cmd) (plan startCommit finalPatch) h).2)
            .background (workspaceName w h image) true)]
      else []) ∧
    (RunTests w h repoURL startCommit finalPatch image cmd).res =
      resultAfter (stageCall w (workspaceName w h image) repoURL startCommit finalPatch image cmd)
        (testOut w (workspaceName w h image) image cmd) (setupPlan startCommit finalPatch) h := by
  simp only [plan, setupPlan, List.cons_append, List.nil_append]
  cases h0 : (stageCall w (workspaceName w h image) repoURL startCommit finalPatch image cmd
      .client h).1 with
  | some e =>
    rw [runStages_cons_some _ h0, resultAfter_cons_some _ _ h0]
    simp only [stageCall] at h0
    simp [RunTests, h0, stagePrefix, volumeExists, beforeVolume, stageCall]
  | none =>
    rw [runStages_cons_none _ h0, resultAfter_cons_none _ _ h0]
    simp only [stageCall, List.append_nil]
    simp only [stageCall] at h0
    cases h1 : w.ping h .caller with
    | some e =>
      have h1' : (stageCall w (workspaceName w h image) repoURL startCommit finalPatch image cmd
        .ping h).1 = some e := by simp [stageCall, h1]
      rw [runStages_cons_some _ h1', resultAfter_cons_some _ _ h1']
      simp [RunTests, h0, h1, stagePrefix, volumeExists, beforeVolume, stageCall]
    | none =>
      have h1' : (stageCall w (workspaceName w h image) repoURL startCommit finalPatch image cmd
        .ping h).1 = none := by simp [stageCall, h1]
      rw [runStages_cons_none _ h1', resultAfter_cons_none _ _ h1']
      simp only [stageCall]
      cases h2 : (pullIfNeeded w (h ++ [Event.ping .caller (w.ping h .caller)]) .phase image).1 with
      | some e =>
        have h2' : (stageCall w (workspaceName w h image) repoURL startCommit finalPatch image cmd
            .pullTest (h ++ [Event.ping .caller (w.ping h .caller)])).1 = some e := by
          simp [stageCall, h2]
        rw [runStages_cons_some _ h2', resultAfter_cons_some _ _ h2']
        simp only [h1] at h2
        simp [RunTests, h0, h1, h2, stagePrefix, volumeExists, beforeVolume, stageCall]
      | none =>
        have h2' : (stageCall w (workspaceName w h image) repoURL startCommit finalPatch image cmd
            .pullTest (h ++ [Event.ping .caller (w.ping h .caller)])).1 = none := by
          simp [stageCall, h2]
        rw [runStages_cons_none _ h2', resultAfter_cons_none _ _ h2']
        simp only [stageCall]
        cases h3 : w.volumeCreate (h ++ [Event.ping .caller (w.ping h .caller)] ++
            (pullIfNeeded w (h ++ [Event.ping .caller (w.ping h .caller)]) .phase image).2)
            .phase (workspaceName w h image) with
        | some e =>
          have h3' : (stageCall w (workspaceName w h image) repoURL startCommit finalPatch image
              cmd .volume (h ++ [Event.ping .caller (w.ping h .caller)] ++
              (pullIfNeeded w (h ++ [Event.ping .caller (w.ping h .caller)]) .phase image).2)).1
              = some e := by
            simpa [stageCall] using h3
          rw [runStages_cons_some _ h3', resultAfter_cons_some _ _ h3']
          simp only [h1, workspaceName, List.append_assoc, List.singleton_append, List.cons_append,
            List.nil_append] at h2 h3
          simp [RunTests, h0, h1, h2, h3, stagePrefix, volumeExists, beforeVolume, stageCall,
            workspaceName, List.append_assoc]
        | none =>
          have h3' : (stageCall w (workspaceName w h image) repoURL startCommit finalPatch image
              cmd .volume (h ++ [Event.ping .caller (w.ping h .caller)] ++
              (pullIfNeeded w (h ++ [Event.ping .caller (w.ping h .caller)]) .phase image).2)).1
              = none := by
            simpa [stageCall] using h3
          rw [runStages_cons_none _ h3', resultAfter_cons_none _ _ h3']
          obtain ⟨r1, r2, r3⟩ := runPhases_refines w
            (h ++ [Event.ping .caller (w.ping h .caller)] ++
              (pullIfNeeded w (h ++ [Event.ping .caller (w.ping h .caller)]) .phase image).2 ++
              (stageCall w (workspaceName w h image) repoURL startCommit finalPatch image
              cmd .volume (h ++ [Event.ping .caller (w.ping h .caller)] ++
              (pullIfNeeded w (h ++ [Event.ping .caller (w.ping h .caller)]) .phase image).2)).2)
            (workspaceName w h image) repoURL startCommit finalPatch image cmd
          have hv : volumeExists (runStages (stageCall w (workspaceName w h image) repoURL
              startCommit finalPatch image cmd) (phaseStages startCommit finalPatch ++ [.test])
              (h ++ [Event.ping .caller (w.ping h .caller)] ++
              (pullIfNeeded w (h ++ [Event.ping .caller (w.ping h .caller)]) .phase image).2 ++
              (stageCall w (workspaceName w h image) repoURL startCommit finalPatch image
              cmd .volume (h ++ [Event.ping .caller (w.ping h .caller)] ++
              (pullIfNeeded w (h ++ [Event.ping .caller (w.ping h .caller)]) .phase image).2)).2)).1
              = true := by
            cases hf : (runStages (stageCall w (workspaceName w h image) repoURL
              startCommit finalPatch image cmd) (phaseStages startCommit finalPatch ++ [.test])
              (h ++ [Event.ping .caller (w.ping h .caller)] ++
              (pullIfNeeded w (h ++ [Event.ping .caller (w.ping h .caller)]) .phase image).2 ++
              (stageCall w (workspaceName w h image) repoURL startCommit finalPatch image
              cmd .volume (h ++ [Event.ping .caller (w.ping h .caller)] ++
              (pullIfNeeded w (h ++ [Event.ping .caller (w.ping h .caller)]) .phase image).2)).2)).1 with
            | none => rfl
            | some f =>
              simp [volumeExists, beforeVolume_of_mem_phaseStages (runStages_fail_mem hf)]
          simp only [List.append_assoc, List.singleton_append, List.cons_append, List.nil_append]
            at hv r1 r2 r3 ⊢
          simp only [hv, if_true]
          rw [← r1, ← r2, ← r3]
          simp only [h1, workspaceName, stageCall, List.append_assoc, List.singleton_append,
            List.cons_append, List.nil_append] at h2 h3 ⊢
          simp [RunTests, h0, h1, h2, h3, workspaceName, List.append_assoc]


/-! ## The events of the helpers -/

theorem stopAndRemove_op (w : World) (h : List Event) (cid : GoString) (timeout : Int) :
    ∀ x ∈ stopAndRemove w h cid timeout, x.op = none := by
  intro x hx
  simp only [stopAndRemove, List.mem_cons, List.mem_singleton, List.not_mem_nil, or_false] at hx
  rcases hx with hx | hx <;> subst hx <;> rfl

theorem collectLogs_op (w : World) (h : List Event) (ctx : Ctx) (cid : GoString) (code : Int) :
    ∀ x ∈ (collectLogs w h ctx cid code).2, x.op = none := by
  intro x hx
  unfold collectLogs at hx
  cases hl : w.containerLogs h ctx cid true true <;> simp only [hl] at hx <;>
    simp only [List.mem_singleton] at hx <;> subst hx <;> rfl

theorem runWithLogsBody_op (w : World) (h : List Event) (ctx : Ctx) (cid : GoString) :
    ∀ x ∈ (runWithLogsBody w h ctx cid).2, x.op = none := by
  intro x hx
  unfold runWithLogsBody at hx
  cases hs : w.containerStart h ctx cid with
  | some e =>
    simp only [hs, List.mem_singleton] at hx
    subst hx; rfl
  | none =>
    simp only [hs] at hx
    cases hw : w.containerWait (h ++ [Event.containerStart ctx cid none]) ctx cid with
    | errCh e =>
      cases e with
      | some e =>
        simp only [hw, List.mem_append, List.mem_singleton] at hx
        rcases hx with hx | hx <;> subst hx <;> rfl
      | none =>
        simp only [hw, List.mem_append, List.mem_singleton] at hx
        rcases hx with (hx | hx) | hx
        · subst hx; rfl
        · subst hx; rfl
        · exact collectLogs_op _ _ _ _ _ x hx
    | status code =>
      simp only [hw, List.mem_append, List.mem_singleton] at hx
      rcases hx with (hx | hx) | hx
      · subst hx; rfl
      · subst hx; rfl
      · exact collectLogs_op _ _ _ _ _ x hx

theorem runWithLogs_opens (w : World) (h : List Event) (ctx : Ctx) (image volName : GoString)
    (cmd : List GoString) (netEnabled : Bool) (res : Option Resources) :
    Opens (some (.containerCreate ctx ⟨image, cmd, false⟩ (phaseHost volName netEnabled res)))
      (runWithLogs w h ctx image volName cmd netEnabled res).2 := by
  unfold runWithLogs
  simp only [Opens]
  cases hc : w.containerCreate h ctx ⟨image, cmd, false⟩
      { NetworkMode := if netEnabled = true then [] else str "none"
        Mounts := [{ Typ := .volume, Source := volName, Target := str "/repo" }]
        Resources := match res with
          | some r => r
          | none => {} } with
  | failed e =>
    exact ⟨Event.containerCreate ctx _ _ (.failed e), [], rfl, rfl, by simp⟩
  | created cid =>
    simp only [List.cons_append, List.nil_append, List.singleton_append]
    refine ⟨_, _, rfl, rfl, ?_⟩
    intro x hx
    simp only [List.mem_append] at hx
    rcases hx with hx | hx
    · exact runWithLogsBody_op _ _ _ _ x hx
    · exact stopAndRemove_op _ _ _ _ x hx

theorem runOneShotNet_events (w : World) (h : List Event) (ctx : Ctx) (image volName : GoString)
    (cmd : List GoString) (expectZeroExit : Bool) (res : Option Resources) (netEnabled : Bool) :
    (runOneShotNet w h ctx image volName cmd expectZeroExit res netEnabled).2 =
      (runWithLogs w h ctx image volName cmd netEnabled res).2 := by
  simp only [runOneShotNet]
  split
  · rfl
  · split <;> rfl

theorem runOneShot_events (w : World) (h : List Event) (ctx : Ctx) (image volName : GoString)
    (cmd : List GoString) (expectZeroExit : Bool) (res : Option Resources) :
    (runOneShot w h ctx image volName cmd expectZeroExit res).2 =
      (runWithLogs w h ctx image volName cmd false res).2 := by
  simp only [runOneShot]
  split
  · rfl
  · split <;> rfl

theorem copyBytesToVolumeBody_op (w : World) (h : List Event) (ctx : Ctx)
    (cid destPath : GoString) (data : List Byte) :
    ∀ x ∈ (copyBytesToVolumeBody w h ctx cid destPath data).2, x.op = none := by
  intro x hx
  unfold copyBytesToVolumeBody at hx
  cases hs : w.containerStart h ctx cid with
  | some e =>
    simp only [hs, List.mem_singleton] at hx
    subst hx; rfl
  | none =>
    simp only [hs] at hx
    split at hx
    · simp only [List.mem_singleton] at hx; subst hx; rfl
    · split at hx
      · simp only [List.mem_singleton] at hx; subst hx; rfl
      · split at hx
        · simp only [List.mem_singleton] at hx; subst hx; rfl
        · split at hx <;>
            simp only [List.mem_append, List.mem_singleton] at hx <;>
            rcases hx with hx | hx <;> subst hx <;> rfl

theorem copyBytesToVolume_opens (w : World) (h : List Event) (ctx : Ctx)
    (volName destPath : GoString) (data : List Byte) :
    Opens (some (.containerCreate ctx ⟨str "alpine/git:latest", helperCmd, false⟩
        (helperHost volName)))
      (copyBytesToVolume w h ctx volName destPath data).2 := by
  unfold copyBytesToVolume
  simp only [Opens]
  cases hc : w.containerCreate h ctx ⟨str "alpine/git:latest", [str "sleep", str "60"], false⟩
      { Mounts := [{ Typ := .volume, Source := volName, Target := str "/repo" }] } with
  | failed e =>
    exact ⟨Event.containerCreate ctx _ _ (.failed e), [], rfl, rfl, by simp⟩
  | created cid =>
    simp only [List.cons_append, List.nil_append, List.singleton_append]
    refine ⟨_, _, rfl, rfl, ?_⟩
    intro x hx
    simp only [List.mem_append] at hx
    rcases hx with hx | hx
    · exact copyBytesToVolumeBody_op _ _ _ _ _ _ x hx
    · exact stopAndRemove_op _ _ _ _ x hx

theorem pullIfNeeded_opens (w : World) (h : List Event) (ctx : Ctx) (image : GoString) :
    Opens (some (.imagePull ctx (imageRef image))) (pullIfNeeded w h ctx image).2 := by
  unfold pullIfNeeded pullIfNeededRun
  simp only [Opens]
  cases w.imagePull h ctx (imageRef image) <;> exact ⟨_, [], rfl, rfl, by simp⟩

/-- Every stage call opens with the call of its stage and makes no other
stage-opening call. -/
theorem stageCall_opens (w : World) (vol repoURL startCommit finalPatch image cmd : GoString)
    (s : Stage) (h : List Event) :
    Opens (stageOp vol repoURL startCommit image cmd s)
      (stageCall w vol repoURL startCommit finalPatch image cmd s h).2 := by
  cases s with
  | client => simp [stageOp, stageCall, Opens]
  | ping => exact ⟨_, [], rfl, rfl, by simp⟩
  | pullTest => exact pullIfNeeded_opens w h .phase image
  | volume => exact ⟨_, [], rfl, rfl, by simp⟩
  | pullGit => exact pullIfNeeded_opens w h .phase gitImage
  | clone =>
    simp only [stageOp, stageCall, runOneShotNet_events]
    exact runWithLogs_opens _ _ _ _ _ _ _ _
  | checkout =>
    simp only [stageOp, stageCall, runOneShotNet_events]
    exact runWithLogs_opens _ _ _ _ _ _ _ _
  | inject => exact copyBytesToVolume_opens _ _ _ _ _ _
  | apply =>
    simp only [stageOp, stageCall, runOneShot_events]
    exact runWithLogs_opens _ _ _ _ _ _ _ _
  | test => exact runWithLogs_opens _ _ _ _ _ _ _ _

/-! ## Locating a stage in the events of a gated run -/

theorem append_split_of_op {A B pre post : List Event} {e : Event} {op : Op}
    (heq : A ++ B = pre ++ e :: post) (hA : ∀ x ∈ A, x.op = none) (he : e.op = some op) :
    ∃ pre', pre = A ++ pre' ∧ B = pre' ++ e :: post := by
  rcases List.append_eq_append_iff.mp heq with ⟨a', h1, h2⟩ | ⟨c', h1, h2⟩
  · exact ⟨a', h1, h2⟩
  · cases c' with
    | nil =>
      refine ⟨[], ?_, ?_⟩
      · simpa using h1.symm
      · simpa using h2.symm
    | cons x c'' =>
      simp only [List.cons_append, List.cons.injEq] at h2
      have hx : x ∈ A := by rw [h1]; simp
      have := hA x hx
      rw [← h2.1, he] at this
      cases this

theorem opens_split {o : Option Op} {t rest pre post : List Event} {e : Event} {op : Op}
    (ho : Opens o t) (heq : t ++ rest = pre ++ e :: post) (he : e.op = some op) :
    (pre = [] ∧ o = some op ∧ ∃ tail, t = e :: tail) ∨
    (∃ pre', pre = t ++ pre' ∧ rest = pre' ++ e :: post) := by
  cases o with
  | none => exact Or.inr (append_split_of_op heq ho he)
  | some op0 =>
    obtain ⟨e0, tail0, ht, he0, htail⟩ := ho
    subst ht
    cases pre with
    | nil =>
      simp only [List.cons_append, List.nil_append, List.cons.injEq] at heq
      refine Or.inl ⟨rfl, ?_, tail0, by rw [heq.1]⟩
      rw [← he0, heq.1, he]
    | cons p0 pre'' =>
      simp only [List.cons_append, List.cons.injEq] at heq
      obtain ⟨pre', h1, h2⟩ := append_split_of_op heq.2 htail he
      exact Or.inr ⟨pre', by rw [heq.1, h1]; rfl, h2⟩

theorem runStages_locate {call : Stage → List Event → Option GoError × List Event}
    {sop : Stage → Option Op} (hop : ∀ s h, Opens (sop s) (call s h).2) :
    ∀ (l : List Stage) (h sfx pre post : List Event) (e : Event) (op : Op),
      (runStages call l h).2 ++ sfx = pre ++ e :: post → e.op = some op →
      (∀ x ∈ sfx, x.op = none) →
      ∃ l₁ s l₂, l = l₁ ++ s :: l₂ ∧ sop s = some op ∧ (runStages call l₁ h).1 = none ∧
        (runStages call l₁ h).2 = pre ∧ ∃ tail, (call s (h ++ pre)).2 = e :: tail := by
  intro l
  induction l with
  | nil =>
    intro h sfx pre post e op heq he hs
    simp only [runStages, List.nil_append] at heq
    have : e ∈ sfx := by rw [heq]; simp
    have := hs e this
    rw [he] at this
    cases this
  | cons s l' ih =>
    intro h sfx pre post e op heq he hs
    cases hc : (call s h).1 with
    | some err =>
      rw [runStages_cons_some _ hc] at heq
      rcases opens_split (hop s h) heq he with ⟨hp, ho, tail, ht⟩ | ⟨pre', _, h2⟩
      · subst hp
        exact ⟨[], s, l', rfl, ho, rfl, rfl, tail, by simpa using ht⟩
      · have : e ∈ sfx := by rw [h2]; simp
        have := hs e this
        rw [he] at this
        cases this
    | none =>
      rw [runStages_cons_none _ hc] at heq
      simp only [List.append_assoc] at heq
      rcases opens_split (hop s h) heq he with ⟨hp, ho, tail, ht⟩ | ⟨pre', h1, h2⟩
      · subst hp
        exact ⟨[], s, l', rfl, ho, rfl, rfl, tail, by simpa using ht⟩
      · obtain ⟨l₁, s', l₂, hl, hs', hn, hpre, tail, ht⟩ := ih _ _ _ _ _ _ h2 he hs
        refine ⟨s :: l₁, s', l₂, by rw [hl]; rfl, hs', ?_, ?_, tail, ?_⟩
        · rw [runStages_cons_none _ hc]; exact hn
        · rw [runStages_cons_none _ hc, h1, ← hpre]
        · rw [h1, ← List.append_assoc]; exact ht

theorem filterMap_op_of_opens {o : Option Op} {t : List Event} (ho : Opens o t) :
    t.filterMap Event.op = o.toList := by
  have hnone : ∀ l : List Event, (∀ x ∈ l, x.op = none) → l.filterMap Event.op = [] := by
    intro l hl
    induction l with
    | nil => rfl
    | cons a l ih =>
      rw [List.filterMap_cons, hl a (by simp)]
      exact ih (fun x hx => hl x (List.mem_cons_of_mem _ hx))
  cases o with
  | none => exact hnone t ho
  | some op =>
    obtain ⟨e, tail, ht, he, htail⟩ := ho
    subst ht
    rw [List.filterMap_cons, he]
    simp [hnone tail htail]

/-- The stage-opening calls of a gated run are, in order, those of an initial
segment of its stages. -/
theorem runStages_ops_prefix {call : Stage → List Event → Option GoError × List Event}
    {sop : Stage → Option Op} (hop : ∀ s h, Opens (sop s) (call s h).2)
    (l : List Stage) (h : List Event) :
    (runStages call l h).2.filterMap Event.op <+: l.filterMap sop := by
  induction l generalizing h with
  | nil => simp [runStages]
  | cons s l' ih =>
    have hs := filterMap_op_of_opens (hop s h)
    cases hc : (call s h).1 with
    | some err =>
      rw [runStages_cons_some _ hc]
      simp only [hs]
      cases hso : sop s with
      | none => simp
      | some op => simp [List.filterMap_cons, hso]
    | none =>
      rw [runStages_cons_none _ hc]
      simp only [List.filterMap_append, hs]
      cases hso : sop s with
      | none => simpa [List.filterMap_cons, hso] using ih _
      | some op =>
        simp only [List.filterMap_cons, hso, Option.toList, List.singleton_append]
        exact (List.prefix_cons_inj op).mpr (ih _)


/-! ## The test phase within a run -/

theorem runStages_test (w : World) (vol repoURL startCommit finalPatch image cmd : GoString)
    (h : List Event) :
    runStages (stageCall w vol repoURL startCommit finalPatch image cmd) [.test] h =
      ((testOut w vol image cmd h).err.map (fun e => (Stage.test, e)),
        (runWithLogs w h .phase image vol (testCmd cmd) false (some testLimits)).2) := by
  cases hr : (stageCall w vol repoURL startCommit finalPatch image cmd .test h).1 with
  | none =>
    rw [runStages_cons_none _ hr]
    simp only [stageCall] at hr
    simp [runStages, stageCall, testOut, hr]
  | some e =>
    rw [runStages_cons_some _ hr]
    simp only [stageCall] at hr
    simp [stageCall, testOut, hr]

/-- When `RunTests` returns a result, every stage before the test phase
succeeded, the result is assembled from what the test phase returned, the
error is the wrapped error of the test phase, and the events are those of the
earlier stages, then those of the test phase, then the volume removal. -/
theorem RunTests_reached {w : World} {h : List Event}
    {repoURL startCommit finalPatch image cmd : GoString} {res : TestResult}
    (hres : (RunTests w h repoURL startCommit finalPatch image cmd).res = some res) :
    (runStages (stageCall w (workspaceName w h image) repoURL startCommit finalPatch image cmd)
      (setupPlan startCommit finalPatch) h).1 = none ∧
    res = assemble (testOut w (workspaceName w h image) image cmd
      (h ++ (runStages (stageCall w (workspaceName w h image) repoURL startCommit finalPatch
        image cmd) (setupPlan startCommit finalPatch) h).2)) ∧
    (RunTests w h repoURL startCommit finalPatch image cmd).err =
      (testOut w (workspaceName w h image) image cmd
        (h ++ (runStages (stageCall w (workspaceName w h image) repoURL startCommit finalPatch
          image cmd) (setupPlan startCommit finalPatch) h).2)).err.map
        (wrapErr (str "test run: ")) ∧
    (RunTests w h repoURL startCommit finalPatch image cmd).events =
      (runStages (stageCall w (workspaceName w h image) repoURL startCommit finalPatch
          image cmd) (setupPlan startCommit finalPatch) h).2 ++
      (runWithLogs w (h ++ (runStages (stageCall w (workspaceName w h image) repoURL startCommit
          finalPatch image cmd) (setupPlan startCommit finalPatch) h).2) .phase image
        (workspaceName w h image) (testCmd cmd) false (some testLimits)).2 ++
      [Event.volumeRemove .background (workspaceName w h image) true
        (w.volumeRemove (h ++ (runStages (stageCall w (workspaceName w h image) repoURL
          startCommit finalPatch image cmd) (setupPlan startCommit finalPatch) h).2 ++
          (runWithLogs w (h ++ (runStages (stageCall w (workspaceName w h image) repoURL
            startCommit finalPatch image cmd) (setupPlan startCommit finalPatch) h).2) .phase
            image (workspaceName w h image) (testCmd cmd) false (some testLimits)).2)
          .background (workspaceName w h image) true)] := by
  obtain ⟨herr, hev, hr⟩ := RunTests_refines w h repoURL startCommit finalPatch image cmd
  rw [hr] at hres
  unfold resultAfter at hres
  cases hs : (runStages (stageCall w (workspaceName w h image) repoURL startCommit finalPatch
      image cmd) (setupPlan startCommit finalPatch) h).1 with
  | some f => simp [hs] at hres
  | none =>
    simp only [hs, Option.some.injEq] at hres
    have hplan := runStages_append (stageCall w (workspaceName w h image) repoURL startCommit
      finalPatch image cmd) (setupPlan startCommit finalPatch) [.test] h
    simp only [hs, runStages_test] at hplan
    refine ⟨rfl, hres.symm, ?_, ?_⟩
    · rw [herr, plan, hplan]
      cases (testOut w (workspaceName w h image) image cmd
        (h ++ (runStages (stageCall w (workspaceName w h image) repoURL startCommit finalPatch
          image cmd) (setupPlan startCommit finalPatch) h).2)).err <;> simp [stagePrefix]
    · rw [hev, plan, hplan]
      have hv : volumeExists (Option.map (fun e => (Stage.test, e))
          (testOut w (workspaceName w h image) image cmd
          (h ++ (runStages (stageCall w (workspaceName w h image) repoURL startCommit finalPatch
          image cmd) (setupPlan startCommit finalPatch) h).2)).err) = true := by
        cases (testOut w (workspaceName w h image) image cmd
          (h ++ (runStages (stageCall w (workspaceName w h image) repoURL startCommit finalPatch
          image cmd) (setupPlan startCommit finalPatch) h).2)).err <;> rfl
      simp only [hv, if_true, List.append_assoc]

/-- When `RunTests` returns no result, a stage before the test phase failed,
the error wraps that stage's error, and the events end with that stage,
followed by the volume removal when the volume had been created. -/
theorem RunTests_aborted {w : World} {h : List Event}
    {repoURL startCommit finalPatch image cmd : GoString}
    (hres : (RunTests w h repoURL startCommit finalPatch image cmd).res = none) :
    ∃ f, (runStages (stageCall w (workspaceName w h image) repoURL startCommit finalPatch
        image cmd) (setupPlan startCommit finalPatch) h).1 = some f ∧
      (RunTests w h repoURL startCommit finalPatch image cmd).err =
        some (wrapErr (stagePrefix w startCommit image f.1) f.2) ∧
      (RunTests w h repoURL startCommit finalPatch image cmd).events =
        (runStages (stageCall w (workspaceName w h image) repoURL startCommit finalPatch
          image cmd) (setupPlan startCommit finalPatch) h).2 ++
        (if beforeVolume f.1 then [] else
          [Event.volumeRemove .background (workspaceName w h image) true
            (w.volumeRemove (h ++ (runStages (stageCall w (workspaceName w h image) repoURL
              startCommit finalPatch image cmd) (setupPlan startCommit finalPatch) h).2)
              .background (workspaceName w h image) true)]) := by
  obtain ⟨herr, hev, hr⟩ := RunTests_refines w h repoURL startCommit finalPatch image cmd
  rw [hr] at hres
  unfold resultAfter at hres
  cases hs : (runStages (stageCall w (workspaceName w h image) repoURL startCommit finalPatch
      image cmd) (setupPlan startCommit finalPatch) h).1 with
  | none => simp [hs] at hres
  | some f =>
    have hplan := runStages_append (stageCall w (workspaceName w h image) repoURL startCommit
      finalPatch image cmd) (setupPlan startCommit finalPatch) [.test] h
    simp only [hs] at hplan
    refine ⟨f, rfl, ?_, ?_⟩
    · rw [herr, plan, hplan]; rfl
    · rw [hev, plan, hplan]
      cases hb : beforeVolume f.1 <;> simp [volumeExists, hb]

/-! ## Unfolding `runWithLogs` along the answers of the engine -/

theorem runWithLogs_failed {w : World} {h : List Event} {ctx : Ctx} {image volName : GoString}
    {cmd : List GoString} {netEnabled : Bool} {res : Option Resources} {e : GoError}
    (hc : w.containerCreate h ctx ⟨image, cmd, false⟩ (phaseHost volName netEnabled res)
      = .failed e) :
    runWithLogs w h ctx image volName cmd netEnabled res =
      (⟨[], [], 0, some (wrapErr (str "create: ") e)⟩,
        [Event.containerCreate ctx ⟨image, cmd, false⟩ (phaseHost volName netEnabled res)
          (.failed e)]) := by
  simp only [phaseHost] at hc
  simp only [runWithLogs, phaseHost, hc]

theorem runWithLogs_created {w : World} {h : List Event} {ctx : Ctx} {image volName : GoString}
    {cmd : List GoString} {netEnabled : Bool} {res : Option Resources} {cid : GoString}
    (hc : w.containerCreate h ctx ⟨image, cmd, false⟩ (phaseHost volName netEnabled res)
      = .created cid) :
    runWithLogs w h ctx image volName cmd netEnabled res =
      ((runWithLogsBody w (h ++ [Event.containerCreate ctx ⟨image, cmd, false⟩
          (phaseHost volName netEnabled res) (.created cid)]) ctx cid).1,
        Event.containerCreate ctx ⟨image, cmd, false⟩ (phaseHost volName netEnabled res)
          (.created cid) ::
        ((runWithLogsBody w (h ++ [Event.containerCreate ctx ⟨image, cmd, false⟩
          (phaseHost volName netEnabled res) (.created cid)]) ctx cid).2 ++
        stopAndRemove w (h ++ [Event.containerCreate ctx ⟨image, cmd, false⟩
          (phaseHost volName netEnabled res) (.created cid)] ++
          (runWithLogsBody w (h ++ [Event.containerCreate ctx ⟨image, cmd, false⟩
          (phaseHost volName netEnabled res) (.created cid)]) ctx cid).2) cid 5)) := by
  simp only [phaseHost] at hc
  simp only [runWithLogs, phaseHost, hc, List.singleton_append, List.cons_append,
    List.nil_append]

theorem collectLogs_fst (w : World) (h : List Event) (ctx : Ctx) (cid : GoString) (code : Int) :
    (collectLogs w h ctx cid code).1.err = none ∧
    (collectLogs w h ctx cid code).1.exitCode = code := by
  unfold collectLogs
  cases w.containerLogs h ctx cid true true <;> exact ⟨rfl, rfl⟩

theorem collectLogs_snd (w : World) (h : List Event) (ctx : Ctx) (cid : GoString) (code : Int) :
    (collectLogs w h ctx cid code).2 =
      [Event.containerLogs ctx cid true true (w.containerLogs h ctx cid true true)] := by
  unfold collectLogs
  cases w.containerLogs h ctx cid true true <;> rfl

theorem runWithLogsBody_start_failed {w : World} {h : List Event} {ctx : Ctx} {cid : GoString}
    {e : GoError} (hs : w.containerStart h ctx cid = some e) :
    runWithLogsBody w h ctx cid =
      (⟨[], [], 0, some (wrapErr (str "start: ") e)⟩, [Event.containerStart ctx cid (some e)]) := by
  simp only [runWithLogsBody, hs]

theorem runWithLogsBody_wait_failed {w : World} {h : List Event} {ctx : Ctx} {cid : GoString}
    {e : GoError} (hs : w.containerStart h ctx cid = none)
    (hw : w.containerWait (h ++ [Event.containerStart ctx cid none]) ctx cid = .errCh (some e)) :
    runWithLogsBody w h ctx cid =
      (⟨[], [], 0, some (wrapErr (str "wait: ") e)⟩,
        [Event.containerStart ctx cid none, Event.containerWait ctx cid (.errCh (some e))]) := by
  simp only [runWithLogsBody, hs, hw, List.singleton_append]

theorem runWithLogsBody_wait_nil {w : World} {h : List Event} {ctx : Ctx} {cid : GoString}
    (hs : w.containerStart h ctx cid = none)
    (hw : w.containerWait (h ++ [Event.containerStart ctx cid none]) ctx cid = .errCh none) :
    runWithLogsBody w h ctx cid =
      ((collectLogs w (h ++ [Event.containerStart ctx cid none,
          Event.containerWait ctx cid (.errCh none)]) ctx cid 0).1,
        Event.containerStart ctx cid none :: Event.containerWait ctx cid (.errCh none) ::
        (collectLogs w (h ++ [Event.containerStart ctx cid none,
          Event.containerWait ctx cid (.errCh none)]) ctx cid 0).2) := by
  simp only [runWithLogsBody, hs, hw, List.singleton_append, List.cons_append, List.nil_append]

theorem runWithLogsBody_status {w : World} {h : List Event} {ctx : Ctx} {cid : GoString}
    {code : Int} (hs : w.containerStart h ctx cid = none)
    (hw : w.containerWait (h ++ [Event.containerStart ctx cid none]) ctx cid = .status code) :
    runWithLogsBody w h ctx cid =
      ((collectLogs w (h ++ [Event.containerStart ctx cid none,
          Event.containerWait ctx cid (.status code)]) ctx cid code).1,
        Event.containerStart ctx cid none :: Event.containerWait ctx cid (.status code) ::
        (collectLogs w (h ++ [Event.containerStart ctx cid none,
          Event.containerWait ctx cid (.status code)]) ctx cid code).2) := by
  simp only [runWithLogsBody, hs, hw, List.singleton_append, List.cons_append, List.nil_append]

theorem runWithLogs_of_trace {w : World} {h : List Event} {ctx : Ctx} {image volName : GoString}
    {cmd : List GoString} {netEnabled : Bool} {res : Option Resources}
    {rest post : List Event} {c1 c2 c3 : Ctx} {cfg : Config} {host : HostConfig}
    {cid cid2 cid3 : GoString} {n : Int}
    (heq : (runWithLogs w h ctx image volName cmd netEnabled res).2 ++ rest =
      Event.containerCreate c1 cfg host (.created cid) :: Event.containerStart c2 cid2 none ::
        Event.containerWait c3 cid3 (.status n) :: post) :
    (runWithLogs w h ctx image volName cmd netEnabled res).1.err = none ∧
    (runWithLogs w h ctx image volName cmd netEnabled res).1.exitCode = n := by
  cases hc : w.containerCreate h ctx ⟨image, cmd, false⟩ (phaseHost volName netEnabled res) with
  | failed e =>
    rw [runWithLogs_failed hc] at heq
    simp only [List.cons_append, List.nil_append, List.cons.injEq, Event.containerCreate.injEq]
      at heq
    cases heq.1.2.2.2
  | created cid' =>
    rw [runWithLogs_created hc] at heq ⊢
    simp only [List.cons_append, List.cons.injEq, List.append_assoc] at heq ⊢
    obtain ⟨_, heq⟩ := heq
    cases hs : w.containerStart (h ++ [Event.containerCreate ctx ⟨image, cmd, false⟩
        (phaseHost volName netEnabled res) (.created cid')]) ctx cid' with
    | some e =>
      rw [runWithLogsBody_start_failed hs] at heq
      simp only [List.cons_append, List.nil_append, List.cons.injEq,
        Event.containerStart.injEq] at heq
      cases heq.1.2.2
    | none =>
      cases hw : w.containerWait (h ++ [Event.containerCreate ctx ⟨image, cmd, false⟩
          (phaseHost volName netEnabled res) (.created cid')] ++
          [Event.containerStart ctx cid' none]) ctx cid' with
      | errCh e =>
        cases e with
        | some e =>
          rw [runWithLogsBody_wait_failed hs hw] at heq
          simp only [List.cons_append, List.nil_append, List.cons.injEq,
            Event.containerWait.injEq] at heq
          cases heq.2.1.2.2
        | none =>
          rw [runWithLogsBody_wait_nil hs hw] at heq
          simp only [List.cons_append, List.nil_append, List.cons.injEq,
            Event.containerWait.injEq] at heq
          cases heq.2.1.2.2
      | status code =>
        rw [runWithLogsBody_status hs hw] at heq ⊢
        simp only [List.cons_append, List.nil_append, List.cons.injEq,
          Event.containerWait.injEq, WaitResult.status.injEq] at heq
        rw [← heq.2.1.2.2]
        exact collectLogs_fst _ _ _ _ _

/-! ## Which stage a created container belongs to -/

theorem str_sh_ne : str "sh" ≠ str "clone" ∧ str "sh" ≠ str "-C" ∧ str "sh" ≠ str "sleep" := by
  decide

theorem stageOp_eq_test {vol repoURL startCommit image cmd : GoString} {s : Stage} {ctx : Ctx}
    {cfg : Config} {host : HostConfig}
    (hs : stageOp vol repoURL startCommit image cmd s = some (.containerCreate ctx cfg host))
    (hcmd : cfg.Cmd = testCmd cmd) : s = .test := by
  cases s <;> simp only [stageOp, Option.some.injEq, Op.containerCreate.injEq, reduceCtorEq] at hs
  all_goals first
    | rfl
    | (obtain ⟨_, hcfg, _⟩ := hs
       rw [← hcfg] at hcmd
       simp only [cloneCmd, checkoutArgs, helperCmd, applyCmd, testCmd, List.cons.injEq] at hcmd
       first
         | exact absurd hcmd.1.symm str_sh_ne.1
         | exact absurd hcmd.1.symm str_sh_ne.2.1
         | exact absurd hcmd.1.symm str_sh_ne.2.2)

theorem test_not_mem_setupPlan (startCommit finalPatch : GoString) :
    Stage.test ∉ setupPlan startCommit finalPatch := by
  simp only [setupPlan, phaseStages, checkoutStages, patchStages, List.mem_append, List.mem_cons,
    List.not_mem_nil, or_false, reduceCtorEq, false_or, not_or]
  refine ⟨?_, ?_⟩
  · split <;> simp
  · split <;> simp

theorem plan_split_test {startCommit finalPatch : GoString} {l₁ l₂ : List Stage}
    (hp : plan startCommit finalPatch = l₁ ++ Stage.test :: l₂) :
    l₁ = setupPlan startCommit finalPatch ∧ l₂ = [] := by
  unfold plan at hp
  have hnot := test_not_mem_setupPlan startCommit finalPatch
  rcases List.append_eq_append_iff.mp hp with ⟨a', h1, h2⟩ | ⟨c', h1, h2⟩
  · cases a' with
    | nil =>
      simp only [List.nil_append, List.cons.injEq, true_and] at h2
      exact ⟨by simpa using h1, h2.symm⟩
    | cons x a'' =>
      simp only [List.cons_append, List.cons.injEq] at h2
      have := h2.2
      simp at this
  · cases c' with
    | nil =>
      simp only [List.nil_append, List.cons.injEq, true_and] at h2
      exact ⟨by simpa using h1.symm, h2⟩
    | cons x c'' =>
      simp only [List.cons_append, List.cons.injEq] at h2
      exact absurd (by rw [h1, ← h2.1]; simp) hnot

/-! ## Claims about the result of `RunTests` -/

/-- C1.  Whenever `RunTests` returns a result (the run reached the test phase),
the events of the run contain those of the test-phase call of `runWithLogs`,
and the result's `OK` is true exactly when that call returned no error and
exit code 0; the result's `ExitCode` is the exit code the call returned, and
`RunTests` returns a nil error exactly when the call did. -/
theorem RunTests_ok_iff (w : World) (h : List Event)
    (repoURL startCommit finalPatch image cmd : GoString) (res : TestResult)
    (hres : (RunTests w h repoURL startCommit finalPatch image cmd).res = some res) :
    ∃ pre post,
      (RunTests w h repoURL startCommit finalPatch image cmd).events =
        pre ++ (runWithLogs w (h ++ pre) .phase image (workspaceName w h image) (testCmd cmd)
          false (some testLimits)).2 ++ post ∧
      (res.OK = true ↔
        (runWithLogs w (h ++ pre) .phase image (workspaceName w h image) (testCmd cmd)
          false (some testLimits)).1.err = none ∧
        (runWithLogs w (h ++ pre) .phase image (workspaceName w h image) (testCmd cmd)
          false (some testLimits)).1.exitCode = 0) ∧
      res.ExitCode = (runWithLogs w (h ++ pre) .phase image (workspaceName w h image)
          (testCmd cmd) false (some testLimits)).1.exitCode ∧
      ((RunTests w h repoURL startCommit finalPatch image cmd).err = none ↔
        (runWithLogs w (h ++ pre) .phase image (workspaceName w h image) (testCmd cmd)
          false (some testLimits)).1.err = none) := by
  obtain ⟨_, hr, herr, hev⟩ := RunTests_reached hres
  refine ⟨_, _, hev, ?_, ?_, ?_⟩
  · rw [hr]; simp [assemble, testOut]
  · rw [hr]; rfl
  · rw [herr]; simp [testOut]

/-- C2.  If the events of a run show the test container (image `image`,
command `sh -c "cd /repo && cmd"`) being created, then started without error,
then reported by the wait with status `n`, `RunTests` returns a nil error and
a result whose `ExitCode` is `n` and whose `OK` is true exactly when
`n = 0`. -/
theorem RunTests_exit_code (w : World) (h : List Event)
    (repoURL startCommit finalPatch image cmd : GoString) (n : Int)
    (pre post : List Event) (c1 c2 c3 : Ctx) (host : HostConfig) (cid cid2 cid3 : GoString)
    (hev : (RunTests w h repoURL startCommit finalPatch image cmd).events =
      pre ++ Event.containerCreate c1 ⟨image, testCmd cmd, false⟩ host (.created cid) ::
        Event.containerStart c2 cid2 none :: Event.containerWait c3 cid3 (.status n) :: post) :
    (RunTests w h repoURL startCommit finalPatch image cmd).err = none ∧
    ∃ r, (RunTests w h repoURL startCommit finalPatch image cmd).res = some r ∧
      r.ExitCode = n ∧ (r.OK = true ↔ n = 0) := by
  obtain ⟨herr, hevents, hres⟩ := RunTests_refines w h repoURL startCommit finalPatch image cmd
  rw [hevents] at hev
  have hsfx : ∀ x ∈ (if volumeExists (runStages (stageCall w (workspaceName w h image) repoURL
      startCommit finalPatch image cmd) (plan startCommit finalPatch) h).1 = true then
        [Event.volumeRemove .background (workspaceName w h image) true
          (w.volumeRemove (h ++ (runStages (stageCall w (workspaceName w h image) repoURL
            startCommit finalPatch image cmd) (plan startCommit finalPatch) h).2)
            .background (workspaceName w h image) true)]
      else []), x.op = none := by
    intro x hx
    split at hx
    · simp only [List.mem_singleton] at hx; subst hx; rfl
    · simp at hx
  obtain ⟨l₁, s, l₂, hl, hsop, hnone, hpre, tail, htail⟩ :=
    runStages_locate (stageCall_opens w (workspaceName w h image) repoURL startCommit finalPatch
      image cmd) _ _ _ _ _ _ _ hev rfl hsfx
  have hs : s = .test := stageOp_eq_test hsop rfl
  subst hs
  obtain ⟨hl₁, hl₂⟩ := plan_split_test hl
  subst hl₁ hl₂
  have hplan := runStages_append (stageCall w (workspaceName w h image) repoURL startCommit
      finalPatch image cmd) (setupPlan startCommit finalPatch) [.test] h
  simp only [hnone, runStages_test] at hplan
  rw [plan, hplan, hpre] at hev
  simp only [List.append_assoc, List.append_cancel_left_eq] at hev
  have htr := runWithLogs_of_trace hev
  have hres' : (RunTests w h repoURL startCommit finalPatch image cmd).res =
      some (assemble (testOut w (workspaceName w h image) image cmd (h ++ pre))) := by
    rw [hres, resultAfter, hnone, hpre]
  refine ⟨?_, _, hres', ?_, ?_⟩
  · rw [herr, plan, hplan, hpre]
    simp [testOut, htr.1]
  · simp [assemble, testOut, htr.2]
  · simp [assemble, testOut, htr.1, htr.2]


/-- C1, at a run in which the tests pass: the hypothesis holds and the
conclusion follows. -/
theorem RunTests_ok_iff_witness :
    (RunTests allGood [] (str "u") (str "HEAD") [] (str "img") (str "go test")).res
      = some ⟨true, [], [], 0⟩ ∧
    ∃ pre post,
      (RunTests allGood [] (str "u") (str "HEAD") [] (str "img") (str "go test")).events =
        pre ++ (runWithLogs allGood ([] ++ pre) .phase (str "img")
          (workspaceName allGood [] (str "img")) (testCmd (str "go test"))
          false (some testLimits)).2 ++ post ∧
      ((⟨true, [], [], 0⟩ : TestResult).OK = true ↔
        (runWithLogs allGood ([] ++ pre) .phase (str "img")
          (workspaceName allGood [] (str "img")) (testCmd (str "go test"))
          false (some testLimits)).1.err = none ∧
        (runWithLogs allGood ([] ++ pre) .phase (str "img")
          (workspaceName allGood [] (str "img")) (testCmd (str "go test"))
          false (some testLimits)).1.exitCode = 0) ∧
      (⟨true, [], [], 0⟩ : TestResult).ExitCode = (runWithLogs allGood ([] ++ pre) .phase (str "img")
          (workspaceName allGood [] (str "img")) (testCmd (str "go test"))
          false (some testLimits)).1.exitCode ∧
      ((RunTests allGood [] (str "u") (str "HEAD") [] (str "img") (str "go test")).err = none ↔
        (runWithLogs allGood ([] ++ pre) .phase (str "img")
          (workspaceName allGood [] (str "img")) (testCmd (str "go test"))
          false (some testLimits)).1.err = none) :=
  ⟨by decide,
    RunTests_ok_iff allGood [] (str "u") (str "HEAD") [] (str "img") (str "go test")
      ⟨true, [], [], 0⟩ (by decide)⟩

/-- C2, at a run whose test command ends in `exit 3`: the events show the test
container created, started and exited with status 3, and the result has
`ExitCode` 3 and `OK` false. -/
theorem RunTests_exit_code_witness :
    (RunTests exitThree [] (str "u") (str "HEAD") [] (str "img") (str "exit 3")).events =
      (RunTests exitThree [] (str "u") (str "HEAD") [] (str "img") (str "exit 3")).events.take 10 ++
      Event.containerCreate .phase ⟨str "img", testCmd (str "exit 3"), false⟩
        (phaseHost (str "qa-runner-42") false (some testLimits)) (.created (str "10")) ::
      Event.containerStart .phase (str "10") none ::
      Event.containerWait .phase (str "10") (.status 3) ::
      (RunTests exitThree [] (str "u") (str "HEAD") [] (str "img") (str "exit 3")).events.drop 13 ∧
    ((RunTests exitThree [] (str "u") (str "HEAD") [] (str "img") (str "exit 3")).err = none ∧
      ∃ r, (RunTests exitThree [] (str "u") (str "HEAD") [] (str "img") (str "exit 3")).res
          = some r ∧
        r.ExitCode = 3 ∧ (r.OK = true ↔ (3 : Int) = 0)) :=
  ⟨by decide,
    RunTests_exit_code exitThree [] (str "u") (str "HEAD") [] (str "img") (str "exit 3") 3
      ((RunTests exitThree [] (str "u") (str "HEAD") [] (str "img") (str "exit 3")).events.take 10)
      ((RunTests exitThree [] (str "u") (str "HEAD") [] (str "img") (str "exit 3")).events.drop 13)
      .phase .phase .phase (phaseHost (str "qa-runner-42") false (some testLimits))
      (str "10") (str "10") (str "10") (by decide)⟩


/-! ## Failure of a phase before the test phase -/

theorem volumeRemove_sfx_op (w : World) (b : Bool) (hh : List Event) (vol : GoString) :
    ∀ x ∈ (if b = true then
        [Event.volumeRemove .background vol true (w.volumeRemove hh .background vol true)]
      else []), x.op = none := by
  intro x hx
  split at hx
  · simp only [List.mem_singleton] at hx; subst hx; rfl
  · simp at hx

/-- An opening call found in the events of a run belongs to a stage of the
plan: all stages before it succeeded, their events are exactly the events in
front of the call, and the call is the first event of that stage. -/
theorem RunTests_locate {w : World} {h : List Event}
    {repoURL startCommit finalPatch image cmd : GoString} {pre post : List Event} {e : Event}
    {op : Op}
    (hev : (RunTests w h repoURL startCommit finalPatch image cmd).events = pre ++ e :: post)
    (he : e.op = some op) :
    ∃ l₁ s l₂, plan startCommit finalPatch = l₁ ++ s :: l₂ ∧
      stageOp (workspaceName w h image) repoURL startCommit image cmd s = some op ∧
      (runStages (stageCall w (workspaceName w h image) repoURL startCommit finalPatch image cmd)
        l₁ h).1 = none ∧
      (runStages (stageCall w (workspaceName w h image) repoURL startCommit finalPatch image cmd)
        l₁ h).2 = pre ∧
      ∃ tail, (stageCall w (workspaceName w h image) repoURL startCommit finalPatch image cmd s
        (h ++ pre)).2 = e :: tail := by
  obtain ⟨_, hevents, _⟩ := RunTests_refines w h repoURL startCommit finalPatch image cmd
  rw [hevents] at hev
  exact runStages_locate (stageCall_opens w (workspaceName w h image) repoURL startCommit
    finalPatch image cmd) _ _ _ _ _ _ _ hev he (volumeRemove_sfx_op _ _ _ _)

theorem str_cmd_ne : str "clone" ≠ str "sh" ∧ str "checkout" ≠ str "apply" ∧
    str "-C" ≠ str "sh" ∧ str "-C" ≠ str "clone" := by
  decide

theorem stageOp_phase_inj {vol repoURL startCommit image cmd : GoString} {s s' : Stage}
    (hs : isSetupPhase s = true)
    (heq : stageOp vol repoURL startCommit image cmd s' =
      stageOp vol repoURL startCommit image cmd s) : s' = s := by
  cases s <;> simp only [isSetupPhase, reduceCtorEq] at hs <;>
  cases s' <;>
  simp only [stageOp, Option.some.injEq, Op.containerCreate.injEq, Config.mk.injEq,
    cloneCmd, checkoutArgs, helperCmd, applyCmd, testCmd, List.cons.injEq, reduceCtorEq,
    and_false, false_and, and_true, true_and] at heq <;>
  first
    | rfl
    | exact absurd heq.1.2.1.symm str_cmd_ne.1
    | exact absurd heq.1.2.1 str_cmd_ne.2.1
    | exact absurd heq.1.2.1.symm str_cmd_ne.2.1

theorem runOneShotNet_fails_iff (w : World) (h : List Event) (ctx : Ctx) (image volName : GoString)
    (cmd : List GoString) (res : Option Resources) (netEnabled : Bool) :
    (runOneShotNet w h ctx image volName cmd true res netEnabled).1 ≠ none ↔
      ((runWithLogs w h ctx image volName cmd netEnabled res).1.err ≠ none ∨
       (runWithLogs w h ctx image volName cmd netEnabled res).1.exitCode ≠ 0) := by
  simp only [runOneShotNet]
  cases hE : (runWithLogs w h ctx image volName cmd netEnabled res).1.err with
  | some e => simp
  | none =>
    by_cases hx : (runWithLogs w h ctx image volName cmd netEnabled res).1.exitCode = 0
    · simp [hx]
    · simp [hx]

theorem runOneShot_fails_iff (w : World) (h : List Event) (ctx : Ctx) (image volName : GoString)
    (cmd : List GoString) (res : Option Resources) :
    (runOneShot w h ctx image volName cmd true res).1 ≠ none ↔
      ((runWithLogs w h ctx image volName cmd false res).1.err ≠ none ∨
       (runWithLogs w h ctx image volName cmd false res).1.exitCode ≠ 0) := by
  simp only [runOneShot]
  cases hE : (runWithLogs w h ctx image volName cmd false res).1.err with
  | some e => simp
  | none =>
    by_cases hx : (runWithLogs w h ctx image volName cmd false res).1.exitCode = 0
    · simp [hx]
    · simp [hx]

theorem stageOp_isSome_of_phase {vol repoURL startCommit image cmd : GoString} {s : Stage}
    (hs : isSetupPhase s = true) :
    ∃ op, stageOp vol repoURL startCommit image cmd s = some op := by
  cases s <;> simp only [isSetupPhase, reduceCtorEq] at hs <;> exact ⟨_, rfl⟩

/-- No test container is created in a run that returns no result. -/
theorem RunTests_no_test_container {w : World} {h : List Event}
    {repoURL startCommit finalPatch image cmd : GoString}
    (hres : (RunTests w h repoURL startCommit finalPatch image cmd).res = none)
    (x : Event) (hx : x ∈ (RunTests w h repoURL startCommit finalPatch image cmd).events)
    (ctx : Ctx) (cfg : Config) (host : HostConfig) (r : CreateResult)
    (hcmd : cfg.Cmd = testCmd cmd) : x ≠ Event.containerCreate ctx cfg host r := by
  intro hxe
  obtain ⟨p, q, hpq⟩ := List.append_of_mem hx
  obtain ⟨l₁, s, l₂, hl, hsop, hnone, _, _⟩ :=
    @RunTests_locate _ _ _ _ _ _ _ _ _ _ (Op.containerCreate ctx cfg host) hpq (by rw [hxe]; rfl)
  have hs : s = .test := stageOp_eq_test hsop hcmd
  subst hs
  obtain ⟨hl₁, _⟩ := plan_split_test hl
  subst hl₁
  obtain ⟨f, hf, _⟩ := RunTests_aborted hres
  rw [hnone] at hf
  cases hf

/-- A failing phase before the test phase ends the run: no result, the
phase's error wrapped, only the volume removal after the phase, no test
container. -/
theorem RunTests_setup_phase_fails {w : World} {h : List Event}
    {repoURL startCommit finalPatch image cmd : GoString}
    {s : Stage} {pre post : List Event} {err : GoError}
    (hs : isSetupPhase s = true)
    (hev : (RunTests w h repoURL startCommit finalPatch image cmd).events =
        pre ++ (stageCall w (workspaceName w h image) repoURL startCommit finalPatch image cmd s
          (h ++ pre)).2 ++ post)
    (hfail : (stageCall w (workspaceName w h image) repoURL startCommit finalPatch image cmd s
          (h ++ pre)).1 = some err) :
    (RunTests w h repoURL startCommit finalPatch image cmd).res = none ∧
    (RunTests w h repoURL startCommit finalPatch image cmd).err =
      some (wrapErr (stagePrefix w startCommit image s) err) ∧
    (∃ r, post = [Event.volumeRemove .background (workspaceName w h image) true r]) ∧
    (∀ x ∈ (RunTests w h repoURL startCommit finalPatch image cmd).events,
      ∀ ctx host r, x ≠ Event.containerCreate ctx ⟨image, testCmd cmd, false⟩ host r) := by
  obtain ⟨op, hop⟩ := @stageOp_isSome_of_phase (workspaceName w h image) repoURL startCommit
    image cmd s hs
  have hopens := stageCall_opens w (workspaceName w h image) repoURL startCommit finalPatch
    image cmd s (h ++ pre)
  rw [hop] at hopens
  obtain ⟨e, tail, ht, he, _⟩ := hopens
  have hev' := hev
  rw [ht] at hev'
  simp only [List.cons_append, List.append_assoc] at hev'
  obtain ⟨l₁, s', l₂, hl, hsop, hnone, hpre, _⟩ := RunTests_locate hev' he
  have hss : s' = s := stageOp_phase_inj hs (by rw [hsop, hop])
  subst hss
  obtain ⟨herr, hevents, hres⟩ := RunTests_refines w h repoURL startCommit finalPatch image cmd
  have hrun : runStages (stageCall w (workspaceName w h image) repoURL startCommit finalPatch
      image cmd) (plan startCommit finalPatch) h =
      (some (s', err), pre ++ (stageCall w (workspaceName w h image) repoURL startCommit
        finalPatch image cmd s' (h ++ pre)).2) := by
    rw [hl, runStages_append, hnone, hpre]
    simp only [runStages_cons_some _ hfail]
  have hb : beforeVolume s' = false := by
    cases s' <;> simp only [isSetupPhase, reduceCtorEq] at hs <;> rfl
  have hsetup : ∃ f, (runStages (stageCall w (workspaceName w h image) repoURL startCommit
      finalPatch image cmd) (setupPlan startCommit finalPatch) h).1 = some f := by
    cases hf : (runStages (stageCall w (workspaceName w h image) repoURL startCommit
      finalPatch image cmd) (setupPlan startCommit finalPatch) h).1 with
    | some f => exact ⟨f, rfl⟩
    | none =>
      have hplan := runStages_append (stageCall w (workspaceName w h image) repoURL startCommit
        finalPatch image cmd) (setupPlan startCommit finalPatch) [.test] h
      simp only [hf, runStages_test] at hplan
      rw [← plan, hrun] at hplan
      have h1 := congrArg Prod.fst hplan
      simp only at h1
      cases hto : (testOut w (workspaceName w h image) image cmd (h ++ (runStages (stageCall w
        (workspaceName w h image) repoURL startCommit finalPatch image cmd)
        (setupPlan startCommit finalPatch) h).2)).err with
      | none => rw [hto] at h1; cases h1
      | some e' =>
        rw [hto] at h1
        simp only [Option.map_some', Option.some.injEq, Prod.mk.injEq] at h1
        rw [h1.1] at hs
        cases hs
  obtain ⟨f, hf⟩ := hsetup
  have hresnone : (RunTests w h repoURL startCommit finalPatch image cmd).res = none := by
    rw [hres, resultAfter, hf]
  refine ⟨hresnone, ?_, ?_, ?_⟩
  · rw [herr, hrun]; rfl
  · rw [hevents, hrun] at hev
    simp only [volumeExists, hb, Bool.not_false, if_true, List.append_assoc,
      List.append_cancel_left_eq] at hev
    exact ⟨_, hev.symm⟩
  · intro x hx ctx host r
    exact RunTests_no_test_container hresnone x hx ctx _ host r rfl

/-- C3.  Take any of the four phases before the test phase (clone, checkout,
patch injection, patch apply).  If the events of a run contain, at some
position, the events of that phase's call made at that position, and the call
returns an error, then `RunTests` returns a nil result and a non-nil error
(the phase's error, wrapped), the only event after the phase is the removal of
the workspace volume, and no event of the run creates the test container.
The clone, checkout and apply calls return an error exactly when their
container hits an infrastructure error or exits non-zero. -/
theorem RunTests_phase_failure (w : World) (h : List Event)
    (repoURL startCommit finalPatch image cmd : GoString) :
    (∀ (s : Stage) (pre post : List Event) (err : GoError),
      isSetupPhase s = true →
      (RunTests w h repoURL startCommit finalPatch image cmd).events =
        pre ++ (stageCall w (workspaceName w h image) repoURL startCommit finalPatch image cmd s
          (h ++ pre)).2 ++ post →
      (stageCall w (workspaceName w h image) repoURL startCommit finalPatch image cmd s
          (h ++ pre)).1 = some err →
      (RunTests w h repoURL startCommit finalPatch image cmd).res = none ∧
      (RunTests w h repoURL startCommit finalPatch image cmd).err =
        some (wrapErr (stagePrefix w startCommit image s) err) ∧
      (∃ r, post = [Event.volumeRemove .background (workspaceName w h image) true r]) ∧
      (∀ x ∈ (RunTests w h repoURL startCommit finalPatch image cmd).events,
        ∀ ctx host r, x ≠ Event.containerCreate ctx ⟨image, testCmd cmd, false⟩ host r)) ∧
    (∀ (h' : List Event) (ctx : Ctx) (img vol : GoString) (c : List GoString)
        (res : Option Resources) (net : Bool),
      ((runOneShotNet w h' ctx img vol c true res net).1 ≠ none ↔
        ((runWithLogs w h' ctx img vol c net res).1.err ≠ none ∨
         (runWithLogs w h' ctx img vol c net res).1.exitCode ≠ 0)) ∧
      ((runOneShot w h' ctx img vol c true res).1 ≠ none ↔
        ((runWithLogs w h' ctx img vol c false res).1.err ≠ none ∨
         (runWithLogs w h' ctx img vol c false res).1.exitCode ≠ 0))) := by
  refine ⟨fun s pre post err hs hev hfail => RunTests_setup_phase_fails hs hev hfail,
    fun h' ctx img vol c res net =>
    ⟨runOneShotNet_fails_iff w h' ctx img vol c res net, runOneShot_fails_iff w h' ctx img vol c res⟩⟩

/-- C3, at a run whose patch does not apply: the events contain the events of
the apply phase, that phase returns an error, and `RunTests` returns no
result and the wrapped error. -/
theorem RunTests_phase_failure_witness :
    isSetupPhase .apply = true ∧
    (RunTests applyFails [] (str "u") (str "HEAD") (str "diff") (str "img") (str "go test")).events =
      (RunTests applyFails [] (str "u") (str "HEAD") (str "diff") (str "img")
        (str "go test")).events.take 15 ++
      (stageCall applyFails (workspaceName applyFails [] (str "img")) (str "u") (str "HEAD")
        (str "diff") (str "img") (str "go test") .apply
        ([] ++ (RunTests applyFails [] (str "u") (str "HEAD") (str "diff") (str "img")
          (str "go test")).events.take 15)).2 ++
      (RunTests applyFails [] (str "u") (str "HEAD") (str "diff") (str "img")
        (str "go test")).events.drop 21 ∧
    (stageCall applyFails (workspaceName applyFails [] (str "img")) (str "u") (str "HEAD")
        (str "diff") (str "img") (str "go test") .apply
        ([] ++ (RunTests applyFails [] (str "u") (str "HEAD") (str "diff") (str "img")
          (str "go test")).events.take 15)).1 =
      some (newErr (str "-C /repo apply patch.diff exit code=1")) ∧
    (RunTests applyFails [] (str "u") (str "HEAD") (str "diff") (str "img") (str "go test")).res
      = none ∧
    (RunTests applyFails [] (str "u") (str "HEAD") (str "diff") (str "img") (str "go test")).err =
      some (wrapErr (stagePrefix applyFails (str "HEAD") (str "img") .apply)
        (newErr (str "-C /repo apply patch.diff exit code=1"))) :=
  ⟨rfl, by decide, by decide,
    ((RunTests_phase_failure applyFails [] (str "u") (str "HEAD") (str "diff") (str "img")
      (str "go test")).1 .apply
      ((RunTests applyFails [] (str "u") (str "HEAD") (str "diff") (str "img")
        (str "go test")).events.take 15)
      ((RunTests applyFails [] (str "u") (str "HEAD") (str "diff") (str "img")
        (str "go test")).events.drop 21)
      (newErr (str "-C /repo apply patch.diff exit code=1")) rfl (by decide) (by decide)).1,
    ((RunTests_phase_failure applyFails [] (str "u") (str "HEAD") (str "diff") (str "img")
      (str "go test")).1 .apply
      ((RunTests applyFails [] (str "u") (str "HEAD") (str "diff") (str "img")
        (str "go test")).events.take 15)
      ((RunTests applyFails [] (str "u") (str "HEAD") (str "diff") (str "img")
        (str "go test")).events.drop 21)
      (newErr (str "-C /repo apply patch.diff exit code=1")) rfl (by decide) (by decide)).2.1⟩

/-- C4.  If the events of a run contain, at some position, the events of the
test-phase call of `runWithLogs` made at that position, and the call returns
an error, then `RunTests` returns that error wrapped, together with a non-nil
result holding the stdout, stderr and exit code the call returned and with
`OK` false. -/
theorem RunTests_test_infra_error (w : World) (h : List Event)
    (repoURL startCommit finalPatch image cmd : GoString) (pre post : List Event) (e : GoError)
    (hev : (RunTests w h repoURL startCommit finalPatch image cmd).events =
      pre ++ (runWithLogs w (h ++ pre) .phase image (workspaceName w h image) (testCmd cmd)
        false (some testLimits)).2 ++ post)
    (hfail : (runWithLogs w (h ++ pre) .phase image (workspaceName w h image) (testCmd cmd)
        false (some testLimits)).1.err = some e) :
    (RunTests w h repoURL startCommit finalPatch image cmd).err =
      some (wrapErr (str "test run: ") e) ∧
    (RunTests w h repoURL startCommit finalPatch image cmd).res =
      some { OK := false
             Stdout := (runWithLogs w (h ++ pre) .phase image (workspaceName w h image)
               (testCmd cmd) false (some testLimits)).1.stdout
             Stderr := (runWithLogs w (h ++ pre) .phase image (workspaceName w h image)
               (testCmd cmd) false (some testLimits)).1.stderr
             ExitCode := (runWithLogs w (h ++ pre) .phase image (workspaceName w h image)
               (testCmd cmd) false (some testLimits)).1.exitCode } := by
  have hopens := runWithLogs_opens w (h ++ pre) .phase image (workspaceName w h image)
    (testCmd cmd) false (some testLimits)
  obtain ⟨ev, tail, ht, he, _⟩ := hopens
  have hev' := hev
  rw [ht] at hev'
  simp only [List.cons_append, List.append_assoc] at hev'
  obtain ⟨l₁, s, l₂, hl, hsop, hnone, hpre, _⟩ := RunTests_locate hev' he
  have hs : s = .test := stageOp_eq_test hsop rfl
  subst hs
  obtain ⟨hl₁, _⟩ := plan_split_test hl
  subst hl₁
  obtain ⟨herr, _, hres⟩ := RunTests_refines w h repoURL startCommit finalPatch image cmd
  have hplan := runStages_append (stageCall w (workspaceName w h image) repoURL startCommit
      finalPatch image cmd) (setupPlan startCommit finalPatch) [.test] h
  simp only [hnone, runStages_test, hpre] at hplan
  refine ⟨?_, ?_⟩
  · rw [herr, plan, hplan]
    simp [testOut, hfail, stagePrefix]
  · rw [hres, resultAfter, hnone, hpre]
    simp [assemble, testOut, hfail]

/-- C4, at a run in which the start of the test container fails: the error is
returned together with a result that has `OK` false. -/
theorem RunTests_test_infra_error_witness :
    (RunTests testStartFails [] (str "u") (str "HEAD") [] (str "img") (str "go test")).events =
      (RunTests testStartFails [] (str "u") (str "HEAD") [] (str "img") (str "go test")).events.take 10 ++
      (runWithLogs testStartFails ([] ++ (RunTests testStartFails [] (str "u") (str "HEAD") [] (str "img") (str "go test")).events.take 10) .phase (str "img")
        (workspaceName testStartFails [] (str "img")) (testCmd (str "go test")) false (some testLimits)).2 ++
      (RunTests testStartFails [] (str "u") (str "HEAD") [] (str "img") (str "go test")).events.drop 14 ∧
    (runWithLogs testStartFails ([] ++ (RunTests testStartFails [] (str "u") (str "HEAD") [] (str "img") (str "go test")).events.take 10) .phase (str "img")
        (workspaceName testStartFails [] (str "img")) (testCmd (str "go test")) false (some testLimits)).1.err = some (wrapErr (str "start: ") boom) ∧
    (RunTests testStartFails [] (str "u") (str "HEAD") [] (str "img") (str "go test")).err = some (wrapErr (str "test run: ") (wrapErr (str "start: ") boom)) ∧
    (RunTests testStartFails [] (str "u") (str "HEAD") [] (str "img") (str "go test")).res =
      some { OK := false
             Stdout := (runWithLogs testStartFails ([] ++ (RunTests testStartFails [] (str "u") (str "HEAD") [] (str "img") (str "go test")).events.take 10) .phase (str "img")
        (workspaceName testStartFails [] (str "img")) (testCmd (str "go test")) false (some testLimits)).1.stdout
             Stderr := (runWithLogs testStartFails ([] ++ (RunTests testStartFails [] (str "u") (str "HEAD") [] (str "img") (str "go test")).events.take 10) .phase (str "img")
        (workspaceName testStartFails [] (str "img")) (testCmd (str "go test")) false (some testLimits)).1.stderr
             ExitCode := (runWithLogs testStartFails ([] ++ (RunTests testStartFails [] (str "u") (str "HEAD") [] (str "img") (str "go test")).events.take 10) .phase (str "img")
        (workspaceName testStartFails [] (str "img")) (testCmd (str "go test")) false (some testLimits)).1.exitCode } :=
  ⟨by decide, by decide,
    RunTests_test_infra_error testStartFails [] (str "u") (str "HEAD") [] (str "img")
      (str "go test") ((RunTests testStartFails [] (str "u") (str "HEAD") [] (str "img") (str "go test")).events.take 10) ((RunTests testStartFails [] (str "u") (str "HEAD") [] (str "img") (str "go test")).events.drop 14)
      (wrapErr (str "start: ") boom) (by decide) (by decide)⟩


/-! ## The kinds of events each helper emits -/

theorem mem_runStages {call : Stage → List Event → Option GoError × List Event}
    {l : List Stage} {h : List Event} {x : Event} (hx : x ∈ (runStages call l h).2) :
    ∃ s ∈ l, ∃ h', x ∈ (call s h').2 := by
  induction l generalizing h with
  | nil => simp [runStages] at hx
  | cons s rest ih =>
    cases hc : (call s h).1 with
    | some e =>
      rw [runStages_cons_some _ hc] at hx
      exact ⟨s, by simp, h, hx⟩
    | none =>
      rw [runStages_cons_none _ hc] at hx
      simp only [List.mem_append] at hx
      rcases hx with hx | hx
      · exact ⟨s, by simp, h, hx⟩
      · obtain ⟨s', hs', h', hx'⟩ := ih hx
        exact ⟨s', List.mem_cons_of_mem _ hs', h', hx'⟩

theorem stopAndRemove_container (w : World) (h : List Event) (cid : GoString) (timeout : Int) :
    ∀ x ∈ stopAndRemove w h cid timeout, x.isContainerEvent = true := by
  intro x hx
  simp only [stopAndRemove, List.mem_cons, List.mem_singleton, List.not_mem_nil, or_false] at hx
  rcases hx with hx | hx <;> subst hx <;> rfl

theorem runWithLogsBody_container (w : World) (h : List Event) (ctx : Ctx) (cid : GoString) :
    ∀ x ∈ (runWithLogsBody w h ctx cid).2, x.isContainerEvent = true := by
  intro x hx
  cases hs : w.containerStart h ctx cid with
  | some e =>
    rw [runWithLogsBody_start_failed hs] at hx
    simp only [List.mem_singleton] at hx
    subst hx; rfl
  | none =>
    cases hw : w.containerWait (h ++ [Event.containerStart ctx cid none]) ctx cid with
    | errCh e =>
      cases e with
      | some e =>
        rw [runWithLogsBody_wait_failed hs hw] at hx
        simp only [List.mem_cons, List.mem_singleton, List.not_mem_nil, or_false] at hx
        rcases hx with hx | hx <;> subst hx <;> rfl
      | none =>
        rw [runWithLogsBody_wait_nil hs hw, collectLogs_snd] at hx
        simp only [List.mem_cons, List.mem_singleton, List.not_mem_nil, or_false] at hx
        rcases hx with hx | hx | hx <;> subst hx <;> rfl
    | status code =>
      rw [runWithLogsBody_status hs hw, collectLogs_snd] at hx
      simp only [List.mem_cons, List.mem_singleton, List.not_mem_nil, or_false] at hx
      rcases hx with hx | hx | hx <;> subst hx <;> rfl

theorem runWithLogs_container (w : World) (h : List Event) (ctx : Ctx) (image volName : GoString)
    (cmd : List GoString) (netEnabled : Bool) (res : Option Resources) :
    ∀ x ∈ (runWithLogs w h ctx image volName cmd netEnabled res).2,
      x.isContainerEvent = true := by
  intro x hx
  cases hc : w.containerCreate h ctx ⟨image, cmd, false⟩ (phaseHost volName netEnabled res) with
  | failed e =>
    rw [runWithLogs_failed hc] at hx
    simp only [List.mem_singleton] at hx
    subst hx; rfl
  | created cid =>
    rw [runWithLogs_created hc] at hx
    simp only [List.mem_cons, List.mem_append] at hx
    rcases hx with hx | hx | hx
    · subst hx; rfl
    · exact runWithLogsBody_container _ _ _ _ x hx
    · exact stopAndRemove_container _ _ _ _ x hx

theorem copyBytesToVolume_failed {w : World} {h : List Event} {ctx : Ctx}
    {volName destPath : GoString} {data : List Byte} {e : GoError}
    (hc : w.containerCreate h ctx ⟨str "alpine/git:latest", helperCmd, false⟩
      (helperHost volName) = .failed e) :
    copyBytesToVolume w h ctx volName destPath data =
      (some (wrapErr (str "copy helper create: ") e),
        [Event.containerCreate ctx ⟨str "alpine/git:latest", helperCmd, false⟩
          (helperHost volName) (.failed e)]) := by
  simp only [helperHost, helperCmd] at hc
  simp only [copyBytesToVolume, helperHost, helperCmd, hc]

theorem copyBytesToVolume_created {w : World} {h : List Event} {ctx : Ctx}
    {volName destPath : GoString} {data : List Byte} {cid : GoString}
    (hc : w.containerCreate h ctx ⟨str "alpine/git:latest", helperCmd, false⟩
      (helperHost volName) = .created cid) :
    copyBytesToVolume w h ctx volName destPath data =
      ((copyBytesToVolumeBody w (h ++ [Event.containerCreate ctx
          ⟨str "alpine/git:latest", helperCmd, false⟩ (helperHost volName) (.created cid)])
          ctx cid destPath data).1,
        Event.containerCreate ctx ⟨str "alpine/git:latest", helperCmd, false⟩
          (helperHost volName) (.created cid) ::
        ((copyBytesToVolumeBody w (h ++ [Event.containerCreate ctx
          ⟨str "alpine/git:latest", helperCmd, false⟩ (helperHost volName) (.created cid)])
          ctx cid destPath data).2 ++
        stopAndRemove w (h ++ [Event.containerCreate ctx
          ⟨str "alpine/git:latest", helperCmd, false⟩ (helperHost volName) (.created cid)] ++
          (copyBytesToVolumeBody w (h ++ [Event.containerCreate ctx
          ⟨str "alpine/git:latest", helperCmd, false⟩ (helperHost volName) (.created cid)])
          ctx cid destPath data).2) cid 2)) := by
  simp only [helperHost, helperCmd] at hc
  simp only [copyBytesToVolume, helperHost, helperCmd, hc, List.singleton_append,
    List.cons_append, List.nil_append]

/-- The events of the body of `copyBytesToVolume`: the start, followed by the
upload when the start and the construction of the archive succeeded. -/
theorem copyBytesToVolumeBody_events (w : World) (h : List Event) (ctx : Ctx)
    (cid destPath : GoString) (data : List Byte) :
    (copyBytesToVolumeBody w h ctx cid destPath data).2 =
      [Event.containerStart ctx cid (w.containerStart h ctx cid)] ∨
    (copyBytesToVolumeBody w h ctx cid destPath data).2 =
      [Event.containerStart ctx cid none,
       Event.copyToContainer ctx cid (str "/repo") ⟨destPath, 0o644, data.length, data⟩ true
        (w.copyToContainer (h ++ [Event.containerStart ctx cid none]) ctx cid (str "/repo")
          ⟨destPath, 0o644, data.length, data⟩ true)] := by
  unfold copyBytesToVolumeBody
  cases hs : w.containerStart h ctx cid with
  | some e => exact Or.inl rfl
  | none =>
    simp only
    split
    · exact Or.inl rfl
    · split
      · exact Or.inl rfl
      · split
        · exact Or.inl rfl
        · split <;> exact Or.inr rfl

theorem copyBytesToVolume_container (w : World) (h : List Event) (ctx : Ctx)
    (volName destPath : GoString) (data : List Byte) :
    ∀ x ∈ (copyBytesToVolume w h ctx volName destPath data).2, x.isContainerEvent = true := by
  intro x hx
  cases hc : w.containerCreate h ctx ⟨str "alpine/git:latest", helperCmd, false⟩
      (helperHost volName) with
  | failed e =>
    rw [copyBytesToVolume_failed hc] at hx
    simp only [List.mem_singleton] at hx
    subst hx; rfl
  | created cid =>
    rw [copyBytesToVolume_created hc] at hx
    simp only [List.mem_cons, List.mem_append] at hx
    rcases hx with hx | hx | hx
    · subst hx; rfl
    · rcases copyBytesToVolumeBody_events w (h ++ [Event.containerCreate ctx
          ⟨str "alpine/git:latest", helperCmd, false⟩ (helperHost volName) (.created cid)])
          ctx cid destPath data with hb | hb <;> rw [hb] at hx <;>
        simp only [List.mem_cons, List.mem_singleton, List.not_mem_nil, or_false] at hx
      · subst hx; rfl
      · rcases hx with hx | hx <;> subst hx <;> rfl
    · exact stopAndRemove_container _ _ _ _ x hx

theorem pullIfNeeded_snd (w : World) (h : List Event) (ctx : Ctx) (image : GoString) :
    (pullIfNeeded w h ctx image).2 =
      [Event.imagePull ctx (imageRef image) (w.imagePull h ctx (imageRef image))] := by
  unfold pullIfNeeded pullIfNeededRun
  cases w.imagePull h ctx (imageRef image) <;> rfl

/-- The stages that follow the creation of the volume emit no volume event. -/
theorem stageCall_no_volume_event {w : World}
    {vol repoURL startCommit finalPatch image cmd : GoString} {s : Stage} {h : List Event}
    {x : Event} (hs : beforeVolume s = false)
    (hx : x ∈ (stageCall w vol repoURL startCommit finalPatch image cmd s h).2) :
    x.isVolumeRemove = false ∧ x.isVolumeCreate = false := by
  have hcont : x.isContainerEvent = true → x.isVolumeRemove = false ∧ x.isVolumeCreate = false := by
    intro hc
    cases x <;> simp only [Event.isContainerEvent, reduceCtorEq] at hc <;> exact ⟨rfl, rfl⟩
  cases s <;> simp only [beforeVolume, reduceCtorEq] at hs
  · simp only [stageCall, pullIfNeeded_snd, List.mem_singleton] at hx
    subst hx; exact ⟨rfl, rfl⟩
  · simp only [stageCall, runOneShotNet_events] at hx
    exact hcont (runWithLogs_container _ _ _ _ _ _ _ _ x hx)
  · simp only [stageCall, runOneShotNet_events] at hx
    exact hcont (runWithLogs_container _ _ _ _ _ _ _ _ x hx)
  · exact hcont (copyBytesToVolume_container _ _ _ _ _ _ x hx)
  · simp only [stageCall, runOneShot_events] at hx
    exact hcont (runWithLogs_container _ _ _ _ _ _ _ _ x hx)
  · exact hcont (runWithLogs_container _ _ _ _ _ _ _ _ x hx)

theorem runPhases_no_volume_event {w : World} {h : List Event}
    {vol repoURL startCommit finalPatch image cmd : GoString} {x : Event}
    (hx : x ∈ (runPhases w h vol repoURL startCommit finalPatch image cmd).events) :
    x.isVolumeRemove = false ∧ x.isVolumeCreate = false := by
  obtain ⟨_, hev, _⟩ := runPhases_refines w h vol repoURL startCommit finalPatch image cmd
  rw [hev] at hx
  obtain ⟨s, hs, h', hx'⟩ := mem_runStages hx
  exact stageCall_no_volume_event (beforeVolume_of_mem_phaseStages hs) hx'

/-! ## Cleanup -/

/-- C5.  In every run of `RunTests`: if the events contain a successful volume
creation, the events end with exactly one volume removal, of that same volume,
forced and issued on `context.Background()`, and no other event of the run is
a volume removal; if the events contain no successful volume creation (it
failed or was never reached), no event of the run is a volume removal. -/
theorem RunTests_volume_cleanup (w : World) (h : List Event)
    (repoURL startCommit finalPatch image cmd : GoString) :
    (∀ ctx name,
      Event.volumeCreate ctx name none ∈
        (RunTests w h repoURL startCommit finalPatch image cmd).events →
      ∃ body r, (RunTests w h repoURL startCommit finalPatch image cmd).events =
          body ++ [Event.volumeRemove .background name true r] ∧
        ∀ x ∈ body, x.isVolumeRemove = false) ∧
    ((∀ ctx name, Event.volumeCreate ctx name none ∉
        (RunTests w h repoURL startCommit finalPatch image cmd).events) →
      ∀ x ∈ (RunTests w h repoURL startCommit finalPatch image cmd).events,
        x.isVolumeRemove = false) := by
  cases h0 : w.newClient with
  | some e0 => simp [RunTests, h0]
  | none =>
    cases h1 : w.ping h .caller with
    | some e1 => simp [RunTests, h0, h1, Event.isVolumeRemove]
    | none =>
      cases h2 : (pullIfNeeded w (h ++ [Event.ping .caller none]) .phase image).1 with
      | some e2 =>
        simp [RunTests, h0, h1, h2, pullIfNeeded_snd, Event.isVolumeRemove]
      | none =>
        cases h3 : w.volumeCreate (h ++ [Event.ping .caller none,
            Event.imagePull .phase (imageRef image)
              (w.imagePull (h ++ [Event.ping .caller none]) .phase (imageRef image))]) .phase
            (str "qa-runner-" ++ fmtInt (w.now (h ++ [Event.ping .caller none,
              Event.imagePull .phase (imageRef image)
                (w.imagePull (h ++ [Event.ping .caller none]) .phase (imageRef image))]))) with
        | some e3 =>
          simp [RunTests, h0, h1, h2, h3, pullIfNeeded_snd, Event.isVolumeRemove]
        | none =>
          simp only [RunTests, h0, h1, h2, h3, pullIfNeeded_snd, List.append_assoc,
            List.singleton_append, List.cons_append, List.nil_append]
          have hR : ∀ x ∈ (runPhases w (h ++ [Event.ping .caller none,
              Event.imagePull .phase (imageRef image)
                (w.imagePull (h ++ [Event.ping .caller none]) .phase (imageRef image)),
              Event.volumeCreate .phase (str "qa-runner-" ++ fmtInt (w.now (h ++
                [Event.ping .caller none, Event.imagePull .phase (imageRef image)
                  (w.imagePull (h ++ [Event.ping .caller none]) .phase (imageRef image))])))
                none])
              (str "qa-runner-" ++ fmtInt (w.now (h ++
                [Event.ping .caller none, Event.imagePull .phase (imageRef image)
                  (w.imagePull (h ++ [Event.ping .caller none]) .phase (imageRef image))])))
              repoURL startCommit finalPatch image cmd).events,
              x.isVolumeRemove = false ∧ x.isVolumeCreate = false :=
            fun x hx => runPhases_no_volume_event hx
          generalize (runPhases w _ _ repoURL startCommit finalPatch image cmd).events = R at hR ⊢
          generalize w.volumeRemove _ .background _ true = rm
          generalize (str "qa-runner-" ++ fmtInt (w.now (h ++
                [Event.ping .caller none, Event.imagePull .phase (imageRef image)
                  (w.imagePull (h ++ [Event.ping .caller none]) .phase (imageRef image))]))) = vol
          generalize w.imagePull (h ++ [Event.ping .caller none]) .phase (imageRef image) = pr
          refine ⟨?_, ?_⟩
          · intro ctx name hmem
            have hname : name = vol := by
              simp only [List.mem_cons, List.mem_append, List.mem_singleton,
                reduceCtorEq, false_or, or_false, Event.volumeCreate.injEq] at hmem
              rcases hmem with hmem | hmem | hmem
              · exact hmem.2.1
              · have := (hR _ hmem).2
                simp [Event.isVolumeCreate] at this
              · cases hmem
            subst hname
            refine ⟨Event.ping .caller none :: Event.imagePull .phase (imageRef image) pr ::
              Event.volumeCreate .phase name none :: R, rm, by simp, ?_⟩
            intro x hx
            simp only [List.mem_cons] at hx
            rcases hx with hx | hx | hx | hx
            · subst hx; rfl
            · subst hx; rfl
            · subst hx; rfl
            · exact (hR x hx).1
          · intro hno
            exact absurd (List.mem_cons_of_mem _ (List.mem_cons_of_mem _ (List.mem_cons_self _ _)))
              (hno .phase _)


theorem CleanedUp.append {t₁ t₂ : List Event} (h₁ : CleanedUp t₁) (h₂ : CleanedUp t₂) :
    CleanedUp (t₁ ++ t₂) := by
  intro pre post ctx cfg host cid heq
  rcases List.append_eq_append_iff.mp heq with ⟨a', h1, h2⟩ | ⟨c', h1, h2⟩
  · exact h₂ a' post ctx cfg host cid h2
  · cases c' with
    | nil =>
      simp only [List.nil_append] at h2
      exact h₂ [] post ctx cfg host cid h2.symm
    | cons x c'' =>
      simp only [List.cons_append, List.cons.injEq] at h2
      obtain ⟨hx, hpost⟩ := h2
      subst hx
      obtain ⟨mid, timeout, s, r, rest, hc, hmid⟩ := h₁ pre c'' ctx cfg host cid h1
      refine ⟨mid, timeout, s, r, rest ++ t₂, ?_, hmid⟩
      rw [hpost, hc]
      simp

theorem CleanedUp.of_no_create {t : List Event} (ht : ∀ x ∈ t, x.op = none) : CleanedUp t := by
  intro pre post ctx cfg host cid heq
  have := ht (Event.containerCreate ctx cfg host (.created cid)) (by rw [heq]; simp)
  cases this

theorem CleanedUp.of_opens_failed {t : List Event} {ctx : Ctx} {cfg : Config} {host : HostConfig}
    {e : GoError} (ht : t = [Event.containerCreate ctx cfg host (.failed e)]) : CleanedUp t := by
  intro pre post ctx' cfg' host' cid heq
  rw [ht] at heq
  cases pre with
  | nil => simp at heq
  | cons p pre' =>
    simp only [List.cons_append, List.cons.injEq] at heq
    have := heq.2
    simp at this

theorem CleanedUp.of_created {t body : List Event} {ctx : Ctx} {cfg : Config} {host : HostConfig}
    {cid : GoString} {timeout : Int} {s r : Option GoError}
    (ht : t = Event.containerCreate ctx cfg host (.created cid) ::
      (body ++ [Event.containerStop .background cid timeout s,
        Event.containerRemove .background cid true r]))
    (hbody : ∀ x ∈ body, x.op = none) : CleanedUp t := by
  intro pre post ctx' cfg' host' cid' heq
  rw [ht] at heq
  cases pre with
  | nil =>
    simp only [List.nil_append, List.cons.injEq, Event.containerCreate.injEq,
      CreateResult.created.injEq] at heq
    obtain ⟨⟨_, _, _, hcid⟩, hpost⟩ := heq
    subst hcid
    exact ⟨body, timeout, s, r, [], hpost.symm, hbody⟩
  | cons p pre' =>
    simp only [List.cons_append, List.cons.injEq] at heq
    have hmem : Event.containerCreate ctx' cfg' host' (.created cid') ∈
        body ++ [Event.containerStop .background cid timeout s,
          Event.containerRemove .background cid true r] := by
      rw [heq.2]; simp
    simp only [List.mem_append, List.mem_cons, List.mem_singleton, List.not_mem_nil, or_false,
      reduceCtorEq] at hmem
    have := hbody _ hmem
    cases this

/-- The events of `runWithLogs` when the container was created: the creation,
then the events of the body, then the stop (5 second grace period) and the
forced remove, both on `context.Background()`. -/
theorem runWithLogs_cleanup {w : World} {h : List Event} {ctx : Ctx} {image volName : GoString}
    {cmd : List GoString} {netEnabled : Bool} {res : Option Resources} {cid : GoString}
    (hc : w.containerCreate h ctx ⟨image, cmd, false⟩ (phaseHost volName netEnabled res)
      = .created cid) :
    ∃ body s r, (runWithLogs w h ctx image volName cmd netEnabled res).2 =
        Event.containerCreate ctx ⟨image, cmd, false⟩ (phaseHost volName netEnabled res)
          (.created cid) ::
        (body ++ [Event.containerStop .background cid 5 s,
          Event.containerRemove .background cid true r]) ∧
      ∀ x ∈ body, x.op = none := by
  rw [runWithLogs_created hc]
  exact ⟨_, _, _, rfl, runWithLogsBody_op _ _ _ _⟩

/-- The events of `copyBytesToVolume` when the helper container was created:
the creation, then the events of the body, then the stop (2 second grace
period) and the forced remove, both on `context.Background()`. -/
theorem copyBytesToVolume_cleanup {w : World} {h : List Event} {ctx : Ctx}
    {volName destPath : GoString} {data : List Byte} {cid : GoString}
    (hc : w.containerCreate h ctx ⟨str "alpine/git:latest", helperCmd, false⟩
      (helperHost volName) = .created cid) :
    ∃ body s r, (copyBytesToVolume w h ctx volName destPath data).2 =
        Event.containerCreate ctx ⟨str "alpine/git:latest", helperCmd, false⟩
          (helperHost volName) (.created cid) ::
        (body ++ [Event.containerStop .background cid 2 s,
          Event.containerRemove .background cid true r]) ∧
      ∀ x ∈ body, x.op = none := by
  rw [copyBytesToVolume_created hc]
  exact ⟨_, _, _, rfl, copyBytesToVolumeBody_op _ _ _ _ _ _⟩

theorem runWithLogs_cleanedUp (w : World) (h : List Event) (ctx : Ctx) (image volName : GoString)
    (cmd : List GoString) (netEnabled : Bool) (res : Option Resources) :
    CleanedUp (runWithLogs w h ctx image volName cmd netEnabled res).2 := by
  cases hc : w.containerCreate h ctx ⟨image, cmd, false⟩ (phaseHost volName netEnabled res) with
  | failed e => exact CleanedUp.of_opens_failed (by rw [runWithLogs_failed hc])
  | created cid =>
    obtain ⟨body, s, r, ht, hbody⟩ := runWithLogs_cleanup hc
    exact CleanedUp.of_created ht hbody

theorem copyBytesToVolume_cleanedUp (w : World) (h : List Event) (ctx : Ctx)
    (volName destPath : GoString) (data : List Byte) :
    CleanedUp (copyBytesToVolume w h ctx volName destPath data).2 := by
  cases hc : w.containerCreate h ctx ⟨str "alpine/git:latest", helperCmd, false⟩
      (helperHost volName) with
  | failed e => exact CleanedUp.of_opens_failed (by rw [copyBytesToVolume_failed hc])
  | created cid =>
    obtain ⟨body, s, r, ht, hbody⟩ := copyBytesToVolume_cleanup hc
    exact CleanedUp.of_created ht hbody

theorem cleanedUp_single {x : Event} (hx : ∀ ctx cfg host r, x ≠ Event.containerCreate ctx cfg host r) :
    CleanedUp [x] := by
  intro pre post ctx cfg host cid heq
  cases pre with
  | nil =>
    simp only [List.nil_append, List.cons.injEq] at heq
    exact absurd heq.1 (hx _ _ _ _)
  | cons p pre' =>
    simp only [List.cons_append, List.cons.injEq] at heq
    have := heq.2
    simp at this

theorem stageCall_cleanedUp (w : World) (vol repoURL startCommit finalPatch image cmd : GoString)
    (s : Stage) (h : List Event) :
    CleanedUp (stageCall w vol repoURL startCommit finalPatch image cmd s h).2 := by
  cases s with
  | client => exact CleanedUp.of_no_create (by simp [stageCall])
  | ping => exact cleanedUp_single (by intro _ _ _ _ hh; cases hh)
  | pullTest =>
    simp only [stageCall, pullIfNeeded_snd]
    exact cleanedUp_single (by intro _ _ _ _ hh; cases hh)
  | volume => exact cleanedUp_single (by intro _ _ _ _ hh; cases hh)
  | pullGit =>
    simp only [stageCall, pullIfNeeded_snd]
    exact cleanedUp_single (by intro _ _ _ _ hh; cases hh)
  | clone =>
    simp only [stageCall, runOneShotNet_events]
    exact runWithLogs_cleanedUp _ _ _ _ _ _ _ _
  | checkout =>
    simp only [stageCall, runOneShotNet_events]
    exact runWithLogs_cleanedUp _ _ _ _ _ _ _ _
  | inject => exact copyBytesToVolume_cleanedUp _ _ _ _ _ _
  | apply =>
    simp only [stageCall, runOneShot_events]
    exact runWithLogs_cleanedUp _ _ _ _ _ _ _ _
  | test => exact runWithLogs_cleanedUp _ _ _ _ _ _ _ _

theorem runStages_cleanedUp {call : Stage → List Event → Option GoError × List Event}
    (hcall : ∀ s h, CleanedUp (call s h).2) (l : List Stage) (h : List Event) :
    CleanedUp (runStages call l h).2 := by
  induction l generalizing h with
  | nil => exact CleanedUp.of_no_create (by simp [runStages])
  | cons s rest ih =>
    cases hc : (call s h).1 with
    | some e => rw [runStages_cons_some _ hc]; exact hcall s h
    | none => rw [runStages_cons_none _ hc]; exact (hcall s h).append (ih _)

/-- C6.  When `runWithLogs` or `copyBytesToVolume` has created its container,
the events of the call end, on every return path, with a stop of that
container followed by its forced remove, both on `context.Background()`;
and in every run of `RunTests`, every container the events show as created is
later stopped and then forcibly removed, before any other stage-opening
call. -/
theorem containers_cleaned_up (w : World) (h : List Event) :
    (∀ ctx image volName cmd netEnabled res cid,
      w.containerCreate h ctx ⟨image, cmd, false⟩ (phaseHost volName netEnabled res)
        = .created cid →
      ∃ body s r, (runWithLogs w h ctx image volName cmd netEnabled res).2 =
          Event.containerCreate ctx ⟨image, cmd, false⟩ (phaseHost volName netEnabled res)
            (.created cid) ::
          (body ++ [Event.containerStop .background cid 5 s,
            Event.containerRemove .background cid true r]) ∧
        ∀ x ∈ body, x.op = none) ∧
    (∀ ctx volName destPath data cid,
      w.containerCreate h ctx ⟨str "alpine/git:latest", helperCmd, false⟩ (helperHost volName)
        = .created cid →
      ∃ body s r, (copyBytesToVolume w h ctx volName destPath data).2 =
          Event.containerCreate ctx ⟨str "alpine/git:latest", helperCmd, false⟩
            (helperHost volName) (.created cid) ::
          (body ++ [Event.containerStop .background cid 2 s,
            Event.containerRemove .background cid true r]) ∧
        ∀ x ∈ body, x.op = none) ∧
    (∀ repoURL startCommit finalPatch image cmd,
      CleanedUp (RunTests w h repoURL startCommit finalPatch image cmd).events) := by
  refine ⟨fun _ _ _ _ _ _ _ hc => runWithLogs_cleanup hc,
    fun _ _ _ _ _ hc => copyBytesToVolume_cleanup hc, ?_⟩
  intro repoURL startCommit finalPatch image cmd
  obtain ⟨_, hev, _⟩ := RunTests_refines w h repoURL startCommit finalPatch image cmd
  rw [hev]
  exact (runStages_cleanedUp (stageCall_cleanedUp w _ repoURL startCommit finalPatch image cmd)
    _ _).append (CleanedUp.of_no_create (volumeRemove_sfx_op _ _ _ _))

/-! ## Network policy -/

/-- Every container creation in the events of a run is the opening call of one
of the five container stages, with exactly the configuration of that stage. -/
theorem RunTests_created_containers {w : World} {h : List Event}
    {repoURL startCommit finalPatch image cmd : GoString} {ctx : Ctx} {cfg : Config}
    {host : HostConfig} {r : CreateResult}
    (hx : Event.containerCreate ctx cfg host r ∈
      (RunTests w h repoURL startCommit finalPatch image cmd).events) :
    ctx = .phase ∧
    ((cfg = ⟨gitImage, cloneCmd repoURL, false⟩ ∧
        host = phaseHost (workspaceName w h image) true none) ∨
     (cfg = ⟨gitImage, checkoutArgs (TrimSpace startCommit), false⟩ ∧
        host = phaseHost (workspaceName w h image) true none) ∨
     (cfg = ⟨str "alpine/git:latest", helperCmd, false⟩ ∧
        host = helperHost (workspaceName w h image)) ∨
     (cfg = ⟨str "alpine/git:latest", applyCmd, false⟩ ∧
        host = phaseHost (workspaceName w h image) false none) ∨
     (cfg = ⟨image, testCmd cmd, false⟩ ∧
        host = phaseHost (workspaceName w h image) false (some testLimits))) := by
  obtain ⟨p, q, hpq⟩ := List.append_of_mem hx
  obtain ⟨_, s, _, _, hsop, _⟩ :=
    @RunTests_locate _ _ _ _ _ _ _ _ _ _ (Op.containerCreate ctx cfg host) hpq rfl
  cases s <;>
    simp only [stageOp, Option.some.injEq, Op.containerCreate.injEq, reduceCtorEq] at hsop
  · exact ⟨hsop.1.symm, Or.inl ⟨hsop.2.1.symm, hsop.2.2.symm⟩⟩
  · exact ⟨hsop.1.symm, Or.inr (Or.inl ⟨hsop.2.1.symm, hsop.2.2.symm⟩)⟩
  · exact ⟨hsop.1.symm, Or.inr (Or.inr (Or.inl ⟨hsop.2.1.symm, hsop.2.2.symm⟩))⟩
  · exact ⟨hsop.1.symm, Or.inr (Or.inr (Or.inr (Or.inl ⟨hsop.2.1.symm, hsop.2.2.symm⟩)))⟩
  · exact ⟨hsop.1.symm, Or.inr (Or.inr (Or.inr (Or.inr ⟨hsop.2.1.symm, hsop.2.2.symm⟩)))⟩

theorem str_none_ne_nil : str "none" ≠ [] := by decide

theorem cmds_distinct (u c m : GoString) :
    cloneCmd u ≠ checkoutArgs c ∧ cloneCmd u ≠ helperCmd ∧ cloneCmd u ≠ applyCmd ∧
    cloneCmd u ≠ testCmd m ∧ checkoutArgs c ≠ helperCmd ∧ checkoutArgs c ≠ applyCmd ∧
    checkoutArgs c ≠ testCmd m ∧ helperCmd ≠ applyCmd ∧ helperCmd ≠ testCmd m ∧
    applyCmd ≠ testCmd m := by
  have hlen : ∀ {a b : List GoString}, a.length ≠ b.length → a ≠ b :=
    fun hl hab => hl (congrArg List.length hab)
  refine ⟨hlen (by simp [cloneCmd, checkoutArgs]), hlen (by simp [cloneCmd, helperCmd]),
    hlen (by simp [cloneCmd, applyCmd]), ?_, hlen (by simp [checkoutArgs, helperCmd]), ?_,
    hlen (by simp [checkoutArgs, testCmd]), hlen (by simp [helperCmd, applyCmd]),
    hlen (by simp [helperCmd, testCmd]), hlen (by simp [applyCmd, testCmd])⟩
  · intro hab
    have := congrArg List.head? hab
    simp only [cloneCmd, testCmd, List.head?_cons, Option.some.injEq] at this
    exact absurd this str_cmd_ne.1
  · intro hab
    have := congrArg (fun l => l.drop 2 |>.head?) hab
    simp only [checkoutArgs, applyCmd, List.drop_succ_cons, List.drop_zero, List.head?_cons,
      Option.some.injEq] at this
    exact absurd this str_cmd_ne.2.1

/-- C7.  In every run of `RunTests`, a container created with the clone or
the checkout command has the empty network mode (network enabled), and a
container created with the patch-apply or the test command has network mode
`"none"`; and `runWithLogs` opens with the creation of its container, whose
network mode is `"none"` exactly when `netEnabled` is false. -/
theorem RunTests_network_modes (w : World) (h : List Event)
    (repoURL startCommit finalPatch image cmd : GoString) :
    (∀ ctx cfg host r,
      Event.containerCreate ctx cfg host r ∈
        (RunTests w h repoURL startCommit finalPatch image cmd).events →
      ((cfg.Cmd = cloneCmd repoURL ∨ cfg.Cmd = checkoutArgs (TrimSpace startCommit)) →
        host.NetworkMode = []) ∧
      ((cfg.Cmd = applyCmd ∨ cfg.Cmd = testCmd cmd) → host.NetworkMode = str "none")) ∧
    (∀ h' ctx img vol c net res,
      ∃ host r tail, (runWithLogs w h' ctx img vol c net res).2 =
          Event.containerCreate ctx ⟨img, c, false⟩ host r :: tail ∧
        (host.NetworkMode = str "none" ↔ net = false) ∧
        (host.NetworkMode = [] ↔ net = true)) := by
  refine ⟨?_, ?_⟩
  · intro ctx cfg host r hx
    obtain ⟨_, hcases⟩ := RunTests_created_containers hx
    obtain ⟨d1, d2, d3, d4, d5, d6, d7, d8, d9, d10⟩ :=
      cmds_distinct repoURL (TrimSpace startCommit) cmd
    rcases hcases with ⟨hc, hh⟩ | ⟨hc, hh⟩ | ⟨hc, hh⟩ | ⟨hc, hh⟩ | ⟨hc, hh⟩ <;> subst hc hh <;>
      refine ⟨fun hcmd => ?_, fun hcmd => ?_⟩ <;>
      rcases hcmd with hcmd | hcmd <;>
      first
        | rfl
        | exact absurd hcmd d1
        | exact absurd hcmd d2
        | exact absurd hcmd d3
        | exact absurd hcmd d4
        | exact absurd hcmd d5
        | exact absurd hcmd d6
        | exact absurd hcmd d7
        | exact absurd hcmd d8
        | exact absurd hcmd d9
        | exact absurd hcmd d10
        | exact absurd hcmd.symm d1
        | exact absurd hcmd.symm d2
        | exact absurd hcmd.symm d3
        | exact absurd hcmd.symm d4
        | exact absurd hcmd.symm d5
        | exact absurd hcmd.symm d6
        | exact absurd hcmd.symm d7
  · intro h' ctx img vol c net res
    obtain ⟨e, tail, ht, he, _⟩ := runWithLogs_opens w h' ctx img vol c net res
    cases e <;> simp only [Event.op, Option.some.injEq, Op.containerCreate.injEq,
      reduceCtorEq] at he
    obtain ⟨h1, h2, h3⟩ := he
    subst h1 h2 h3
    refine ⟨_, _, tail, ht, ?_, ?_⟩
    · cases net <;> simp [phaseHost, str_none_ne_nil]
    · cases net <;> simp [phaseHost, str_none_ne_nil]


/-! ## The order of the stage-opening calls -/

theorem runStages_ops_of_success {call : Stage → List Event → Option GoError × List Event}
    {sop : Stage → Option Op} (hop : ∀ s h, Opens (sop s) (call s h).2)
    {l : List Stage} {h : List Event} (hok : (runStages call l h).1 = none) :
    (runStages call l h).2.filterMap Event.op = l.filterMap sop := by
  induction l generalizing h with
  | nil => simp [runStages]
  | cons s l' ih =>
    cases hc : (call s h).1 with
    | some err =>
      rw [runStages_cons_some _ hc] at hok
      cases hok
    | none =>
      rw [runStages_cons_none _ hc] at hok ⊢
      simp only [List.filterMap_append, filterMap_op_of_opens (hop s h), ih hok]
      cases hso : sop s <;> simp [List.filterMap_cons, hso]

theorem filterMap_op_volumeRemove_sfx (w : World) (b : Bool) (hh : List Event) (vol : GoString) :
    (if b = true then
        [Event.volumeRemove .background vol true (w.volumeRemove hh .background vol true)]
      else []).filterMap Event.op = [] := by
  cases b <;> simp [Event.op]

/-- The stage-opening calls of a run are, in order, those of an initial
segment of the plan. -/
theorem RunTests_ops_prefix (w : World) (h : List Event)
    (repoURL startCommit finalPatch image cmd : GoString) :
    (RunTests w h repoURL startCommit finalPatch image cmd).events.filterMap Event.op <+:
      (plan startCommit finalPatch).filterMap
        (stageOp (workspaceName w h image) repoURL startCommit image cmd) := by
  obtain ⟨_, hev, _⟩ := RunTests_refines w h repoURL startCommit finalPatch image cmd
  rw [hev, List.filterMap_append, filterMap_op_volumeRemove_sfx, List.append_nil]
  exact runStages_ops_prefix (stageCall_opens w _ repoURL startCommit finalPatch image cmd) _ _

/-- When a run returns a result, every stage of the plan was opened, in
order. -/
theorem RunTests_ops_complete {w : World} {h : List Event}
    {repoURL startCommit finalPatch image cmd : GoString} {res : TestResult}
    (hres : (RunTests w h repoURL startCommit finalPatch image cmd).res = some res) :
    (RunTests w h repoURL startCommit finalPatch image cmd).events.filterMap Event.op =
      (plan startCommit finalPatch).filterMap
        (stageOp (workspaceName w h image) repoURL startCommit image cmd) := by
  obtain ⟨hok, _, _, hev⟩ := RunTests_reached hres
  rw [hev, plan]
  simp only [List.filterMap_append,
    runStages_ops_of_success (stageCall_opens w _ repoURL startCommit finalPatch image cmd) hok,
    filterMap_op_of_opens (runWithLogs_opens _ _ _ _ _ _ _ _)]
  simp [Event.op, stageOp]

theorem RunTests_create_stage {w : World} {h : List Event}
    {repoURL startCommit finalPatch image cmd : GoString} {ctx : Ctx} {cfg : Config}
    {host : HostConfig} {r : CreateResult}
    (hx : Event.containerCreate ctx cfg host r ∈
      (RunTests w h repoURL startCommit finalPatch image cmd).events) :
    ∃ s ∈ plan startCommit finalPatch,
      stageOp (workspaceName w h image) repoURL startCommit image cmd s =
        some (.containerCreate ctx cfg host) := by
  obtain ⟨p, q, hpq⟩ := List.append_of_mem hx
  obtain ⟨l₁, s, l₂, hl, hsop, _⟩ :=
    @RunTests_locate _ _ _ _ _ _ _ _ _ _ (Op.containerCreate ctx cfg host) hpq rfl
  exact ⟨s, by rw [hl]; simp, hsop⟩

theorem checkout_mem_plan {startCommit finalPatch : GoString} :
    Stage.checkout ∈ plan startCommit finalPatch ↔
      (TrimSpace startCommit ≠ [] ∧ TrimSpace startCommit ≠ str "HEAD") := by
  by_cases hc : TrimSpace startCommit ≠ [] ∧ TrimSpace startCommit ≠ str "HEAD" <;>
  by_cases hp : TrimSpace finalPatch ≠ [] <;>
  simp [plan, setupPlan, phaseStages, checkoutStages, patchStages, hc, hp]

theorem patch_mem_plan {startCommit finalPatch : GoString} {s : Stage}
    (hs : s = .inject ∨ s = .apply) :
    s ∈ plan startCommit finalPatch ↔ TrimSpace finalPatch ≠ [] := by
  by_cases hc : TrimSpace startCommit ≠ [] ∧ TrimSpace startCommit ≠ str "HEAD" <;>
  by_cases hp : TrimSpace finalPatch ≠ [] <;>
  rcases hs with hs | hs <;> subst hs <;>
  simp [plan, setupPlan, phaseStages, checkoutStages, patchStages, hc, hp]

/-- C8 as stated fails: with the start commit `" "` (one space), which is
neither empty nor `HEAD`, a run in which everything succeeds returns a result
and opens exactly ping, pull, volume, pull, clone and test: no checkout
container is created. -/
theorem checkout_blank_commit_counterexample :
    str " " ≠ [] ∧ str " " ≠ str "HEAD" ∧
    (RunTests allGood [] (str "u") (str " ") [] (str "img") (str "go test")).res =
      some ⟨true, [], [], 0⟩ ∧
    (RunTests allGood [] (str "u") (str " ") [] (str "img") (str "go test")).events.filterMap
        Event.op =
      [.ping .caller, .imagePull .phase (str "docker.io/library/img:latest"),
       .volumeCreate .phase (str "qa-runner-42"), .imagePull .phase (str "alpine/git:latest"),
       .containerCreate .phase ⟨gitImage, cloneCmd (str "u"), false⟩
         (phaseHost (str "qa-runner-42") true none),
       .containerCreate .phase ⟨str "img", testCmd (str "go test"), false⟩
         (phaseHost (str "qa-runner-42") false (some testLimits))] := by
  decide

/-- C8, amended.  Let `c` be the start commit with leading and trailing white
space removed.  (1) If `c` is empty or `HEAD`, no container of the run is
created with a checkout command.  (2) Any container of the run created with a
checkout command `-C /repo checkout c'` has `c' = c`, the git image and
network enabled, and then `c` is neither empty nor `HEAD`.  (3) In a run that
returns a result the stage-opening calls are exactly, in order: ping, pull of
the test image, volume creation, pull of the git image, clone, the checkout
of `c` unless `c` is empty or `HEAD`, the patch stages, the test.  (4) If the
checkout call, located in the events of the run, returns an error (its
container hit an infrastructure error or exited non-zero), `RunTests` returns
no result and only the volume removal follows. -/
theorem RunTests_checkout_phase (w : World) (h : List Event)
    (repoURL startCommit finalPatch image cmd : GoString) :
    ((TrimSpace startCommit = [] ∨ TrimSpace startCommit = str "HEAD") →
      ∀ ctx cfg host r c', Event.containerCreate ctx cfg host r ∈
        (RunTests w h repoURL startCommit finalPatch image cmd).events →
        cfg.Cmd ≠ checkoutArgs c') ∧
    (∀ ctx cfg host r c', Event.containerCreate ctx cfg host r ∈
        (RunTests w h repoURL startCommit finalPatch image cmd).events →
      cfg.Cmd = checkoutArgs c' →
      c' = TrimSpace startCommit ∧ cfg.Image = gitImage ∧
      host = phaseHost (workspaceName w h image) true none ∧
      TrimSpace startCommit ≠ [] ∧ TrimSpace startCommit ≠ str "HEAD") ∧
    (∀ res, (RunTests w h repoURL startCommit finalPatch image cmd).res = some res →
      (RunTests w h repoURL startCommit finalPatch image cmd).events.filterMap Event.op =
        ([Stage.client, .ping, .pullTest, .volume, .pullGit, .clone] ++
          (if TrimSpace startCommit ≠ [] ∧ TrimSpace startCommit ≠ str "HEAD"
            then [Stage.checkout] else []) ++
          patchStages finalPatch ++ [Stage.test]).filterMap
          (stageOp (workspaceName w h image) repoURL startCommit image cmd)) ∧
    (∀ pre post err,
      (RunTests w h repoURL startCommit finalPatch image cmd).events =
        pre ++ (runOneShotNet w (h ++ pre) .phase gitImage (workspaceName w h image)
          (checkoutArgs (TrimSpace startCommit)) true none true).2 ++ post →
      (runOneShotNet w (h ++ pre) .phase gitImage (workspaceName w h image)
          (checkoutArgs (TrimSpace startCommit)) true none true).1 = some err →
      (RunTests w h repoURL startCommit finalPatch image cmd).res = none ∧
      (RunTests w h repoURL startCommit finalPatch image cmd).err =
        some (wrapErr (str "git checkout " ++ w.quote (TrimSpace startCommit) ++ str ": ") err) ∧
      ∃ r, post = [Event.volumeRemove .background (workspaceName w h image) true r]) ∧
    (∀ h' : List Event,
      (runOneShotNet w h' .phase gitImage (workspaceName w h image)
          (checkoutArgs (TrimSpace startCommit)) true none true).1 ≠ none ↔
      ((runWithLogs w h' .phase gitImage (workspaceName w h image)
          (checkoutArgs (TrimSpace startCommit)) true none).1.err ≠ none ∨
       (runWithLogs w h' .phase gitImage (workspaceName w h image)
          (checkoutArgs (TrimSpace startCommit)) true none).1.exitCode ≠ 0)) := by
  have key : ∀ ctx cfg host r c', Event.containerCreate ctx cfg host r ∈
        (RunTests w h repoURL startCommit finalPatch image cmd).events →
      cfg.Cmd = checkoutArgs c' →
      c' = TrimSpace startCommit ∧ cfg.Image = gitImage ∧
      host = phaseHost (workspaceName w h image) true none ∧
      TrimSpace startCommit ≠ [] ∧ TrimSpace startCommit ≠ str "HEAD" := by
    intro ctx cfg host r c' hx hcmd
    obtain ⟨s, hs, hsop⟩ := RunTests_create_stage hx
    obtain ⟨d1, _, _, _, d5, d6, d7, _, _, _⟩ := cmds_distinct repoURL c' cmd
    cases s <;>
      simp only [stageOp, Option.some.injEq, Op.containerCreate.injEq, reduceCtorEq] at hsop
    · obtain ⟨_, hc, _⟩ := hsop
      rw [← hc] at hcmd
      exact absurd hcmd d1
    · obtain ⟨_, hc, hh⟩ := hsop
      rw [← hc] at hcmd
      simp only [checkoutArgs, List.cons.injEq, and_true, true_and] at hcmd
      obtain ⟨h1, h2⟩ := checkout_mem_plan.mp hs
      exact ⟨hcmd.symm, by rw [← hc], hh.symm, h1, h2⟩
    · obtain ⟨_, hc, _⟩ := hsop
      rw [← hc] at hcmd
      exact absurd hcmd.symm d5
    · obtain ⟨_, hc, _⟩ := hsop
      rw [← hc] at hcmd
      exact absurd hcmd.symm d6
    · obtain ⟨_, hc, _⟩ := hsop
      rw [← hc] at hcmd
      exact absurd hcmd.symm d7
  refine ⟨?_, key, ?_, ?_, fun h' => runOneShotNet_fails_iff w h' _ _ _ _ _ _⟩
  · intro hskip ctx cfg host r c' hx hcmd
    obtain ⟨_, _, _, h1, h2⟩ := key ctx cfg host r c' hx hcmd
    rcases hskip with hskip | hskip
    · exact h1 hskip
    · exact h2 hskip
  · intro res hres
    exact RunTests_ops_complete hres
  · intro pre post err hev hfail
    obtain ⟨h1, h2, h3, _⟩ := @RunTests_setup_phase_fails _ _ _ _ _ _ _ Stage.checkout _ _ _ rfl hev hfail
    exact ⟨h1, h2, h3⟩


/-! ## `TrimSpace` and strings of white space -/

theorem spaceEncodings_prefix_free :
    ∀ e ∈ spaceEncodings, ∀ e' ∈ spaceEncodings, e.isPrefixOf e' = true → e = e' := by
  decide

theorem spaceEncodings_ne_nil : ∀ e ∈ spaceEncodings, e ≠ [] := by
  decide

theorem findSome_prefix_unique (L : List GoString) (s e0 rest : GoString)
    (hs : s = e0 ++ rest) (he0 : e0 ∈ L)
    (huniq : ∀ e ∈ L, e.isPrefixOf s = true → e = e0) :
    L.findSome? (fun e => if e.isPrefixOf s then some (s.drop e.length) else none) = some rest := by
  induction L with
  | nil => cases he0
  | cons a L ih =>
    rw [List.findSome?_cons]
    by_cases ha : a.isPrefixOf s = true
    · have := huniq a (by simp) ha
      subst this
      simp [ha, hs]
    · simp only [ha, Bool.false_eq_true, if_false]
      rcases List.mem_cons.mp he0 with h | h
      · subst h
        exact absurd (by rw [hs]; simp [List.isPrefixOf_iff_prefix]) ha
      · exact ih h (fun e he => huniq e (List.mem_cons_of_mem _ he))

theorem dropLeadingSpace_append {e0 rest : GoString} (he0 : e0 ∈ spaceEncodings) :
    dropLeadingSpace (e0 ++ rest) = some rest := by
  unfold dropLeadingSpace
  apply findSome_prefix_unique _ _ e0 rest rfl he0
  intro e he hpre
  have h1 : e <+: e0 ++ rest := List.isPrefixOf_iff_prefix.mp hpre
  have h2 : e0 <+: e0 ++ rest := List.prefix_append _ _
  rcases List.prefix_or_prefix_of_prefix h1 h2 with h | h
  · exact spaceEncodings_prefix_free e he e0 he0 (List.isPrefixOf_iff_prefix.mpr h)
  · exact (spaceEncodings_prefix_free e0 he0 e he (List.isPrefixOf_iff_prefix.mpr h)).symm

theorem dropLeadingSpace_some {s rest : GoString} (h : dropLeadingSpace s = some rest) :
    ∃ e ∈ spaceEncodings, s = e ++ rest := by
  unfold dropLeadingSpace at h
  obtain ⟨e, he, hf⟩ := List.exists_of_findSome?_eq_some h
  refine ⟨e, he, ?_⟩
  split at hf
  · rename_i hp
    simp only [Option.some.injEq] at hf
    obtain ⟨t, ht⟩ := List.isPrefixOf_iff_prefix.mp hp
    rw [← hf, ← ht]
    simp
  · cases hf

theorem dropTrailingSpace_some {s rest : GoString} (h : dropTrailingSpace s = some rest) :
    ∃ e ∈ spaceEncodings, s = rest ++ e := by
  unfold dropTrailingSpace at h
  obtain ⟨e, he, hf⟩ := List.exists_of_findSome?_eq_some h
  refine ⟨e, he, ?_⟩
  split at hf
  · rename_i hp
    simp only [Option.some.injEq] at hf
    obtain ⟨t, ht⟩ := List.isSuffixOf_iff_suffix.mp hp
    rw [← hf, ← ht]
    simp
  · cases hf

theorem trimLeftSpace_spec (n : Nat) (s : GoString) :
    ∃ ws : List GoString, (∀ e ∈ ws, e ∈ spaceEncodings) ∧ s = ws.flatten ++ trimLeftSpace n s := by
  induction n generalizing s with
  | zero => exact ⟨[], by simp, by simp [trimLeftSpace]⟩
  | succ n ih =>
    unfold trimLeftSpace
    cases hd : dropLeadingSpace s with
    | none => exact ⟨[], by simp, by simp⟩
    | some rest =>
      obtain ⟨e, he, hs⟩ := dropLeadingSpace_some hd
      obtain ⟨ws, hws, hrest⟩ := ih rest
      refine ⟨e :: ws, ?_, ?_⟩
      · intro x hx
        rcases List.mem_cons.mp hx with h | h
        · subst h; exact he
        · exact hws x h
      · simp only [List.flatten_cons, List.append_assoc]
        rw [← hrest, hs]

theorem trimRightSpace_spec (n : Nat) (s : GoString) :
    ∃ ws : List GoString, (∀ e ∈ ws, e ∈ spaceEncodings) ∧ s = trimRightSpace n s ++ ws.flatten := by
  induction n generalizing s with
  | zero => exact ⟨[], by simp, by simp [trimRightSpace]⟩
  | succ n ih =>
    unfold trimRightSpace
    cases hd : dropTrailingSpace s with
    | none => exact ⟨[], by simp, by simp⟩
    | some rest =>
      obtain ⟨e, he, hs⟩ := dropTrailingSpace_some hd
      obtain ⟨ws, hws, hrest⟩ := ih rest
      refine ⟨ws ++ [e], ?_, ?_⟩
      · intro x hx
        rcases List.mem_append.mp hx with h | h
        · exact hws x h
        · simp only [List.mem_singleton] at h
          subst h; exact he
      · simp only [List.flatten_append, List.flatten_cons, List.flatten_nil, List.append_nil,
          ← List.append_assoc]
        rw [← hrest, hs]

/-- The runner's test for "no patch": `TrimSpace s` is empty exactly when `s`
consists only of white space. -/
theorem TrimSpace_eq_nil_iff (s : GoString) : TrimSpace s = [] ↔ onlyWhitespace s := by
  constructor
  · intro h
    unfold TrimSpace at h
    obtain ⟨ws, hws, hs⟩ := trimLeftSpace_spec s.length s
    obtain ⟨ws', hws', hl⟩ := trimRightSpace_spec (trimLeftSpace s.length s).length
      (trimLeftSpace s.length s)
    simp only at h
    rw [h, List.nil_append] at hl
    rw [hl] at hs
    have hall : ∀ e ∈ ws ++ ws', e ∈ spaceEncodings := by
      intro e he
      rcases List.mem_append.mp he with h' | h'
      · exact hws e h'
      · exact hws' e h'
    have hrunes : ∀ l : List GoString, (∀ e ∈ l, e ∈ spaceEncodings) →
        ∃ runes : List Nat, (∀ r ∈ runes, r ∈ spaceRunes) ∧ l.flatten = runes.flatMap encodeRune := by
      intro l
      induction l with
      | nil => intro _; exact ⟨[], by simp, rfl⟩
      | cons e l ih =>
        intro hl'
        obtain ⟨runes, hr, hf⟩ := ih (fun x hx => hl' x (List.mem_cons_of_mem _ hx))
        have he : e ∈ spaceEncodings := hl' e (by simp)
        simp only [spaceEncodings, List.mem_map] at he
        obtain ⟨r, hrm, hre⟩ := he
        refine ⟨r :: runes, ?_, ?_⟩
        · intro x hx
          rcases List.mem_cons.mp hx with h' | h'
          · subst h'; exact hrm
          · exact hr x h'
        · simp [List.flatMap_cons, hre, hf]
    obtain ⟨runes, hr, hf⟩ := hrunes (ws ++ ws') hall
    refine ⟨runes, hr, ?_⟩
    rw [hs, ← hf]
    simp
  · rintro ⟨runes, hr, hs⟩
    have hleft : ∀ (rs : List Nat) (n : Nat), (∀ r ∈ rs, r ∈ spaceRunes) → rs.length ≤ n →
        trimLeftSpace n (rs.flatMap encodeRune) = [] := by
      intro rs
      induction rs with
      | nil =>
        intro n _ _
        cases n <;> simp [trimLeftSpace, dropLeadingSpace, spaceEncodings, spaceRunes,
          List.findSome?, encodeRune]
      | cons r rs ih =>
        intro n hrs hn
        cases n with
        | zero => simp at hn
        | succ n =>
          have hre : encodeRune r ∈ spaceEncodings := by
            simp only [spaceEncodings, List.mem_map]
            exact ⟨r, hrs r (by simp), rfl⟩
          simp only [List.flatMap_cons, trimLeftSpace, dropLeadingSpace_append hre]
          exact ih n (fun x hx => hrs x (List.mem_cons_of_mem _ hx)) (by simpa using hn)
    have hlen : ∀ rs : List Nat, (∀ r ∈ rs, r ∈ spaceRunes) →
        rs.length ≤ (rs.flatMap encodeRune).length := by
      intro rs
      induction rs with
      | nil => intro _; simp
      | cons r rs ih =>
        intro hrs
        have hre : encodeRune r ∈ spaceEncodings := by
          simp only [spaceEncodings, List.mem_map]
          exact ⟨r, hrs r (by simp), rfl⟩
        have hne := spaceEncodings_ne_nil _ hre
        have hpos : 0 < (encodeRune r).length := List.length_pos.mpr hne
        have := ih (fun x hx => hrs x (List.mem_cons_of_mem _ hx))
        simp only [List.flatMap_cons, List.length_append, List.length_cons]
        omega
    unfold TrimSpace
    simp only
    rw [hs, hleft runes _ hr (hlen runes hr)]
    rfl
/-! ## The patch phases -/

theorem stopAndRemove_no_copy (w : World) (h : List Event) (cid : GoString) (timeout : Int) :
    ∀ x ∈ stopAndRemove w h cid timeout, x.isCopy = false := by
  intro x hx
  simp only [stopAndRemove, List.mem_cons, List.mem_singleton, List.not_mem_nil, or_false] at hx
  rcases hx with hx | hx <;> subst hx <;> rfl

theorem runWithLogsBody_no_copy (w : World) (h : List Event) (ctx : Ctx) (cid : GoString) :
    ∀ x ∈ (runWithLogsBody w h ctx cid).2, x.isCopy = false := by
  intro x hx
  cases hs : w.containerStart h ctx cid with
  | some e =>
    rw [runWithLogsBody_start_failed hs] at hx
    simp only [List.mem_singleton] at hx
    subst hx; rfl
  | none =>
    cases hw : w.containerWait (h ++ [Event.containerStart ctx cid none]) ctx cid with
    | errCh e =>
      cases e with
      | some e =>
        rw [runWithLogsBody_wait_failed hs hw] at hx
        simp only [List.mem_cons, List.mem_singleton, List.not_mem_nil, or_false] at hx
        rcases hx with hx | hx <;> subst hx <;> rfl
      | none =>
        rw [runWithLogsBody_wait_nil hs hw, collectLogs_snd] at hx
        simp only [List.mem_cons, List.mem_singleton, List.not_mem_nil, or_false] at hx
        rcases hx with hx | hx | hx <;> subst hx <;> rfl
    | status code =>
      rw [runWithLogsBody_status hs hw, collectLogs_snd] at hx
      simp only [List.mem_cons, List.mem_singleton, List.not_mem_nil, or_false] at hx
      rcases hx with hx | hx | hx <;> subst hx <;> rfl

theorem runWithLogs_no_copy (w : World) (h : List Event) (ctx : Ctx) (image volName : GoString)
    (cmd : List GoString) (netEnabled : Bool) (res : Option Resources) :
    ∀ x ∈ (runWithLogs w h ctx image volName cmd netEnabled res).2, x.isCopy = false := by
  intro x hx
  cases hc : w.containerCreate h ctx ⟨image, cmd, false⟩ (phaseHost volName netEnabled res) with
  | failed e =>
    rw [runWithLogs_failed hc] at hx
    simp only [List.mem_singleton] at hx
    subst hx; rfl
  | created cid =>
    rw [runWithLogs_created hc] at hx
    simp only [List.mem_cons, List.mem_append] at hx
    rcases hx with hx | hx | hx
    · subst hx; rfl
    · exact runWithLogsBody_no_copy _ _ _ _ x hx
    · exact stopAndRemove_no_copy _ _ _ _ x hx

/-- Every upload made by `copyBytesToVolume` puts, at `/repo`, the
single-entry archive holding exactly `data` under the name `destPath`, mode
0644, with overwriting allowed. -/
theorem copyBytesToVolume_uploads {w : World} {h : List Event} {ctx : Ctx}
    {volName destPath : GoString} {data : List Byte} {x : Event}
    (hx : x ∈ (copyBytesToVolume w h ctx volName destPath data).2) (hcopy : x.isCopy = true) :
    ∃ cid r, x = Event.copyToContainer ctx cid (str "/repo")
      ⟨destPath, 0o644, data.length, data⟩ true r := by
  cases hc : w.containerCreate h ctx ⟨str "alpine/git:latest", helperCmd, false⟩
      (helperHost volName) with
  | failed e =>
    rw [copyBytesToVolume_failed hc] at hx
    simp only [List.mem_singleton] at hx
    subst hx; cases hcopy
  | created cid =>
    rw [copyBytesToVolume_created hc] at hx
    simp only [List.mem_cons, List.mem_append] at hx
    rcases hx with hx | hx | hx
    · subst hx; cases hcopy
    · rcases copyBytesToVolumeBody_events w (h ++ [Event.containerCreate ctx
          ⟨str "alpine/git:latest", helperCmd, false⟩ (helperHost volName) (.created cid)])
          ctx cid destPath data with hb | hb <;> rw [hb] at hx <;>
        simp only [List.mem_cons, List.mem_singleton, List.not_mem_nil, or_false] at hx
      · subst hx; cases hcopy
      · rcases hx with hx | hx
        · subst hx; cases hcopy
        · exact ⟨cid, _, hx⟩
    · rw [stopAndRemove_no_copy _ _ _ _ x hx] at hcopy
      cases hcopy

/-- When `copyBytesToVolume` returns no error, its events contain the
successful upload of exactly `data`. -/
theorem copyBytesToVolume_success {w : World} {h : List Event} {ctx : Ctx}
    {volName destPath : GoString} {data : List Byte}
    (hok : (copyBytesToVolume w h ctx volName destPath data).1 = none) :
    ∃ cid, Event.copyToContainer ctx cid (str "/repo") ⟨destPath, 0o644, data.length, data⟩
      true none ∈ (copyBytesToVolume w h ctx volName destPath data).2 := by
  cases hc : w.containerCreate h ctx ⟨str "alpine/git:latest", helperCmd, false⟩
      (helperHost volName) with
  | failed e =>
    rw [copyBytesToVolume_failed hc] at hok
    cases hok
  | created cid =>
    rw [copyBytesToVolume_created hc] at hok ⊢
    refine ⟨cid, ?_⟩
    simp only at hok
    unfold copyBytesToVolumeBody at hok ⊢
    cases hs : w.containerStart (h ++ [Event.containerCreate ctx
        ⟨str "alpine/git:latest", helperCmd, false⟩ (helperHost volName) (.created cid)])
        ctx cid with
    | some e => simp [hs] at hok
    | none =>
      simp only [hs] at hok ⊢
      cases h1 : w.tarWriteHeader ⟨destPath, 0o644, data.length, data⟩ with
      | some e => simp [h1] at hok
      | none =>
        simp only [h1] at hok ⊢
        cases h2 : w.tarWrite ⟨destPath, 0o644, data.length, data⟩ with
        | some e => simp [h2] at hok
        | none =>
          simp only [h2] at hok ⊢
          cases h3 : w.tarClose ⟨destPath, 0o644, data.length, data⟩ with
          | some e => simp [h3] at hok
          | none =>
            simp only [h3] at hok ⊢
            cases h4 : w.copyToContainer (h ++ [Event.containerCreate ctx
                ⟨str "alpine/git:latest", helperCmd, false⟩ (helperHost volName) (.created cid),
                Event.containerStart ctx cid none]) ctx cid (str "/repo")
                ⟨destPath, 0o644, data.length, data⟩ true with
            | some e => simp [h4] at hok
            | none => simp [h4]

theorem stageCall_copy {w : World} {vol repoURL startCommit finalPatch image cmd : GoString}
    {s : Stage} {h : List Event} {x : Event}
    (hx : x ∈ (stageCall w vol repoURL startCommit finalPatch image cmd s h).2)
    (hcopy : x.isCopy = true) :
    s = .inject ∧ ∃ cid r, x = Event.copyToContainer .phase cid (str "/repo")
      ⟨str "patch.diff", 0o644, finalPatch.length, finalPatch⟩ true r := by
  cases s
  · simp [stageCall] at hx
  · simp only [stageCall, List.mem_singleton] at hx; subst hx; cases hcopy
  · simp only [stageCall, pullIfNeeded_snd, List.mem_singleton] at hx; subst hx; cases hcopy
  · simp only [stageCall, List.mem_singleton] at hx; subst hx; cases hcopy
  · simp only [stageCall, pullIfNeeded_snd, List.mem_singleton] at hx; subst hx; cases hcopy
  · simp only [stageCall, runOneShotNet_events] at hx
    rw [runWithLogs_no_copy _ _ _ _ _ _ _ _ x hx] at hcopy; cases hcopy
  · simp only [stageCall, runOneShotNet_events] at hx
    rw [runWithLogs_no_copy _ _ _ _ _ _ _ _ x hx] at hcopy; cases hcopy
  · exact ⟨rfl, copyBytesToVolume_uploads hx hcopy⟩
  · simp only [stageCall, runOneShot_events] at hx
    rw [runWithLogs_no_copy _ _ _ _ _ _ _ _ x hx] at hcopy; cases hcopy
  · simp only [stageCall] at hx
    rw [runWithLogs_no_copy _ _ _ _ _ _ _ _ x hx] at hcopy; cases hcopy

theorem RunTests_mem_stage {w : World} {h : List Event}
    {repoURL startCommit finalPatch image cmd : GoString} {x : Event}
    (hx : x ∈ (RunTests w h repoURL startCommit finalPatch image cmd).events) :
    (∃ s ∈ plan startCommit finalPatch, ∃ h',
      x ∈ (stageCall w (workspaceName w h image) repoURL startCommit finalPatch image cmd s h').2) ∨
    x.isVolumeRemove = true := by
  obtain ⟨_, hev, _⟩ := RunTests_refines w h repoURL startCommit finalPatch image cmd
  rw [hev] at hx
  rcases List.mem_append.mp hx with hx | hx
  · exact Or.inl (mem_runStages hx)
  · right
    split at hx
    · simp only [List.mem_singleton] at hx; subst hx; rfl
    · cases hx

theorem runStages_success_mem {call : Stage → List Event → Option GoError × List Event}
    {l : List Stage} {h : List Event} (hok : (runStages call l h).1 = none)
    {s : Stage} (hs : s ∈ l) :
    ∃ h', (call s h').1 = none ∧ ∀ x ∈ (call s h').2, x ∈ (runStages call l h).2 := by
  induction l generalizing h with
  | nil => cases hs
  | cons a l ih =>
    cases hc : (call a h).1 with
    | some err =>
      rw [runStages_cons_some _ hc] at hok
      cases hok
    | none =>
      rw [runStages_cons_none _ hc] at hok ⊢
      rcases List.mem_cons.mp hs with hsa | hsl
      · subst hsa
        exact ⟨h, hc, fun x hx => List.mem_append_left _ hx⟩
      · obtain ⟨h', h1, h2⟩ := ih hok hsl
        exact ⟨h', h1, fun x hx => List.mem_append_right _ (h2 x hx)⟩

theorem prefix_of_first_occurrence {A B l₁ l₂ : List Stage} {x : Stage}
    (heq : A ++ x :: B = l₁ ++ x :: l₂) (hx : x ∉ A) : A <+: l₁ := by
  rcases List.append_eq_append_iff.mp heq with ⟨a', h1, _⟩ | ⟨c', h1, h2⟩
  · exact ⟨a', h1.symm⟩
  · cases c' with
    | nil => simp only [List.append_nil] at h1; rw [h1]
    | cons y c'' =>
      simp only [List.cons_append, List.cons.injEq] at h2
      exact absurd (by rw [h1, ← h2.1]; simp) hx

theorem stageOp_eq_apply {vol repoURL startCommit image cmd : GoString} {s : Stage} {ctx : Ctx}
    {cfg : Config} {host : HostConfig}
    (hs : stageOp vol repoURL startCommit image cmd s = some (.containerCreate ctx cfg host))
    (hcmd : cfg.Cmd = applyCmd) : s = .apply := by
  obtain ⟨_, _, d3, _, _, d6, _, d8, _, d10⟩ := cmds_distinct repoURL (TrimSpace startCommit) cmd
  cases s <;> simp only [stageOp, Option.some.injEq, Op.containerCreate.injEq, reduceCtorEq] at hs
  all_goals first
    | rfl
    | (obtain ⟨_, hcfg, _⟩ := hs
       rw [← hcfg] at hcmd
       first
         | exact absurd hcmd d3
         | exact absurd hcmd d6
         | exact absurd hcmd d8
         | exact absurd hcmd.symm d10)

theorem stageOp_cmd_of_create {vol repoURL startCommit image cmd : GoString} {s : Stage}
    {ctx : Ctx} {cfg : Config} {host : HostConfig}
    (hs : stageOp vol repoURL startCommit image cmd s = some (.containerCreate ctx cfg host)) :
    (s = .clone ∧ cfg.Cmd = cloneCmd repoURL) ∨
    (s = .checkout ∧ cfg.Cmd = checkoutArgs (TrimSpace startCommit)) ∨
    (s = .inject ∧ cfg.Cmd = helperCmd) ∨ (s = .apply ∧ cfg.Cmd = applyCmd) ∨
    (s = .test ∧ cfg.Cmd = testCmd cmd) := by
  cases s <;> simp only [stageOp, Option.some.injEq, Op.containerCreate.injEq, reduceCtorEq] at hs
  all_goals (obtain ⟨_, hcfg, _⟩ := hs; subst hcfg; simp)

/-- C9.  If the patch text is empty or consists only of white space, no event
of the run is an upload, no container is created with the helper or the
patch-apply command, and the stage-opening calls are an initial segment of
(in a run that returns a result: exactly) setup, clone, optional checkout,
test.  Otherwise every upload of the run puts at `/repo` the single-entry
archive `patch.diff` holding exactly the untrimmed patch bytes; the
stage-opening calls are an initial segment of (in a run that returns a result:
exactly) setup, clone, optional checkout, helper container, patch apply, test;
and whenever the patch-apply container is created, the events before its
creation contain the successful upload of the patch. -/
theorem RunTests_patch_phase (w : World) (h : List Event)
    (repoURL startCommit finalPatch image cmd : GoString) :
    (onlyWhitespace finalPatch →
      (∀ x ∈ (RunTests w h repoURL startCommit finalPatch image cmd).events, x.isCopy = false) ∧
      (∀ ctx cfg host r, Event.containerCreate ctx cfg host r ∈
          (RunTests w h repoURL startCommit finalPatch image cmd).events →
        cfg.Cmd ≠ helperCmd ∧ cfg.Cmd ≠ applyCmd) ∧
      (RunTests w h repoURL startCommit finalPatch image cmd).events.filterMap Event.op <+:
        ([Stage.client, .ping, .pullTest, .volume, .pullGit, .clone] ++
          checkoutStages startCommit ++ [Stage.test]).filterMap
          (stageOp (workspaceName w h image) repoURL startCommit image cmd) ∧
      (∀ res, (RunTests w h repoURL startCommit finalPatch image cmd).res = some res →
        (RunTests w h repoURL startCommit finalPatch image cmd).events.filterMap Event.op =
          ([Stage.client, .ping, .pullTest, .volume, .pullGit, .clone] ++
            checkoutStages startCommit ++ [Stage.test]).filterMap
            (stageOp (workspaceName w h image) repoURL startCommit image cmd))) ∧
    (¬ onlyWhitespace finalPatch →
      (∀ x ∈ (RunTests w h repoURL startCommit finalPatch image cmd).events, x.isCopy = true →
        ∃ cid r, x = Event.copyToContainer .phase cid (str "/repo")
          ⟨str "patch.diff", 0o644, finalPatch.length, finalPatch⟩ true r) ∧
      (RunTests w h repoURL startCommit finalPatch image cmd).events.filterMap Event.op <+:
        ([Stage.client, .ping, .pullTest, .volume, .pullGit, .clone] ++
          checkoutStages startCommit ++ [Stage.inject, .apply, .test]).filterMap
          (stageOp (workspaceName w h image) repoURL startCommit image cmd) ∧
      (∀ res, (RunTests w h repoURL startCommit finalPatch image cmd).res = some res →
        (RunTests w h repoURL startCommit finalPatch image cmd).events.filterMap Event.op =
          ([Stage.client, .ping, .pullTest, .volume, .pullGit, .clone] ++
            checkoutStages startCommit ++ [Stage.inject, .apply, .test]).filterMap
            (stageOp (workspaceName w h image) repoURL startCommit image cmd)) ∧
      (∀ p q ctx cfg host r,
        (RunTests w h repoURL startCommit finalPatch image cmd).events =
          p ++ Event.containerCreate ctx cfg host r :: q →
        cfg.Cmd = applyCmd →
        ∃ cid, Event.copyToContainer .phase cid (str "/repo")
          ⟨str "patch.diff", 0o644, finalPatch.length, finalPatch⟩ true none ∈ p)) := by
  refine ⟨?_, ?_⟩
  · intro hws
    have htrim : TrimSpace finalPatch = [] := (TrimSpace_eq_nil_iff _).mpr hws
    have hplan : plan startCommit finalPatch =
        [Stage.client, .ping, .pullTest, .volume, .pullGit, .clone] ++
          checkoutStages startCommit ++ [Stage.test] := by
      simp [plan, setupPlan, phaseStages, patchStages, htrim]
    have hnomem : ∀ s, (s = Stage.inject ∨ s = .apply) → s ∉ plan startCommit finalPatch :=
      fun s hs hmem => ((patch_mem_plan hs).mp hmem) htrim
    refine ⟨?_, ?_, ?_, ?_⟩
    · intro x hx
      cases hcopy : x.isCopy with
      | false => rfl
      | true =>
        rcases RunTests_mem_stage hx with ⟨s, hs, h', hx'⟩ | hvr
        · obtain ⟨hinj, _⟩ := stageCall_copy hx' hcopy
          exact absurd hs (hinj ▸ hnomem .inject (Or.inl rfl))
        · cases x <;> simp [Event.isCopy, Event.isVolumeRemove] at hcopy hvr
    · intro ctx cfg host r hx
      obtain ⟨s, hs, hsop⟩ := RunTests_create_stage hx
      obtain ⟨_, d2, d3, _, d5, d6, _, d8, d9, d10⟩ :=
        cmds_distinct repoURL (TrimSpace startCommit) cmd
      rcases stageOp_cmd_of_create hsop with ⟨hs', hc⟩ | ⟨hs', hc⟩ | ⟨hs', hc⟩ | ⟨hs', hc⟩ |
          ⟨hs', hc⟩
      · rw [hc]; exact ⟨d2, d3⟩
      · rw [hc]; exact ⟨d5, d6⟩
      · exact absurd hs (hs' ▸ hnomem .inject (Or.inl rfl))
      · exact absurd hs (hs' ▸ hnomem .apply (Or.inr rfl))
      · rw [hc]; exact ⟨fun hh => d9 hh.symm, fun hh => d10 hh.symm⟩
    · rw [← hplan]; exact RunTests_ops_prefix w h repoURL startCommit finalPatch image cmd
    · intro res hres
      rw [← hplan]; exact RunTests_ops_complete hres
  · intro hws
    have htrim : TrimSpace finalPatch ≠ [] := fun hh => hws ((TrimSpace_eq_nil_iff _).mp hh)
    have hplan : plan startCommit finalPatch =
        [Stage.client, .ping, .pullTest, .volume, .pullGit, .clone] ++
          checkoutStages startCommit ++ [Stage.inject, .apply, .test] := by
      simp [plan, setupPlan, phaseStages, patchStages, htrim]
    refine ⟨?_, ?_, ?_, ?_⟩
    · intro x hx hcopy
      rcases RunTests_mem_stage hx with ⟨s, hs, h', hx'⟩ | hvr
      · exact (stageCall_copy hx' hcopy).2
      · cases x <;> simp [Event.isCopy, Event.isVolumeRemove] at hcopy hvr
    · rw [← hplan]; exact RunTests_ops_prefix w h repoURL startCommit finalPatch image cmd
    · intro res hres
      rw [← hplan]; exact RunTests_ops_complete hres
    · intro p q ctx cfg host r hev hcmd
      obtain ⟨l₁, s, l₂, hl, hsop, hnone, hpre, _⟩ :=
        @RunTests_locate _ _ _ _ _ _ _ _ _ _ (Op.containerCreate ctx cfg host) hev rfl
      have hs : s = .apply := stageOp_eq_apply hsop hcmd
      subst hs
      have hA : ([Stage.client, .ping, .pullTest, .volume, .pullGit, .clone] ++
          checkoutStages startCommit ++ [Stage.inject]) <+: l₁ := by
        refine @prefix_of_first_occurrence _ [Stage.test] _ l₂ Stage.apply ?_ ?_
        · rw [← hl, hplan]; simp
        · unfold checkoutStages; split <;> simp
      have hinj : Stage.inject ∈ l₁ := by
        obtain ⟨t, ht⟩ := hA
        rw [← ht]; simp
      obtain ⟨h', hok, hsub⟩ := runStages_success_mem hnone hinj
      obtain ⟨cid, hcid⟩ := @copyBytesToVolume_success w h' Ctx.phase
        (workspaceName w h image) (str "patch.diff") finalPatch hok
      exact ⟨cid, hpre ▸ hsub _ hcid⟩



/-- Witness for C9, on an engine in which every call succeeds.  With the
white-space patch `" \n"` no event of the run is an upload; with the patch
`"diff"` the run returns a result and its stage-opening calls are those of
setup, clone, helper container, patch apply and test, in this order. -/
theorem RunTests_patch_phase_witness :
    (onlyWhitespace (str " \n") ∧
      ∀ x ∈ (RunTests allGood [] (str "u") (str "HEAD") (str " \n") (str "img")
        (str "go test")).events, x.isCopy = false) ∧
    (¬ onlyWhitespace (str "diff") ∧
      (RunTests allGood [] (str "u") (str "HEAD") (str "diff") (str "img")
        (str "go test")).res = some ⟨true, [], [], 0⟩ ∧
      (RunTests allGood [] (str "u") (str "HEAD") (str "diff") (str "img")
        (str "go test")).events.filterMap Event.op =
        ([Stage.client, .ping, .pullTest, .volume, .pullGit, .clone] ++
          checkoutStages (str "HEAD") ++ [Stage.inject, .apply, .test]).filterMap
          (stageOp (workspaceName allGood [] (str "img")) (str "u") (str "HEAD") (str "img")
            (str "go test"))) :=
  have hws : onlyWhitespace (str " \n") := ⟨[32, 10], by decide, by decide⟩
  have hnws : ¬ onlyWhitespace (str "diff") :=
    fun hh => absurd ((TrimSpace_eq_nil_iff (str "diff")).mpr hh) (by decide)
  have hres : (RunTests allGood [] (str "u") (str "HEAD") (str "diff") (str "img")
      (str "go test")).res = some ⟨true, [], [], 0⟩ := by decide
  ⟨⟨hws, ((RunTests_patch_phase allGood [] (str "u") (str "HEAD") (str " \n") (str "img")
      (str "go test")).1 hws).1⟩,
    hnws, hres,
    ((RunTests_patch_phase allGood [] (str "u") (str "HEAD") (str "diff") (str "img")
      (str "go test")).2 hnws).2.2.1 _ hres⟩


/-! ## The order of the stages -/

theorem stageCall_not_volumeRemove {w : World}
    {vol repoURL startCommit finalPatch image cmd : GoString} {s : Stage} {h : List Event}
    {x : Event} (hx : x ∈ (stageCall w vol repoURL startCommit finalPatch image cmd s h).2) :
    x.isVolumeRemove = false := by
  cases hb : beforeVolume s with
  | false => exact (stageCall_no_volume_event hb hx).1
  | true =>
    cases s <;> simp only [beforeVolume, reduceCtorEq] at hb <;>
      simp only [stageCall, pullIfNeeded_snd, List.mem_singleton, List.not_mem_nil] at hx <;>
      first
        | exact absurd hx id
        | (subst hx; rfl)

theorem runStages_not_volumeRemove {w : World}
    {vol repoURL startCommit finalPatch image cmd : GoString} {l : List Stage} {h : List Event}
    {x : Event}
    (hx : x ∈ (runStages (stageCall w vol repoURL startCommit finalPatch image cmd) l h).2) :
    x.isVolumeRemove = false := by
  obtain ⟨s, _, h', hx'⟩ := mem_runStages hx
  exact stageCall_not_volumeRemove hx'

theorem plan_sublist (startCommit finalPatch : GoString) :
    (plan startCommit finalPatch).Sublist
      [.client, .ping, .pullTest, .volume, .pullGit, .clone, .checkout, .inject, .apply, .test] := by
  unfold plan setupPlan phaseStages checkoutStages patchStages
  split <;> split <;> decide

theorem stageOp_eq_ping {vol repoURL startCommit image cmd : GoString} {s : Stage} {ctx : Ctx}
    (hs : stageOp vol repoURL startCommit image cmd s = some (.ping ctx)) :
    s = .ping ∧ ctx = .caller := by
  cases s <;> simp only [stageOp, Option.some.injEq, Op.ping.injEq, reduceCtorEq] at hs
  exact ⟨rfl, hs.symm⟩

theorem plan_split_ping {startCommit finalPatch : GoString} {l₁ l₂ : List Stage}
    (hl : plan startCommit finalPatch = l₁ ++ Stage.ping :: l₂) : l₁ = [.client] := by
  have hnd : (plan startCommit finalPatch).Nodup :=
    (plan_sublist startCommit finalPatch).nodup (by decide)
  have hplan : plan startCommit finalPatch = [Stage.client] ++ Stage.ping ::
      ([Stage.pullTest, .volume] ++ phaseStages startCommit finalPatch ++ [Stage.test]) := by
    simp [plan, setupPlan]
  have h1 : [Stage.client] <+: l₁ :=
    prefix_of_first_occurrence (hplan.symm.trans hl) (by decide)
  obtain ⟨t, ht⟩ := h1
  subst ht
  cases t with
  | nil => rfl
  | cons a t =>
    exfalso
    rw [hplan] at hl
    simp only [List.cons_append, List.nil_append, List.cons.injEq, true_and] at hl
    have ha : a = Stage.ping := hl.1.symm
    subst ha
    rw [hplan] at hnd
    rw [show ([Stage.client] ++ Stage.ping :: ([Stage.pullTest, .volume] ++
        phaseStages startCommit finalPatch ++ [Stage.test])) =
        Stage.client :: Stage.ping :: ([Stage.pullTest, .volume] ++
        phaseStages startCommit finalPatch ++ [Stage.test]) from rfl] at hnd
    have hnot := (List.nodup_cons.mp (List.nodup_cons.mp hnd).2).1
    apply hnot
    have hmem : Stage.ping ∈ t ++ Stage.ping :: l₂ := by simp
    rw [← hl.2] at hmem
    simpa using hmem

/-- C10.  The stages of a run are a selection, in order and without repetition,
of: client, daemon ping, pull of the test image, volume creation, pull of the
git image, clone, checkout, patch injection, patch apply, test.  The
stage-opening engine calls of a run are an initial segment of the opening
calls of these stages; the events other than the removal of the volume are
exactly those of the gated run of the stages (each one called at most once,
and only when every earlier one returned no error); every opening call found
in the events is that of a stage whose predecessors all ran without error and
emitted exactly the events in front of it.  When the events show a failed
ping, the run returns no result and the wrapped error, and the failed ping is
its only event: no image is pulled, no volume and no container is created. -/
theorem RunTests_stage_order (w : World) (h : List Event)
    (repoURL startCommit finalPatch image cmd : GoString) :
    ((plan startCommit finalPatch).Sublist
      [.client, .ping, .pullTest, .volume, .pullGit, .clone, .checkout, .inject, .apply, .test] ∧
     (plan startCommit finalPatch).Nodup) ∧
    (RunTests w h repoURL startCommit finalPatch image cmd).events.filterMap Event.op <+:
      (plan startCommit finalPatch).filterMap
        (stageOp (workspaceName w h image) repoURL startCommit image cmd) ∧
    (RunTests w h repoURL startCommit finalPatch image cmd).events.filter
        (fun e => !e.isVolumeRemove) =
      (runStages (stageCall w (workspaceName w h image) repoURL startCommit finalPatch image cmd)
        (plan startCommit finalPatch) h).2 ∧
    (∀ pre e post op,
      (RunTests w h repoURL startCommit finalPatch image cmd).events = pre ++ e :: post →
      e.op = some op →
      ∃ l₁ s l₂, plan startCommit finalPatch = l₁ ++ s :: l₂ ∧
        stageOp (workspaceName w h image) repoURL startCommit image cmd s = some op ∧
        (runStages (stageCall w (workspaceName w h image) repoURL startCommit finalPatch
          image cmd) l₁ h).1 = none ∧
        (runStages (stageCall w (workspaceName w h image) repoURL startCommit finalPatch
          image cmd) l₁ h).2 = pre) ∧
    (∀ ctx e, Event.ping ctx (some e) ∈
        (RunTests w h repoURL startCommit finalPatch image cmd).events →
      (RunTests w h repoURL startCommit finalPatch image cmd).res = none ∧
      (RunTests w h repoURL startCommit finalPatch image cmd).err =
        some (wrapErr (str "cannot reach docker daemon (" ++ w.dockerHost ++ str "): ") e) ∧
      (RunTests w h repoURL startCommit finalPatch image cmd).events =
        [Event.ping .caller (some e)]) := by
  refine ⟨⟨plan_sublist _ _, (plan_sublist _ _).nodup (by decide)⟩,
    RunTests_ops_prefix w h repoURL startCommit finalPatch image cmd, ?_, ?_, ?_⟩
  · obtain ⟨_, hev, _⟩ := RunTests_refines w h repoURL startCommit finalPatch image cmd
    rw [hev, List.filter_append]
    have h1 : (runStages (stageCall w (workspaceName w h image) repoURL startCommit finalPatch
        image cmd) (plan startCommit finalPatch) h).2.filter (fun e => !e.isVolumeRemove) =
        (runStages (stageCall w (workspaceName w h image) repoURL startCommit finalPatch
          image cmd) (plan startCommit finalPatch) h).2 := by
      apply List.filter_eq_self.mpr
      intro x hx
      simp [runStages_not_volumeRemove hx]
    rw [h1]
    split <;> simp [Event.isVolumeRemove]
  · intro pre e post op hev he
    obtain ⟨l₁, s, l₂, hl, hs, hn, hp, _⟩ := RunTests_locate hev he
    exact ⟨l₁, s, l₂, hl, hs, hn, hp⟩
  · intro ctx e hmem
    obtain ⟨pre, post, hev⟩ := List.append_of_mem hmem
    obtain ⟨l₁, s, l₂, hl, hs, hn, hp, tail, htail⟩ :=
      @RunTests_locate _ _ _ _ _ _ _ _ _ _ (Op.ping ctx) hev rfl
    obtain ⟨hs', hctx⟩ := stageOp_eq_ping hs
    subst hs' hctx
    have hl1 := plan_split_ping hl
    subst hl1
    have hnc : w.newClient = none := by
      cases hc : w.newClient with
      | none => rfl
      | some e0 =>
        have : (stageCall w (workspaceName w h image) repoURL startCommit finalPatch image cmd
            .client h).1 = some e0 := by simp [stageCall, hc]
        rw [runStages_cons_some _ this] at hn
        simp at hn
    have hpre : pre = [] := by
      rw [← hp]
      have : (stageCall w (workspaceName w h image) repoURL startCommit finalPatch image cmd
          .client h).1 = none := by simp [stageCall, hnc]
      rw [runStages_cons_none _ this]
      simp [stageCall, runStages]
    subst hpre
    simp only [stageCall, List.append_nil, List.cons.injEq, Event.ping.injEq, true_and] at htail
    have hping : w.ping h .caller = some e := htail.1
    simp [RunTests, hnc, hping]

/-- Witness for C10 on an engine whose daemon does not answer: the failed
ping is the only event of the run and no result is returned. -/
theorem RunTests_stage_order_witness :
    Event.ping .caller (some boom) ∈
      (RunTests pingFails [] (str "https://example.com/r.git") (str "HEAD") (str "")
        (str "python:3.12") (str "pytest")).events ∧
    (RunTests pingFails [] (str "https://example.com/r.git") (str "HEAD") (str "")
        (str "python:3.12") (str "pytest")).res = none ∧
    (RunTests pingFails [] (str "https://example.com/r.git") (str "HEAD") (str "")
        (str "python:3.12") (str "pytest")).events = [Event.ping .caller (some boom)] :=
  have hm : Event.ping .caller (some boom) ∈
      (RunTests pingFails [] (str "https://example.com/r.git") (str "HEAD") (str "")
        (str "python:3.12") (str "pytest")).events := by decide
  have hr := (RunTests_stage_order pingFails [] (str "https://example.com/r.git") (str "HEAD")
    (str "") (str "python:3.12") (str "pytest")).2.2.2.2 .caller boom hm
  ⟨hm, hr.1, hr.2.2⟩




/-! ## Concrete runs for the cleanup, network and checkout properties -/

/-- Witness for C5, on an engine in which every call succeeds: the volume
`qa-runner-42` is created and the events end with its forced removal, the
only volume removal of the run. -/
theorem RunTests_volume_cleanup_witness :
    Event.volumeCreate .phase (str "qa-runner-42") none ∈
      (RunTests allGood [] (str "u") (str "HEAD") [] (str "img") (str "go test")).events ∧
    ∃ body r, (RunTests allGood [] (str "u") (str "HEAD") [] (str "img") (str "go test")).events =
        body ++ [Event.volumeRemove .background (str "qa-runner-42") true r] ∧
      ∀ x ∈ body, x.isVolumeRemove = false :=
  have hm : Event.volumeCreate .phase (str "qa-runner-42") none ∈
      (RunTests allGood [] (str "u") (str "HEAD") [] (str "img") (str "go test")).events := by
    decide
  ⟨hm, (RunTests_volume_cleanup allGood [] (str "u") (str "HEAD") [] (str "img")
    (str "go test")).1 .phase (str "qa-runner-42") hm⟩

/-- Witness for C6, on an engine in which every call succeeds: the container
`runWithLogs` creates at the empty history gets the id `0`, and the events of
the call end with its stop and forced remove. -/
theorem containers_cleaned_up_witness :
    allGood.containerCreate [] .phase ⟨str "img", [str "true"], false⟩
        (phaseHost (str "v") false none) = .created (str "0") ∧
    ∃ body s r, (runWithLogs allGood [] .phase (str "img") (str "v") [str "true"] false none).2 =
        Event.containerCreate .phase ⟨str "img", [str "true"], false⟩
          (phaseHost (str "v") false none) (.created (str "0")) ::
        (body ++ [Event.containerStop .background (str "0") 5 s,
          Event.containerRemove .background (str "0") true r]) ∧
      ∀ x ∈ body, x.op = none :=
  have hc : allGood.containerCreate [] .phase ⟨str "img", [str "true"], false⟩
      (phaseHost (str "v") false none) = .created (str "0") := by decide
  ⟨hc, (containers_cleaned_up allGood []).1 .phase (str "img") (str "v") [str "true"] false none
    (str "0") hc⟩

/-- Witness for C7, on an engine in which every call succeeds: the clone
container of the run is created with the empty network mode and the test
container with network mode `"none"`. -/
theorem RunTests_network_modes_witness :
    (Event.containerCreate .phase ⟨gitImage, cloneCmd (str "u"), false⟩
        (phaseHost (str "qa-runner-42") true none) (.created (str "4")) ∈
      (RunTests allGood [] (str "u") (str "HEAD") [] (str "img") (str "go test")).events ∧
     (phaseHost (str "qa-runner-42") true none).NetworkMode = []) ∧
    (Event.containerCreate .phase ⟨str "img", testCmd (str "go test"), false⟩
        (phaseHost (str "qa-runner-42") false (some testLimits)) (.created (str "10")) ∈
      (RunTests allGood [] (str "u") (str "HEAD") [] (str "img") (str "go test")).events ∧
     (phaseHost (str "qa-runner-42") false (some testLimits)).NetworkMode = str "none") :=
  have h1 : Event.containerCreate .phase ⟨gitImage, cloneCmd (str "u"), false⟩
        (phaseHost (str "qa-runner-42") true none) (.created (str "4")) ∈
      (RunTests allGood [] (str "u") (str "HEAD") [] (str "img") (str "go test")).events := by
    decide
  have h2 : Event.containerCreate .phase ⟨str "img", testCmd (str "go test"), false⟩
        (phaseHost (str "qa-runner-42") false (some testLimits)) (.created (str "10")) ∈
      (RunTests allGood [] (str "u") (str "HEAD") [] (str "img") (str "go test")).events := by
    decide
  ⟨⟨h1, ((RunTests_network_modes allGood [] (str "u") (str "HEAD") [] (str "img")
      (str "go test")).1 _ _ _ _ h1).1 (Or.inl rfl)⟩,
    ⟨h2, ((RunTests_network_modes allGood [] (str "u") (str "HEAD") [] (str "img")
      (str "go test")).1 _ _ _ _ h2).2 (Or.inr rfl)⟩⟩

/-- Witness for the amended C8, on an engine in which every call succeeds:
with the start commit `" abc "` the run returns a result and its stage-opening
calls include, between clone and test, the checkout of `abc`. -/
theorem RunTests_checkout_phase_witness :
    (RunTests allGood [] (str "u") (str " abc ") [] (str "img") (str "go test")).res =
      some ⟨true, [], [], 0⟩ ∧
    (RunTests allGood [] (str "u") (str " abc ") [] (str "img") (str "go test")).events.filterMap
        Event.op =
      ([Stage.client, .ping, .pullTest, .volume, .pullGit, .clone] ++
        (if TrimSpace (str " abc ") ≠ [] ∧ TrimSpace (str " abc ") ≠ str "HEAD"
          then [Stage.checkout] else []) ++
        patchStages [] ++ [Stage.test]).filterMap
        (stageOp (workspaceName allGood [] (str "img")) (str "u") (str " abc ") (str "img")
          (str "go test")) :=
  have hres : (RunTests allGood [] (str "u") (str " abc ") [] (str "img") (str "go test")).res =
      some ⟨true, [], [], 0⟩ := by decide
  ⟨hres, (RunTests_checkout_phase allGood [] (str "u") (str " abc ") [] (str "img")
    (str "go test")).2.2.1 _ hres⟩

/-! ## The error taxonomy of `runWithLogs` -/

/-- C11.  `runWithLogs` returns the error of a failed container creation
wrapped as `create: `, of a failed start wrapped as `start: `, of a non-nil
error received from the wait wrapped as `wait: `; when the wait delivers the
exit status `n` it returns a nil error and exit code `n`, whatever the answer
to the request for the logs (on a failed request, with both outputs empty);
when the wait delivers a nil error it returns a nil error and exit code 0.
Hence the returned error is non-nil exactly when the creation failed, the
start failed, or the wait reported a non-nil error. -/
theorem runWithLogs_errors (w : World) (h : List Event) (ctx : Ctx) (image volName : GoString)
    (cmd : List GoString) (netEnabled : Bool) (res : Option Resources) :
    (∀ e, w.containerCreate h ctx ⟨image, cmd, false⟩ (phaseHost volName netEnabled res)
        = .failed e →
      (runWithLogs w h ctx image volName cmd netEnabled res).1.err
        = some (wrapErr (str "create: ") e)) ∧
    (∀ cid, w.containerCreate h ctx ⟨image, cmd, false⟩ (phaseHost volName netEnabled res)
        = .created cid →
      (∀ e, w.containerStart (h ++ [Event.containerCreate ctx ⟨image, cmd, false⟩
          (phaseHost volName netEnabled res) (.created cid)]) ctx cid = some e →
        (runWithLogs w h ctx image volName cmd netEnabled res).1.err
          = some (wrapErr (str "start: ") e)) ∧
      (w.containerStart (h ++ [Event.containerCreate ctx ⟨image, cmd, false⟩
          (phaseHost volName netEnabled res) (.created cid)]) ctx cid = none →
        (∀ e, w.containerWait (h ++ [Event.containerCreate ctx ⟨image, cmd, false⟩
            (phaseHost volName netEnabled res) (.created cid)] ++
            [Event.containerStart ctx cid none]) ctx cid = .errCh (some e) →
          (runWithLogs w h ctx image volName cmd netEnabled res).1.err
            = some (wrapErr (str "wait: ") e)) ∧
        (∀ n, w.containerWait (h ++ [Event.containerCreate ctx ⟨image, cmd, false⟩
            (phaseHost volName netEnabled res) (.created cid)] ++
            [Event.containerStart ctx cid none]) ctx cid = .status n →
          (runWithLogs w h ctx image volName cmd netEnabled res).1.err = none ∧
          (runWithLogs w h ctx image volName cmd netEnabled res).1.exitCode = n ∧
          ∀ e, w.containerLogs (h ++ [Event.containerCreate ctx ⟨image, cmd, false⟩
              (phaseHost volName netEnabled res) (.created cid)] ++
              [Event.containerStart ctx cid none, Event.containerWait ctx cid (.status n)])
              ctx cid true true = .failed e →
            (runWithLogs w h ctx image volName cmd netEnabled res).1 = ⟨[], [], n, none⟩) ∧
        (w.containerWait (h ++ [Event.containerCreate ctx ⟨image, cmd, false⟩
            (phaseHost volName netEnabled res) (.created cid)] ++
            [Event.containerStart ctx cid none]) ctx cid = .errCh none →
          (runWithLogs w h ctx image volName cmd netEnabled res).1.err = none ∧
          (runWithLogs w h ctx image volName cmd netEnabled res).1.exitCode = 0))) ∧
    ((runWithLogs w h ctx image volName cmd netEnabled res).1.err ≠ none ↔
      (∃ e, w.containerCreate h ctx ⟨image, cmd, false⟩ (phaseHost volName netEnabled res)
        = .failed e) ∨
      ∃ cid, w.containerCreate h ctx ⟨image, cmd, false⟩ (phaseHost volName netEnabled res)
          = .created cid ∧
        ((∃ e, w.containerStart (h ++ [Event.containerCreate ctx ⟨image, cmd, false⟩
            (phaseHost volName netEnabled res) (.created cid)]) ctx cid = some e) ∨
         (w.containerStart (h ++ [Event.containerCreate ctx ⟨image, cmd, false⟩
            (phaseHost volName netEnabled res) (.created cid)]) ctx cid = none ∧
          ∃ e, w.containerWait (h ++ [Event.containerCreate ctx ⟨image, cmd, false⟩
            (phaseHost volName netEnabled res) (.created cid)] ++
            [Event.containerStart ctx cid none]) ctx cid = .errCh (some e)))) := by
  cases hc : w.containerCreate h ctx ⟨image, cmd, false⟩ (phaseHost volName netEnabled res) with
  | failed e0 =>
    rw [runWithLogs_failed hc]
    simp
  | created cid0 =>
    rw [runWithLogs_created hc]
    cases hs : w.containerStart (h ++ [Event.containerCreate ctx ⟨image, cmd, false⟩
        (phaseHost volName netEnabled res) (.created cid0)]) ctx cid0 with
    | some e1 =>
      rw [runWithLogsBody_start_failed hs]
      simp [hs]
    | none =>
      cases hw : w.containerWait (h ++ [Event.containerCreate ctx ⟨image, cmd, false⟩
          (phaseHost volName netEnabled res) (.created cid0)] ++
          [Event.containerStart ctx cid0 none]) ctx cid0 with
      | errCh oe =>
        cases oe with
        | some e2 =>
          rw [runWithLogsBody_wait_failed hs hw]
          have hw' := hw
          simp only [List.append_assoc, List.singleton_append] at hw'
          simp [hs, hw']
        | none =>
          rw [runWithLogsBody_wait_nil hs hw]
          have hw' := hw
          simp only [List.append_assoc, List.singleton_append] at hw'
          simp [hs, hw', collectLogs_fst]
      | status n =>
        rw [runWithLogsBody_status hs hw]
        have hw' := hw
        simp only [List.append_assoc, List.singleton_append] at hw'
        simp [hs, hw', collectLogs_fst]
        intro e hl
        simp [collectLogs, hl]

/-- Witness for C11, on an engine whose `sh` containers exit with status 3:
the container is created and started, the wait delivers status 3, and
`runWithLogs` returns a nil error with exit code 3. -/
theorem runWithLogs_errors_witness :
    exitThree.containerCreate [] .phase ⟨str "img", [str "sh"], false⟩
        (phaseHost (str "v") false none) = .created (str "0") ∧
    (runWithLogs exitThree [] .phase (str "img") (str "v") [str "sh"] false none).1.err = none ∧
    (runWithLogs exitThree [] .phase (str "img") (str "v") [str "sh"] false none).1.exitCode = 3 :=
  have hc : exitThree.containerCreate [] .phase ⟨str "img", [str "sh"], false⟩
      (phaseHost (str "v") false none) = .created (str "0") := by decide
  have hr := ((((runWithLogs_errors exitThree [] .phase (str "img") (str "v") [str "sh"] false
    none).2.1 (str "0") hc).2 (by decide)).2.1 3 (by decide))
  ⟨hc, hr.1, hr.2.1⟩

/-! ## Image references -/

theorem singleton_infix_iff_mem (a : Byte) (s : GoString) : [a] <:+: s ↔ a ∈ s := by
  constructor
  · rintro ⟨p, q, hpq⟩
    rw [← hpq]
    simp
  · intro hmem
    obtain ⟨p, q, hpq⟩ := List.append_of_mem hmem
    exact ⟨p, q, by rw [hpq]; simp⟩

/-- C12.  For every string `s`: if `s` contains `/` or `:` then `imageRef s`
is `s`; otherwise it is `docker.io/library/` followed by `s` followed by
`:latest`.  Containing the one-byte string `/` (`:`) is the same as having the
byte 47 (58) among the bytes of `s`. -/
theorem imageRef_spec (s : GoString) :
    ((str "/" <:+: s ∨ str ":" <:+: s) → imageRef s = s) ∧
    (¬ (str "/" <:+: s ∨ str ":" <:+: s) →
      imageRef s = str "docker.io/library/" ++ s ++ str ":latest") ∧
    ((str "/" <:+: s ∨ str ":" <:+: s) ↔ ((47 : Byte) ∈ s ∨ (58 : Byte) ∈ s)) := by
  refine ⟨?_, ?_, ?_⟩
  · intro hc
    unfold imageRef Contains
    rw [if_pos]
    simpa using hc
  · intro hc
    unfold imageRef Contains
    rw [if_neg]
    simpa using hc
  · have h1 : str "/" = [(47 : Byte)] := by decide
    have h2 : str ":" = [(58 : Byte)] := by decide
    rw [h1, h2, singleton_infix_iff_mem, singleton_infix_iff_mem]

/-- Witness for C12: `python:3.12` and `alpine/git` pass through, `golang`
is expanded. -/
theorem imageRef_spec_witness :
    (str ":" <:+: str "python:3.12" ∧ imageRef (str "python:3.12") = str "python:3.12") ∧
    (str "/" <:+: str "alpine/git" ∧ imageRef (str "alpine/git") = str "alpine/git") ∧
    (¬ (str "/" <:+: str "golang" ∨ str ":" <:+: str "golang") ∧
      imageRef (str "golang") = str "docker.io/library/golang:latest") :=
  have h1 : str ":" <:+: str "python:3.12" := by decide
  have h2 : str "/" <:+: str "alpine/git" := by decide
  have h3 : ¬ (str "/" <:+: str "golang" ∨ str ":" <:+: str "golang") := by decide
  ⟨⟨h1, (imageRef_spec (str "python:3.12")).1 (Or.inr h1)⟩,
    ⟨h2, (imageRef_spec (str "alpine/git")).1 (Or.inl h2)⟩,
    ⟨h3, ((imageRef_spec (str "golang")).2.1 h3).trans (by decide)⟩⟩

/-! ## The result that accompanies an error -/

/-- Every error return of `runWithLogs` (create, start, wait) carries empty
stdout, empty stderr and exit code 0. -/
theorem runWithLogs_error_values {w : World} {h : List Event} {ctx : Ctx}
    {image volName : GoString} {cmd : List GoString} {netEnabled : Bool}
    {res : Option Resources} {e : GoError}
    (herr : (runWithLogs w h ctx image volName cmd netEnabled res).1.err = some e) :
    (runWithLogs w h ctx image volName cmd netEnabled res).1.stdout = [] ∧
    (runWithLogs w h ctx image volName cmd netEnabled res).1.stderr = [] ∧
    (runWithLogs w h ctx image volName cmd netEnabled res).1.exitCode = 0 := by
  cases hc : w.containerCreate h ctx ⟨image, cmd, false⟩ (phaseHost volName netEnabled res) with
  | failed e0 =>
    rw [runWithLogs_failed hc]
    exact ⟨rfl, rfl, rfl⟩
  | created cid0 =>
    rw [runWithLogs_created hc] at herr ⊢
    cases hs : w.containerStart (h ++ [Event.containerCreate ctx ⟨image, cmd, false⟩
        (phaseHost volName netEnabled res) (.created cid0)]) ctx cid0 with
    | some e1 =>
      rw [runWithLogsBody_start_failed hs]
      exact ⟨rfl, rfl, rfl⟩
    | none =>
      cases hw : w.containerWait (h ++ [Event.containerCreate ctx ⟨image, cmd, false⟩
          (phaseHost volName netEnabled res) (.created cid0)] ++
          [Event.containerStart ctx cid0 none]) ctx cid0 with
      | errCh oe =>
        cases oe with
        | some e2 =>
          rw [runWithLogsBody_wait_failed hs hw]
          exact ⟨rfl, rfl, rfl⟩
        | none =>
          rw [runWithLogsBody_wait_nil hs hw] at herr
          simp [collectLogs_fst] at herr
      | status n =>
        rw [runWithLogsBody_status hs hw] at herr
        simp [collectLogs_fst] at herr

/-- C20.  Whenever `RunTests` returns both a result and an error, the result
is exactly `{OK: false, Stdout: "", Stderr: "", ExitCode: 0}`; the reason is
that every call of `runWithLogs` that returns an error returns empty stdout,
empty stderr and exit code 0. -/
theorem RunTests_result_with_error (w : World) (h : List Event)
    (repoURL startCommit finalPatch image cmd : GoString) (res : TestResult) (e : GoError)
    (hres : (RunTests w h repoURL startCommit finalPatch image cmd).res = some res)
    (herr : (RunTests w h repoURL startCommit finalPatch image cmd).err = some e) :
    res = { OK := false, Stdout := [], Stderr := [], ExitCode := 0 } ∧
    ∀ (h' : List Event) (ctx : Ctx) (img vol : GoString) (c : List GoString) (net : Bool)
      (r : Option Resources) (e' : GoError),
      (runWithLogs w h' ctx img vol c net r).1.err = some e' →
      (runWithLogs w h' ctx img vol c net r).1.stdout = [] ∧
      (runWithLogs w h' ctx img vol c net r).1.stderr = [] ∧
      (runWithLogs w h' ctx img vol c net r).1.exitCode = 0 := by
  refine ⟨?_, fun h' ctx img vol c net r e' he' => runWithLogs_error_values he'⟩
  obtain ⟨_, hr, he, _⟩ := RunTests_reached hres
  rw [he] at herr
  cases hte : (testOut w (workspaceName w h image) image cmd
      (h ++ (runStages (stageCall w (workspaceName w h image) repoURL startCommit finalPatch
        image cmd) (setupPlan startCommit finalPatch) h).2)).err with
  | none => rw [hte] at herr; cases herr
  | some e0 =>
    have hv := runWithLogs_error_values hte
    rw [hr]
    unfold assemble
    unfold testOut at hte hv ⊢
    simp [hte, hv.1, hv.2.1, hv.2.2]

/-- Witness for C20, on an engine in which the start of the test container
fails: `RunTests` returns the wrapped error together with the empty result. -/
theorem RunTests_result_with_error_witness :
    (RunTests testStartFails [] (str "u") (str "HEAD") [] (str "img") (str "go test")).res =
      some ⟨false, [], [], 0⟩ ∧
    (RunTests testStartFails [] (str "u") (str "HEAD") [] (str "img") (str "go test")).err =
      some (wrapErr (str "test run: ") (wrapErr (str "start: ") boom)) ∧
    (⟨false, [], [], 0⟩ : TestResult) = { OK := false, Stdout := [], Stderr := [], ExitCode := 0 } :=
  ⟨by decide, by decide,
    (RunTests_result_with_error testStartFails [] (str "u") (str "HEAD") [] (str "img")
      (str "go test") ⟨false, [], [], 0⟩ (wrapErr (str "test run: ") (wrapErr (str "start: ") boom))
      (by decide) (by decide)).1⟩

/-! ## Log separation -/

theorem frameSize_eq (n : Nat) (hn : n < 4294967296) :
    (byte (n / 16777216)).val * 16777216 + (byte (n / 65536)).val * 65536 +
      (byte (n / 256)).val * 256 + (byte n).val = n := by
  simp only [byte]
  omega

theorem stdCopyLoop_nil (fuel : Nat) (out err : List Byte) :
    stdCopyLoop fuel [] out err = ⟨out, err, false⟩ := by
  cases fuel <;> simp [stdCopyLoop]

theorem stdCopyLoop_frames (fs : List (StreamTag × List Byte)) :
    ∀ (fuel : Nat) (out err : List Byte), WellFormed fs → fs.length ≤ fuel →
      stdCopyLoop fuel (encodeFrames fs) out err =
        ⟨out ++ payloads .stdout fs, err ++ payloads .stderr fs, false⟩ := by
  induction fs with
  | nil =>
    intro fuel out err _ _
    simp [encodeFrames, payloads, stdCopyLoop_nil]
  | cons f rest ih =>
    intro fuel out err hwf hlen
    obtain ⟨tag, p⟩ := f
    cases fuel with
    | zero => simp at hlen
    | succ k =>
      have hp : p.length < 4294967296 := hwf (tag, p) (List.mem_cons_self _ _)
      have hrest : WellFormed rest := fun g hg => hwf g (List.mem_cons_of_mem _ hg)
      have hk : rest.length ≤ k := by simpa using hlen
      have henc : encodeFrames ((tag, p) :: rest) =
          tag.toByte :: 0 :: 0 :: 0 :: byte (p.length / 16777216) :: byte (p.length / 65536) ::
            byte (p.length / 256) :: byte p.length :: (p ++ encodeFrames rest) := by
        simp [encodeFrames, encodeFrame, frameHeader]
      rw [henc, stdCopyLoop]
      rw [frameSize_eq p.length hp]
      cases tag with
      | stdout =>
        have h3 : ¬ (3 < (StreamTag.toByte .stdout).val) := by decide
        have h4 : ¬ ((StreamTag.toByte .stdout).val = 3) := by decide
        have h5 : ¬ ((StreamTag.toByte .stdout).val = 2) := by decide
        simp only [h3, h4, h5, if_false, List.length_append,
          Nat.not_lt.mpr (Nat.le_add_right _ _), List.drop_left, List.take_left]
        rw [ih k _ _ hrest hk]
        simp [payloads]
      | stderr =>
        have h3 : ¬ (3 < (StreamTag.toByte .stderr).val) := by decide
        have h4 : ¬ ((StreamTag.toByte .stderr).val = 3) := by decide
        have h5 : (StreamTag.toByte .stderr).val = 2 := by decide
        simp only [h3, h4, h5, if_false, if_true, List.length_append,
          Nat.not_lt.mpr (Nat.le_add_right _ _), List.drop_left, List.take_left]
        rw [ih k _ _ hrest hk]
        simp [payloads]

theorem encodeFrames_length (fs : List (StreamTag × List Byte)) :
    fs.length ≤ (encodeFrames fs).length := by
  induction fs with
  | nil => simp
  | cons f rest ih =>
    have : encodeFrames (f :: rest) = encodeFrame f ++ encodeFrames rest := by
      simp [encodeFrames]
    rw [this, List.length_append]
    have : 8 ≤ (encodeFrame f).length := by simp [encodeFrame, frameHeader]
    simp only [List.length_cons]
    omega

/-- `StdCopy` on a well-formed stream separates the two streams. -/
theorem StdCopy_frames (fs : List (StreamTag × List Byte)) (hwf : WellFormed fs) :
    StdCopy (encodeFrames fs) = ⟨payloads .stdout fs, payloads .stderr fs, false⟩ := by
  unfold StdCopy
  rw [stdCopyLoop_frames fs _ [] [] hwf (encodeFrames_length fs)]
  simp

/-- When the events of a call of `runWithLogs` show that the logs were
obtained, the call returns what `StdCopy` made of them: the two demultiplexed
outputs, or the raw stream as stdout when `StdCopy` failed. -/
theorem runWithLogs_logs_event {w : World} {h : List Event} {ctx : Ctx}
    {image volName : GoString} {cmd : List GoString} {netEnabled : Bool}
    {res : Option Resources} {c' : Ctx} {cid' : GoString} {a b : Bool} {sb : List Byte}
    (hx : Event.containerLogs c' cid' a b (.stream sb) ∈
      (runWithLogs w h ctx image volName cmd netEnabled res).2) :
    (runWithLogs w h ctx image volName cmd netEnabled res).1.stdout =
      (if (StdCopy sb).failed then sb else (StdCopy sb).out) ∧
    (runWithLogs w h ctx image volName cmd netEnabled res).1.stderr = (StdCopy sb).err ∧
    (runWithLogs w h ctx image volName cmd netEnabled res).1.err = none := by
  cases hc : w.containerCreate h ctx ⟨image, cmd, false⟩ (phaseHost volName netEnabled res) with
  | failed e0 =>
    rw [runWithLogs_failed hc] at hx
    simp at hx
  | created cid0 =>
    rw [runWithLogs_created hc] at hx ⊢
    cases hs : w.containerStart (h ++ [Event.containerCreate ctx ⟨image, cmd, false⟩
        (phaseHost volName netEnabled res) (.created cid0)]) ctx cid0 with
    | some e1 =>
      rw [runWithLogsBody_start_failed hs] at hx
      simp [stopAndRemove] at hx
    | none =>
      cases hw : w.containerWait (h ++ [Event.containerCreate ctx ⟨image, cmd, false⟩
          (phaseHost volName netEnabled res) (.created cid0)] ++
          [Event.containerStart ctx cid0 none]) ctx cid0 with
      | errCh oe =>
        cases oe with
        | some e2 =>
          rw [runWithLogsBody_wait_failed hs hw] at hx
          simp [stopAndRemove] at hx
        | none =>
          rw [runWithLogsBody_wait_nil hs hw] at hx ⊢
          simp only [collectLogs_snd, stopAndRemove, List.mem_cons, List.mem_append,
            List.mem_singleton, reduceCtorEq, false_or, or_false, List.not_mem_nil,
            Event.containerLogs.injEq] at hx
          obtain ⟨_, _, _, _, hl⟩ := hx
          have hl' := hl.symm
          simp only [List.append_assoc, List.singleton_append, List.cons_append,
            List.nil_append] at hl'
          simp [collectLogs, hl']
      | status n =>
        rw [runWithLogsBody_status hs hw] at hx ⊢
        simp only [collectLogs_snd, stopAndRemove, List.mem_cons, List.mem_append,
          List.mem_singleton, reduceCtorEq, false_or, or_false, List.not_mem_nil,
          Event.containerLogs.injEq] at hx
        obtain ⟨_, _, _, _, hl⟩ := hx
        have hl' := hl.symm
        simp only [List.append_assoc, List.singleton_append, List.cons_append,
          List.nil_append] at hl'
        simp [collectLogs, hl']

/-- When the events of a run contain, at some position, the events of the
test-phase call of `runWithLogs` made at that position, `RunTests` returns the
result assembled from what that call returned, and its error, wrapped. -/
theorem RunTests_of_test_call {w : World} {h : List Event}
    {repoURL startCommit finalPatch image cmd : GoString} {pre post : List Event}
    (hev : (RunTests w h repoURL startCommit finalPatch image cmd).events =
      pre ++ (runWithLogs w (h ++ pre) .phase image (workspaceName w h image) (testCmd cmd)
        false (some testLimits)).2 ++ post) :
    (RunTests w h repoURL startCommit finalPatch image cmd).res =
      some (assemble (runWithLogs w (h ++ pre) .phase image (workspaceName w h image)
        (testCmd cmd) false (some testLimits)).1) ∧
    (RunTests w h repoURL startCommit finalPatch image cmd).err =
      (runWithLogs w (h ++ pre) .phase image (workspaceName w h image)
        (testCmd cmd) false (some testLimits)).1.err.map (wrapErr (str "test run: ")) := by
  have hopens := runWithLogs_opens w (h ++ pre) .phase image (workspaceName w h image)
    (testCmd cmd) false (some testLimits)
  obtain ⟨ev, tail, ht, he, _⟩ := hopens
  have hev' := hev
  rw [ht] at hev'
  simp only [List.cons_append, List.append_assoc] at hev'
  obtain ⟨l₁, s, l₂, hl, hsop, hnone, hpre, _⟩ := RunTests_locate hev' he
  have hs : s = .test := stageOp_eq_test hsop rfl
  subst hs
  obtain ⟨hl₁, _⟩ := plan_split_test hl
  subst hl₁
  obtain ⟨herr, _, hres⟩ := RunTests_refines w h repoURL startCommit finalPatch image cmd
  have hplan := runStages_append (stageCall w (workspaceName w h image) repoURL startCommit
      finalPatch image cmd) (setupPlan startCommit finalPatch) [.test] h
  simp only [hnone, runStages_test, hpre] at hplan
  refine ⟨?_, ?_⟩
  · rw [hres, resultAfter, hnone, hpre]
    rfl
  · rw [herr, plan, hplan]
    cases hE : (runWithLogs w (h ++ pre) .phase image (workspaceName w h image)
        (testCmd cmd) false (some testLimits)).1.err <;>
      simp [testOut, hE, stagePrefix]

/-- C14.  (1) On a well-formed multiplexed stream `StdCopy` writes to its
first destination the concatenation, in order, of the payloads of the stdout
frames and to its second that of the stderr frames, and does not fail.
(2) When the events of a call of `runWithLogs` show that the logs request was
answered with such a stream, the call returns these two concatenations as
stdout and stderr.  (3) When `RunTests` returns a result, its `Stdout` and
`Stderr` are the stdout and stderr returned by the test-phase call of
`runWithLogs`, whose events are part of the events of the run.  (4) When the
events of a run contain the events of the test-phase call and show that its
logs request was answered with a well-formed stream, `RunTests` returns a
result and a nil error, and the result has the concatenation of the stdout
payloads as `Stdout`, that of the stderr payloads as `Stderr`, and the exit
code of the call. -/
theorem RunTests_log_separation (w : World) (h : List Event)
    (repoURL startCommit finalPatch image cmd : GoString) :
    (∀ fs, WellFormed fs →
      StdCopy (encodeFrames fs) = ⟨payloads .stdout fs, payloads .stderr fs, false⟩) ∧
    (∀ (h' : List Event) (ctx : Ctx) (img vol : GoString) (c : List GoString) (net : Bool)
      (r : Option Resources) (fs : List (StreamTag × List Byte)) (c' : Ctx) (cid : GoString)
      (a b : Bool), WellFormed fs →
      Event.containerLogs c' cid a b (.stream (encodeFrames fs)) ∈
        (runWithLogs w h' ctx img vol c net r).2 →
      (runWithLogs w h' ctx img vol c net r).1.stdout = payloads .stdout fs ∧
      (runWithLogs w h' ctx img vol c net r).1.stderr = payloads .stderr fs) ∧
    (∀ res, (RunTests w h repoURL startCommit finalPatch image cmd).res = some res →
      ∃ pre post,
        (RunTests w h repoURL startCommit finalPatch image cmd).events =
          pre ++ (runWithLogs w (h ++ pre) .phase image (workspaceName w h image)
            (testCmd cmd) false (some testLimits)).2 ++ post ∧
        res.Stdout = (runWithLogs w (h ++ pre) .phase image (workspaceName w h image)
            (testCmd cmd) false (some testLimits)).1.stdout ∧
        res.Stderr = (runWithLogs w (h ++ pre) .phase image (workspaceName w h image)
            (testCmd cmd) false (some testLimits)).1.stderr) ∧
    (∀ (fs : List (StreamTag × List Byte)) (pre post : List Event) (c' : Ctx) (cid : GoString)
      (a b : Bool), WellFormed fs →
      (RunTests w h repoURL startCommit finalPatch image cmd).events =
        pre ++ (runWithLogs w (h ++ pre) .phase image (workspaceName w h image)
          (testCmd cmd) false (some testLimits)).2 ++ post →
      Event.containerLogs c' cid a b (.stream (encodeFrames fs)) ∈
        (runWithLogs w (h ++ pre) .phase image (workspaceName w h image)
          (testCmd cmd) false (some testLimits)).2 →
      (RunTests w h repoURL startCommit finalPatch image cmd).res =
        some { OK := decide ((runWithLogs w (h ++ pre) .phase image (workspaceName w h image)
                 (testCmd cmd) false (some testLimits)).1.exitCode = 0)
               Stdout := payloads .stdout fs
               Stderr := payloads .stderr fs
               ExitCode := (runWithLogs w (h ++ pre) .phase image (workspaceName w h image)
                 (testCmd cmd) false (some testLimits)).1.exitCode } ∧
      (RunTests w h repoURL startCommit finalPatch image cmd).err = none) := by
  refine ⟨StdCopy_frames, ?_, ?_, ?_⟩
  · intro h' ctx img vol c net r fs c' cid a b hwf hx
    obtain ⟨h1, h2, _⟩ := runWithLogs_logs_event hx
    rw [h1, h2, StdCopy_frames fs hwf]
    simp
  · intro res hres
    obtain ⟨_, hr, _, hev⟩ := RunTests_reached hres
    refine ⟨_, _, hev, ?_, ?_⟩
    · rw [hr]; rfl
    · rw [hr]; rfl
  · intro fs pre post c' cid a b hwf hev hx
    obtain ⟨h1, h2, h3⟩ := runWithLogs_logs_event hx
    obtain ⟨hres, herr⟩ := RunTests_of_test_call hev
    rw [StdCopy_frames fs hwf] at h1 h2
    simp only [Bool.false_eq_true, if_false] at h1
    refine ⟨?_, by rw [herr, h3]; rfl⟩
    rw [hres]
    simp [assemble, h1, h2, h3]

/-- Witness for C14, on an engine whose test container writes `out` and `more`
to stdout and `err` to stderr.  The call of `runWithLogs` returns `outmore`
and `err`; and in a whole run of `RunTests` the test phase comes after the
first ten events, its logs request is answered with the three frames, and the
run returns the result `{OK: true, Stdout: "outmore", Stderr: "err",
ExitCode: 0}`. -/
theorem RunTests_log_separation_witness :
    WellFormed [(StreamTag.stdout, str "out"), (.stderr, str "err"), (.stdout, str "more")] ∧
    (runWithLogs twoStreams [] .phase (str "img") (str "v") [str "sh"] false none).1.stdout =
      str "outmore" ∧
    (runWithLogs twoStreams [] .phase (str "img") (str "v") [str "sh"] false none).1.stderr =
      str "err" ∧
    (RunTests twoStreams [] (str "u") (str "HEAD") [] (str "img") (str "go test")).events =
      (RunTests twoStreams [] (str "u") (str "HEAD") [] (str "img") (str "go test")).events.take 10 ++
      (runWithLogs twoStreams ([] ++ (RunTests twoStreams [] (str "u") (str "HEAD") []
          (str "img") (str "go test")).events.take 10) .phase (str "img")
        (workspaceName twoStreams [] (str "img")) (testCmd (str "go test")) false
        (some testLimits)).2 ++
      (RunTests twoStreams [] (str "u") (str "HEAD") [] (str "img") (str "go test")).events.drop 16 ∧
    Event.containerLogs .phase (str "10") true true
        (.stream (encodeFrames [(StreamTag.stdout, str "out"), (.stderr, str "err"),
          (.stdout, str "more")])) ∈
      (runWithLogs twoStreams ([] ++ (RunTests twoStreams [] (str "u") (str "HEAD") []
          (str "img") (str "go test")).events.take 10) .phase (str "img")
        (workspaceName twoStreams [] (str "img")) (testCmd (str "go test")) false
        (some testLimits)).2 ∧
    (RunTests twoStreams [] (str "u") (str "HEAD") [] (str "img") (str "go test")).res =
      some ⟨true, str "outmore", str "err", 0⟩ ∧
    (RunTests twoStreams [] (str "u") (str "HEAD") [] (str "img") (str "go test")).err = none :=
  have hwf : WellFormed [(StreamTag.stdout, str "out"), (.stderr, str "err"),
      (.stdout, str "more")] := by
    intro f hf
    simp only [List.mem_cons, List.mem_singleton, List.not_mem_nil, or_false] at hf
    rcases hf with hf | hf | hf <;> subst hf <;> decide
  have hr := (RunTests_log_separation twoStreams [] (str "u") (str "HEAD") [] (str "img")
    (str "go test")).2.1 [] .phase (str "img") (str "v") [str "sh"] false none
    [(StreamTag.stdout, str "out"), (.stderr, str "err"), (.stdout, str "more")]
    .phase (str "0") true true hwf (by decide)
  have hev : (RunTests twoStreams [] (str "u") (str "HEAD") [] (str "img")
      (str "go test")).events =
      (RunTests twoStreams [] (str "u") (str "HEAD") [] (str "img") (str "go test")).events.take 10 ++
      (runWithLogs twoStreams ([] ++ (RunTests twoStreams [] (str "u") (str "HEAD") []
          (str "img") (str "go test")).events.take 10) .phase (str "img")
        (workspaceName twoStreams [] (str "img")) (testCmd (str "go test")) false
        (some testLimits)).2 ++
      (RunTests twoStreams [] (str "u") (str "HEAD") [] (str "img") (str "go test")).events.drop 16 := by
    decide
  have hx : Event.containerLogs .phase (str "10") true true
        (.stream (encodeFrames [(StreamTag.stdout, str "out"), (.stderr, str "err"),
          (.stdout, str "more")])) ∈
      (runWithLogs twoStreams ([] ++ (RunTests twoStreams [] (str "u") (str "HEAD") []
          (str "img") (str "go test")).events.take 10) .phase (str "img")
        (workspaceName twoStreams [] (str "img")) (testCmd (str "go test")) false
        (some testLimits)).2 := by
    decide
  have hrun := (RunTests_log_separation twoStreams [] (str "u") (str "HEAD") [] (str "img")
    (str "go test")).2.2.2
    [(StreamTag.stdout, str "out"), (.stderr, str "err"), (.stdout, str "more")]
    ((RunTests twoStreams [] (str "u") (str "HEAD") [] (str "img") (str "go test")).events.take 10)
    ((RunTests twoStreams [] (str "u") (str "HEAD") [] (str "img") (str "go test")).events.drop 16)
    .phase (str "10") true true hwf hev hx
  ⟨hwf, hr.1.trans (by decide), hr.2.trans (by decide), hev, hx, hrun.1.trans (by decide),
    hrun.2⟩

/-! ## Failure of a stage before the test phase -/

/-- If the stages in front of `s` in the plan ran without error and `s`,
which is not the test phase, fails, `RunTests` returns no result and the
error of `s` behind the text of that stage. -/
theorem RunTests_stage_fails {w : World} {h : List Event}
    {repoURL startCommit finalPatch image cmd : GoString} {l₁ l₂ : List Stage} {s : Stage}
    {err : GoError}
    (hl : plan startCommit finalPatch = l₁ ++ s :: l₂)
    (hnone : (runStages (stageCall w (workspaceName w h image) repoURL startCommit finalPatch
      image cmd) l₁ h).1 = none)
    (hfail : (stageCall w (workspaceName w h image) repoURL startCommit finalPatch image cmd s
      (h ++ (runStages (stageCall w (workspaceName w h image) repoURL startCommit finalPatch
        image cmd) l₁ h).2)).1 = some err)
    (hs : s ≠ .test) :
    (RunTests w h repoURL startCommit finalPatch image cmd).res = none ∧
    (RunTests w h repoURL startCommit finalPatch image cmd).err =
      some (wrapErr (stagePrefix w startCommit image s) err) := by
  obtain ⟨herr, _, hres⟩ := RunTests_refines w h repoURL startCommit finalPatch image cmd
  have hrun : (runStages (stageCall w (workspaceName w h image) repoURL startCommit finalPatch
      image cmd) (plan startCommit finalPatch) h).1 = some (s, err) := by
    rw [hl, runStages_append, hnone]
    simp only [runStages_cons_some _ hfail]
  refine ⟨?_, by rw [herr, hrun]; rfl⟩
  rw [hres, resultAfter]
  cases hf : (runStages (stageCall w (workspaceName w h image) repoURL startCommit
      finalPatch image cmd) (setupPlan startCommit finalPatch) h).1 with
  | some f => rfl
  | none =>
    exfalso
    have hplan := runStages_append (stageCall w (workspaceName w h image) repoURL startCommit
      finalPatch image cmd) (setupPlan startCommit finalPatch) [.test] h
    simp only [hf, runStages_test] at hplan
    rw [← plan] at hplan
    have h1 := congrArg Prod.fst hplan
    rw [hrun] at h1
    simp only at h1
    cases hto : (testOut w (workspaceName w h image) image cmd (h ++ (runStages (stageCall w
      (workspaceName w h image) repoURL startCommit finalPatch image cmd)
      (setupPlan startCommit finalPatch) h).2)).err with
    | none => rw [hto] at h1; cases h1
    | some e' =>
      rw [hto] at h1
      simp only [Option.map_some', Option.some.injEq, Prod.mk.injEq] at h1
      exact hs h1.1

theorem stageOp_eq_imagePull {vol repoURL startCommit image cmd : GoString} {s : Stage}
    {ctx : Ctx} {ref : GoString}
    (hs : stageOp vol repoURL startCommit image cmd s = some (.imagePull ctx ref)) :
    s = .pullTest ∨ s = .pullGit := by
  cases s <;> simp only [stageOp, Option.some.injEq, reduceCtorEq] at hs
  · exact Or.inl rfl
  · exact Or.inr rfl

/-- C15 as stated fails: on an engine whose pulls start normally but whose
progress streams deliver two bytes and then end with a read error, the copy of
the stream reads the two bytes and ends with that error, `pullIfNeeded`
returns nil all the same, and `RunTests` goes on to run the tests and returns
a result with a nil error. -/
theorem pull_drain_error_counterexample :
    pullDrainFails.imagePull [] .phase (imageRef (str "img")) =
      .stream (str "{}") (some boom) ∧
    (pullIfNeededRun pullDrainFails [] .phase (str "img")).copied = some (2, some boom) ∧
    (pullIfNeeded pullDrainFails [] .phase (str "img")).1 = none ∧
    (RunTests pullDrainFails [] (str "u") (str "HEAD") [] (str "img") (str "go test")).res =
      some ⟨true, [], [], 0⟩ ∧
    (RunTests pullDrainFails [] (str "u") (str "HEAD") [] (str "img") (str "go test")).err =
      none := by
  decide

/-- C15, amended.  (1) When the start of the pull fails, `pullIfNeeded`
returns the underlying error and never reads a stream.  (2) When the pull has
started, `pullIfNeeded` copies the progress stream to its end (all the bytes
it delivers, up to end of file or to a read error), drops the result of the
copy, read error included, and returns nil.  (3) So it returns nil only after
the progress stream has been read to its end.  (4) It makes exactly one engine
call.  (5) When the events of a run show a pull whose start failed, `RunTests`
returns no result and that error, behind the text of the pull stage. -/
theorem pullIfNeeded_errors (w : World) (h : List Event)
    (repoURL startCommit finalPatch image cmd : GoString) :
    (∀ (h' : List Event) (ctx : Ctx) (img : GoString),
      (∀ e, w.imagePull h' ctx (imageRef img) = .failed e →
        (pullIfNeeded w h' ctx img).1 = some e ∧
        (pullIfNeededRun w h' ctx img).copied = none) ∧
      (∀ data readErr, w.imagePull h' ctx (imageRef img) = .stream data readErr →
        (pullIfNeeded w h' ctx img).1 = none ∧
        (pullIfNeededRun w h' ctx img).copied = some ((data.length : Int), readErr)) ∧
      ((pullIfNeeded w h' ctx img).1 = none →
        ∃ data readErr, w.imagePull h' ctx (imageRef img) = .stream data readErr ∧
          (pullIfNeededRun w h' ctx img).copied = some ((data.length : Int), readErr)) ∧
      (pullIfNeeded w h' ctx img).2 =
        [Event.imagePull ctx (imageRef img) (w.imagePull h' ctx (imageRef img))]) ∧
    (∀ ctx ref e, Event.imagePull ctx ref (.failed e) ∈
        (RunTests w h repoURL startCommit finalPatch image cmd).events →
      (RunTests w h repoURL startCommit finalPatch image cmd).res = none ∧
      ((RunTests w h repoURL startCommit finalPatch image cmd).err =
          some (wrapErr (str "pull test image " ++ image ++ str ": ") e) ∨
       (RunTests w h repoURL startCommit finalPatch image cmd).err =
          some (wrapErr (str "pull " ++ gitImage ++ str ": ") e))) := by
  refine ⟨?_, ?_⟩
  · intro h' ctx img
    refine ⟨?_, ?_, ?_, pullIfNeeded_snd w h' ctx img⟩
    · intro e he
      simp [pullIfNeeded, pullIfNeededRun, he]
    · intro data readErr hd
      simp [pullIfNeeded, pullIfNeededRun, hd, ioCopyDiscard]
    · intro hnil
      cases hr : w.imagePull h' ctx (imageRef img) with
      | failed e => simp [pullIfNeeded, pullIfNeededRun, hr] at hnil
      | stream data readErr =>
        exact ⟨data, readErr, rfl, by simp [pullIfNeededRun, hr, ioCopyDiscard]⟩
  · intro ctx ref e hmem
    obtain ⟨pre, post, hev⟩ := List.append_of_mem hmem
    obtain ⟨l₁, s, l₂, hl, hsop, hnone, hpre, tail, htail⟩ :=
      @RunTests_locate _ _ _ _ _ _ _ _ _ _ (Op.imagePull ctx ref) hev rfl
    rcases stageOp_eq_imagePull hsop with hs | hs
    · subst hs
      simp only [stageCall, pullIfNeeded_snd, List.cons.injEq, Event.imagePull.injEq] at htail
      have hfail : (stageCall w (workspaceName w h image) repoURL startCommit finalPatch image
          cmd .pullTest (h ++ (runStages (stageCall w (workspaceName w h image) repoURL
            startCommit finalPatch image cmd) l₁ h).2)).1 = some e := by
        rw [hpre]
        simp [stageCall, pullIfNeeded, pullIfNeededRun, htail.1.2.2]
      obtain ⟨h1, h2⟩ := RunTests_stage_fails hl hnone hfail (by decide)
      exact ⟨h1, Or.inl h2⟩
    · subst hs
      simp only [stageCall, pullIfNeeded_snd, List.cons.injEq, Event.imagePull.injEq] at htail
      have hfail : (stageCall w (workspaceName w h image) repoURL startCommit finalPatch image
          cmd .pullGit (h ++ (runStages (stageCall w (workspaceName w h image) repoURL
            startCommit finalPatch image cmd) l₁ h).2)).1 = some e := by
        rw [hpre]
        simp [stageCall, pullIfNeeded, pullIfNeededRun, htail.1.2.2]
      obtain ⟨h1, h2⟩ := RunTests_stage_fails hl hnone hfail (by decide)
      exact ⟨h1, Or.inr h2⟩

/-- Witness for the amended C15.  On an engine on which no pull can be
started, the failed pull is in the events and the run returns no result; on an
engine whose progress streams deliver two bytes and end with a read error,
`pullIfNeeded` returns nil after the copy has read both bytes and met the
error. -/
theorem pullIfNeeded_errors_witness :
    (Event.imagePull .phase (str "docker.io/library/img:latest") (.failed boom) ∈
      (RunTests pullFails [] (str "u") (str "HEAD") [] (str "img") (str "go test")).events ∧
     (RunTests pullFails [] (str "u") (str "HEAD") [] (str "img") (str "go test")).res = none) ∧
    (pullDrainFails.imagePull [] .phase (imageRef (str "img")) =
        .stream (str "{}") (some boom) ∧
     (pullIfNeeded pullDrainFails [] .phase (str "img")).1 = none ∧
     (pullIfNeededRun pullDrainFails [] .phase (str "img")).copied =
        some (((str "{}").length : Int), some boom)) :=
  have hm : Event.imagePull .phase (str "docker.io/library/img:latest") (.failed boom) ∈
      (RunTests pullFails [] (str "u") (str "HEAD") [] (str "img") (str "go test")).events := by
    decide
  have hs : pullDrainFails.imagePull [] .phase (imageRef (str "img")) =
      .stream (str "{}") (some boom) := by decide
  have hr := ((pullIfNeeded_errors pullDrainFails [] (str "u") (str "HEAD") [] (str "img")
    (str "go test")).1 [] .phase (str "img")).2.1 (str "{}") (some boom) hs
  ⟨⟨hm, ((pullIfNeeded_errors pullFails [] (str "u") (str "HEAD") [] (str "img")
    (str "go test")).2 _ _ _ hm).1⟩, hs, hr.1, hr.2⟩

/-! ## What the error of a failed phase carries -/

/-- The error `runOneShotNet` (clone, checkout) returns for a non-zero exit
carries the exit code and the captured stdout and stderr. -/
theorem runOneShotNet_exit_error {w : World} {h : List Event} {ctx : Ctx}
    {image volName : GoString} {cmd : List GoString} {res : Option Resources} {net : Bool}
    (herr : (runWithLogs w h ctx image volName cmd net res).1.err = none)
    (hcode : (runWithLogs w h ctx image volName cmd net res).1.exitCode ≠ 0) :
    (runOneShotNet w h ctx image volName cmd true res net).1 =
      some (newErr (Join cmd (str " ") ++ str " exit code=" ++
        fmtInt (runWithLogs w h ctx image volName cmd net res).1.exitCode ++
        str "\nstdout:\n" ++ (runWithLogs w h ctx image volName cmd net res).1.stdout ++
        str "\nstderr:\n" ++ (runWithLogs w h ctx image volName cmd net res).1.stderr)) := by
  simp [runOneShotNet, herr, hcode]

/-- The error `runOneShot` (patch apply) returns for a non-zero exit carries
the exit code only: it is the same whatever the container wrote. -/
theorem runOneShot_exit_error {w : World} {h : List Event} {ctx : Ctx}
    {image volName : GoString} {cmd : List GoString} {res : Option Resources}
    (herr : (runWithLogs w h ctx image volName cmd false res).1.err = none)
    (hcode : (runWithLogs w h ctx image volName cmd false res).1.exitCode ≠ 0) :
    (runOneShot w h ctx image volName cmd true res).1 =
      some (newErr (Join cmd (str " ") ++ str " exit code=" ++
        fmtInt (runWithLogs w h ctx image volName cmd false res).1.exitCode)) := by
  simp [runOneShot, herr, hcode]

/-- C13 at a run whose patch does not apply.  The patch-apply container is
run after the first 15 events; it writes `checking` to stdout and
`patch failed` to stderr and exits with status 1, and `runWithLogs` captures
all three.  `RunTests` returns no result and the error
`git apply: -C /repo apply patch.diff exit code=1`, which holds the exit code
but neither the captured stdout nor the captured stderr. -/
theorem apply_error_omits_logs :
    (runWithLogs applyFailsLoud
      ((RunTests applyFailsLoud [] (str "u") (str "HEAD") (str "diff") (str "img")
        (str "go test")).events.take 15)
      .phase (str "alpine/git:latest") (str "qa-runner-42") applyCmd false none).1 =
      ⟨str "checking", str "patch failed", 1, none⟩ ∧
    (RunTests applyFailsLoud [] (str "u") (str "HEAD") (str "diff") (str "img")
        (str "go test")).events =
      (RunTests applyFailsLoud [] (str "u") (str "HEAD") (str "diff") (str "img")
        (str "go test")).events.take 15 ++
      (runWithLogs applyFailsLoud
        ((RunTests applyFailsLoud [] (str "u") (str "HEAD") (str "diff") (str "img")
          (str "go test")).events.take 15)
        .phase (str "alpine/git:latest") (str "qa-runner-42") applyCmd false none).2 ++
      (RunTests applyFailsLoud [] (str "u") (str "HEAD") (str "diff") (str "img")
        (str "go test")).events.drop 21 ∧
    (RunTests applyFailsLoud [] (str "u") (str "HEAD") (str "diff") (str "img")
        (str "go test")).res = none ∧
    (RunTests applyFailsLoud [] (str "u") (str "HEAD") (str "diff") (str "img")
        (str "go test")).err.map GoError.Error =
      some (str "git apply: -C /repo apply patch.diff exit code=1") ∧
    ¬ (str "checking" <:+: str "git apply: -C /repo apply patch.diff exit code=1") ∧
    ¬ (str "patch failed" <:+: str "git apply: -C /repo apply patch.diff exit code=1") := by
  decide

/-! ## Workspace names -/

theorem digitChar_toNat : ∀ d, d < 10 → (Nat.digitChar d).toNat = 48 + d := by
  decide

theorem encodeRune_digit (d : Nat) (hd : d < 10) :
    encodeRune (Nat.digitChar d).toNat = [byte (48 + d)] := by
  rw [digitChar_toNat d hd]
  unfold encodeRune
  rw [if_pos (by omega)]

theorem byte_digit_val (d : Nat) (hd : d < 10) : (byte (48 + d)).val = 48 + d := by
  simp only [byte]
  omega

/-- Reading back the digits written by `Nat.toDigitsCore`. -/
theorem parse_toDigitsCore (fuel : Nat) :
    ∀ (n : Nat) (ds : List Char), n < fuel →
      List.foldl (fun acc (b : Byte) => acc * 10 + (b.val - 48)) 0
        ((Nat.toDigitsCore 10 fuel n ds).flatMap (fun c => encodeRune c.toNat)) =
      List.foldl (fun acc (b : Byte) => acc * 10 + (b.val - 48)) n
        (ds.flatMap (fun c => encodeRune c.toNat)) := by
  induction fuel with
  | zero => intro n ds hn; omega
  | succ fuel ih =>
    intro n ds hn
    have hd : n % 10 < 10 := Nat.mod_lt _ (by decide)
    unfold Nat.toDigitsCore
    by_cases h0 : n / 10 = 0
    · simp only [h0, if_true, List.flatMap_cons, encodeRune_digit _ hd, List.singleton_append,
        List.foldl_cons, byte_digit_val _ hd]
      congr 1
      omega
    · simp only [h0, if_false]
      rw [ih (n / 10) _ (by omega)]
      simp only [List.flatMap_cons, encodeRune_digit _ hd, List.singleton_append,
        List.foldl_cons, byte_digit_val _ hd]
      congr 1
      omega

/-- Every byte written by `Nat.toDigitsCore` is a digit, hence not a minus
sign. -/
theorem toDigitsCore_bytes (fuel : Nat) :
    ∀ (n : Nat) (ds : List Char),
      (∀ b ∈ ds.flatMap (fun c => encodeRune c.toNat), 48 ≤ b.val) →
      ∀ b ∈ (Nat.toDigitsCore 10 fuel n ds).flatMap (fun c => encodeRune c.toNat),
        48 ≤ b.val := by
  induction fuel with
  | zero => intro n ds hds; simpa [Nat.toDigitsCore] using hds
  | succ fuel ih =>
    intro n ds hds
    have hd : n % 10 < 10 := Nat.mod_lt _ (by decide)
    have hcons : ∀ b ∈ (Nat.digitChar (n % 10) :: ds).flatMap (fun c => encodeRune c.toNat),
        48 ≤ b.val := by
      intro b hb
      simp only [List.flatMap_cons, encodeRune_digit _ hd, List.singleton_append,
        List.mem_cons] at hb
      rcases hb with hb | hb
      · rw [hb, byte_digit_val _ hd]; omega
      · exact hds b hb
    unfold Nat.toDigitsCore
    by_cases h0 : n / 10 = 0
    · simpa only [h0, if_true] using hcons
    · simp only [h0, if_false]
      exact ih _ _ hcons

theorem str_natRepr (n : Nat) :
    str (Nat.repr n) = (Nat.toDigitsCore 10 (n + 1) n []).flatMap (fun c => encodeRune c.toNat) := by
  simp [str, Nat.repr, Nat.toDigits, List.asString]

theorem parseNat_natRepr (n : Nat) : parseNat (str (Nat.repr n)) = n := by
  rw [str_natRepr, parseNat, parse_toDigitsCore (n + 1) n [] (by omega)]
  simp

theorem natRepr_bytes (n : Nat) : ∀ b ∈ str (Nat.repr n), 48 ≤ b.val := by
  rw [str_natRepr]
  exact toDigitsCore_bytes (n + 1) n [] (by simp)

theorem fmtInt_ofNat (n : Nat) : fmtInt (Int.ofNat n) = str (Nat.repr n) := rfl

theorem fmtInt_negSucc (m : Nat) : fmtInt (Int.negSucc m) = 45 :: str (Nat.repr (m + 1)) := by
  show str ("-" ++ Nat.repr (m + 1)) = _
  simp only [str, String.toList, String.data_append, List.flatMap_append]
  rfl

/-- Reading back what `fmtInt` wrote. -/
theorem parseInt_fmtInt (n : Int) : parseInt (fmtInt n) = n := by
  cases n with
  | ofNat k =>
    rw [fmtInt_ofNat]
    have hb := natRepr_bytes k
    have hp := parseNat_natRepr k
    cases hs : str (Nat.repr k) with
    | nil =>
      rw [hs] at hp
      simp only [parseNat, List.foldl_nil] at hp
      simp [parseInt, ← hp]
    | cons b rest =>
      rw [hs] at hp hb
      have h48 : 48 ≤ b.val := hb b (List.mem_cons_self _ _)
      have hne : ¬ (b.val = 45) := by omega
      simp only [parseInt, hne, if_false, hp]
      rfl
  | negSucc m =>
    rw [fmtInt_negSucc]
    have h45 : ((45 : Byte)).val = 45 := rfl
    simp only [parseInt, h45, if_true, parseNat_natRepr]
    rfl

/-- The decimal rendering of an integer determines it. -/
theorem fmtInt_injective {a b : Int} (hab : fmtInt a = fmtInt b) : a = b := by
  rw [← parseInt_fmtInt a, ← parseInt_fmtInt b, hab]

theorem workspaceName_eq (w : World) (h : List Event) (image : GoString) :
    workspaceName w h image = str "qa-runner-" ++ fmtInt (volumeClock w h image) := rfl

/-- Every volume creation in the events of a run is that of the workspace
volume, named after the clock reading of the run. -/
theorem RunTests_volumeCreate_name {w : World} {h : List Event}
    {repoURL startCommit finalPatch image cmd : GoString} {ctx : Ctx} {name : GoString}
    {r : Option GoError}
    (hx : Event.volumeCreate ctx name r ∈
      (RunTests w h repoURL startCommit finalPatch image cmd).events) :
    name = str "qa-runner-" ++ fmtInt (volumeClock w h image) := by
  obtain ⟨pre, post, hev⟩ := List.append_of_mem hx
  obtain ⟨_, s, _, _, hsop, _⟩ :=
    @RunTests_locate _ _ _ _ _ _ _ _ _ _ (Op.volumeCreate ctx name) hev rfl
  cases s <;> simp only [stageOp, Option.some.injEq, Op.volumeCreate.injEq, reduceCtorEq] at hsop
  rw [← hsop.2, workspaceName_eq]

/-- C19 as stated fails: two runs that read the same clock value (here 42, on
an engine whose clock does not advance between them; the second run starts
when another ping has been recorded) create volumes of the same name. -/
theorem same_clock_counterexample :
    ([] : List Event) ≠ [Event.ping .caller none] ∧
    Event.volumeCreate .phase (str "qa-runner-42") none ∈
      (RunTests allGood [] (str "u") (str "HEAD") [] (str "img") (str "go test")).events ∧
    Event.volumeCreate .phase (str "qa-runner-42") none ∈
      (RunTests allGood [Event.ping .caller none] (str "u") (str "HEAD") [] (str "img")
        (str "go test")).events := by
  decide

/-- C19, amended.  The volume a run creates is named `qa-runner-` followed by
the decimal clock reading of that run, and the names of the volumes created by
two runs are equal exactly when the two runs read the same clock value: runs
with different readings get different names. -/
theorem workspace_names (w₁ w₂ : World) (h₁ h₂ : List Event)
    (repoURL₁ startCommit₁ finalPatch₁ image₁ cmd₁ : GoString)
    (repoURL₂ startCommit₂ finalPatch₂ image₂ cmd₂ : GoString)
    (ctx₁ ctx₂ : Ctx) (name₁ name₂ : GoString) (r₁ r₂ : Option GoError)
    (hx₁ : Event.volumeCreate ctx₁ name₁ r₁ ∈
      (RunTests w₁ h₁ repoURL₁ startCommit₁ finalPatch₁ image₁ cmd₁).events)
    (hx₂ : Event.volumeCreate ctx₂ name₂ r₂ ∈
      (RunTests w₂ h₂ repoURL₂ startCommit₂ finalPatch₂ image₂ cmd₂).events) :
    name₁ = str "qa-runner-" ++ fmtInt (volumeClock w₁ h₁ image₁) ∧
    name₂ = str "qa-runner-" ++ fmtInt (volumeClock w₂ h₂ image₂) ∧
    (name₁ = name₂ ↔ volumeClock w₁ h₁ image₁ = volumeClock w₂ h₂ image₂) := by
  have e₁ := RunTests_volumeCreate_name hx₁
  have e₂ := RunTests_volumeCreate_name hx₂
  refine ⟨e₁, e₂, ?_⟩
  rw [e₁, e₂]
  constructor
  · intro hn
    exact fmtInt_injective (List.append_cancel_left hn)
  · intro hc
    rw [hc]

/-- Witness for the amended C19: a run that reads the clock value 42 and one
that reads 43 create the volumes `qa-runner-42` and `qa-runner-43`. -/
theorem workspace_names_witness :
    Event.volumeCreate .phase (str "qa-runner-42") none ∈
      (RunTests allGood [] (str "u") (str "HEAD") [] (str "img") (str "go test")).events ∧
    Event.volumeCreate .phase (str "qa-runner-43") none ∈
      (RunTests laterClock [] (str "u") (str "HEAD") [] (str "img") (str "go test")).events ∧
    (str "qa-runner-42" = str "qa-runner-43" ↔
      volumeClock allGood [] (str "img") = volumeClock laterClock [] (str "img")) :=
  have h1 : Event.volumeCreate .phase (str "qa-runner-42") none ∈
      (RunTests allGood [] (str "u") (str "HEAD") [] (str "img") (str "go test")).events := by
    decide
  have h2 : Event.volumeCreate .phase (str "qa-runner-43") none ∈
      (RunTests laterClock [] (str "u") (str "HEAD") [] (str "img") (str "go test")).events := by
    decide
  ⟨h1, h2, (workspace_names allGood laterClock [] [] (str "u") (str "HEAD") [] (str "img")
    (str "go test") (str "u") (str "HEAD") [] (str "img") (str "go test") .phase .phase
    (str "qa-runner-42") (str "qa-runner-43") none none h1 h2).2.2⟩

/-! ## The worker: collecting the events of a trace -/

theorem appendObjects_eq (evs : List JSON) :
    ∀ events : List Obj, appendObjects evs events =
      events ++ evs.filterMap (fun e => match e with
        | .object em => some em
        | _ => none) := by
  induction evs with
  | nil => intro events; simp [appendObjects]
  | cons e rest ih =>
    intro events
    cases e <;> simp [appendObjects, ih]

theorem collectEvents_ok (sv : Server) (refs : List GoString) :
    ∀ (h : List WEvent) (acc evs : List Obj), (collectEvents sv h refs acc).1 = .ok evs →
      evs = acc ++ (fetchedDocs (collectEvents sv h refs acc).2).flatMap objectEvents ∧
      fetchedRefs (collectEvents sv h refs acc).2 = refs := by
  induction refs with
  | nil =>
    intro h acc evs hok
    simp only [collectEvents, Except.ok.injEq] at hok
    simp [collectEvents, fetchedDocs, fetchedRefs, hok]
  | cons ref rest ih =>
    intro h acc evs hok
    unfold collectEvents at hok ⊢
    cases hd : sv.getJSON h ref with
    | error e => simp [hd] at hok
    | ok doc =>
      simp only [hd] at hok ⊢
      cases hl : doc.lookup (str "events") with
      | none =>
        simp only [hl] at hok ⊢
        obtain ⟨h1, h2⟩ := ih _ _ _ hok
        refine ⟨?_, ?_⟩
        · rw [h1]
          simp [fetchedDocs, objectEvents, hl]
        · simpa [fetchedRefs] using h2
      | some v =>
        cases v with
        | array evsAny =>
          simp only [hl] at hok ⊢
          obtain ⟨h1, h2⟩ := ih _ _ _ hok
          refine ⟨?_, ?_⟩
          · rw [h1, appendObjects_eq]
            simp [fetchedDocs, objectEvents, hl]
          · simpa [fetchedRefs] using h2
        | _ =>
          simp only [hl] at hok ⊢
          obtain ⟨h1, h2⟩ := ih _ _ _ hok
          refine ⟨?_, ?_⟩
          · rw [h1]
            simp [fetchedDocs, objectEvents, hl]
          · simpa [fetchedRefs] using h2

theorem collectEvents_error (sv : Server) (refs : List GoString) :
    ∀ (h : List WEvent) (acc : List Obj) (e : GoError),
      (collectEvents sv h refs acc).1 = .error e →
      ∃ ref, WEvent.getJSON ref (.error e) ∈ (collectEvents sv h refs acc).2 := by
  induction refs with
  | nil =>
    intro h acc e herr
    simp [collectEvents] at herr
  | cons ref rest ih =>
    intro h acc e herr
    unfold collectEvents at herr ⊢
    cases hd : sv.getJSON h ref with
    | error e0 =>
      simp only [hd, Except.error.injEq] at herr ⊢
      exact ⟨ref, by simp [herr]⟩
    | ok doc =>
      simp only [hd] at herr ⊢
      cases hl : doc.lookup (str "events") with
      | none =>
        simp only [hl] at herr ⊢
        obtain ⟨r, hr⟩ := ih _ _ _ herr
        exact ⟨r, List.mem_append_right _ hr⟩
      | some v =>
        cases v <;> simp only [hl] at herr ⊢ <;>
        · obtain ⟨r, hr⟩ := ih _ _ _ herr
          exact ⟨r, List.mem_append_right _ hr⟩

theorem collectEvents_events (sv : Server) (refs : List GoString) :
    ∀ (h : List WEvent) (acc : List Obj), ∀ x ∈ (collectEvents sv h refs acc).2,
      ∃ ref d, x = WEvent.getJSON ref d := by
  induction refs with
  | nil => intro h acc x hx; simp [collectEvents] at hx
  | cons ref rest ih =>
    intro h acc x hx
    unfold collectEvents at hx
    cases hd : sv.getJSON h ref with
    | error e0 =>
      simp only [hd, List.mem_singleton] at hx
      exact ⟨_, _, hx⟩
    | ok doc =>
      simp only [hd] at hx
      cases hl : doc.lookup (str "events") with
      | none =>
        simp only [hl, List.mem_append, List.mem_singleton] at hx
        rcases hx with hx | hx
        · exact ⟨_, _, hx⟩
        · exact ih _ _ x hx
      | some v =>
        cases v <;> simp only [hl, List.mem_append, List.mem_singleton] at hx <;>
        · rcases hx with hx | hx
          · exact ⟨_, _, hx⟩
          · exact ih _ _ x hx

/-- The events of `recordRun`: the call of the runner, then at most one
write. -/
theorem recordRun_events (sv : Server) (h : List WEvent)
    (id repositoryURL startCommit patch testImage testCommand : GoString) :
    ∃ tail, (recordRun sv h id repositoryURL startCommit patch testImage testCommand).events =
      WEvent.runTests repositoryURL startCommit patch testImage testCommand
        (sv.runTests h repositoryURL startCommit patch testImage testCommand).1
        (sv.runTests h repositoryURL startCommit patch testImage testCommand).2 :: tail ∧
      ∀ y ∈ tail, ∀ a b c d e f g, y ≠ WEvent.runTests a b c d e f g := by
  cases h2 : (sv.runTests h repositoryURL startCommit patch testImage testCommand).2 with
  | some err =>
    refine ⟨[WEvent.setQAError id err.Error (sv.setQAError (h ++ [WEvent.runTests repositoryURL
      startCommit patch testImage testCommand
      (sv.runTests h repositoryURL startCommit patch testImage testCommand).1 (some err)]) id
      err.Error)], ?_, ?_⟩
    · simp [recordRun, h2]
    · intro y hy
      simp only [List.mem_singleton] at hy
      subst hy
      intros
      simp
  | none =>
    cases h1 : (sv.runTests h repositoryURL startCommit patch testImage testCommand).1 with
    | none =>
      refine ⟨[], ?_, ?_⟩
      · simp [recordRun, h2, h1]
      · simp
    | some res =>
      refine ⟨[WEvent.setQA (sv.marshal
        { tests := { runner := str "docker", image := testImage, command := testCommand
                     ok := res.OK, stdout := res.Stdout, stderr := res.Stderr
                     exit_code := res.ExitCode }
          judge := Judge (str "(summary)") sv.llmModel }) id (sv.setQA (h ++
          [WEvent.runTests repositoryURL startCommit patch testImage testCommand (some res)
            none]) (sv.marshal
        { tests := { runner := str "docker", image := testImage, command := testCommand
                     ok := res.OK, stdout := res.Stdout, stderr := res.Stderr
                     exit_code := res.ExitCode }
          judge := Judge (str "(summary)") sv.llmModel }) id)], ?_, ?_⟩
      · simp [recordRun, h2, h1]
      · intro y hy
        simp only [List.mem_singleton] at hy
        subst hy
        intros
        simp

/-- When the runner returns an error, `recordRun` writes its text to the
trace and returns nil, whatever the result of the write. -/
theorem recordRun_error {sv : Server} {h : List WEvent}
    {id repositoryURL startCommit patch testImage testCommand : GoString} {err : GoError}
    (h2 : (sv.runTests h repositoryURL startCommit patch testImage testCommand).2 = some err) :
    recordRun sv h id repositoryURL startCommit patch testImage testCommand =
      ⟨.returned none,
        [WEvent.runTests repositoryURL startCommit patch testImage testCommand
          (sv.runTests h repositoryURL startCommit patch testImage testCommand).1 (some err),
         WEvent.setQAError id err.Error (sv.setQAError (h ++ [WEvent.runTests repositoryURL
          startCommit patch testImage testCommand
          (sv.runTests h repositoryURL startCommit patch testImage testCommand).1 (some err)]) id
          err.Error)]⟩ := by
  simp [recordRun, h2]

/-- The shape of a call of `handleQA` whose events show a call of the
runner: the references were selected, all documents fetched, the task read
and decoded; the runner got the patch picked from the collected events; the
events end with those of `recordRun`, which also decides what is returned. -/
theorem handleQA_run {sv : Server} {h : List WEvent} {id : GoString}
    {repo sc p img cmd : GoString} {res : Option TestResult} {err : Option GoError}
    (hx : WEvent.runTests repo sc p img cmd res err ∈ (handleQA sv h id).events) :
    ∃ refs evs pre,
      sv.selectRefs h id = .ok refs ∧
      (collectEvents sv (h ++ [WEvent.selectRefs id (.ok refs)]) refs []).1 = .ok evs ∧
      p = selectPatch evs ∧
      (handleQA sv h id).events = pre ++ (recordRun sv (h ++ pre) id repo sc p img cmd).events ∧
      (handleQA sv h id).ret = (recordRun sv (h ++ pre) id repo sc p img cmd).ret ∧
      (sv.runTests (h ++ pre) repo sc p img cmd) = (res, err) ∧
      (∀ y ∈ pre, y.isSetQA = false) := by
  unfold handleQA at hx ⊢
  cases h0 : sv.selectRefs h id with
  | error e => simp [h0] at hx
  | ok refs =>
    simp only [h0] at hx ⊢
    cases hc : (collectEvents sv (h ++ [WEvent.selectRefs id (.ok refs)]) refs []).1 with
    | error e =>
      simp only [hc, List.mem_append, List.mem_singleton, reduceCtorEq, false_or] at hx
      obtain ⟨_, _, hh⟩ := collectEvents_events sv refs _ _ _ hx
      cases hh
    | ok evs =>
      simp only [hc] at hx ⊢
      have hpre : ∀ y ∈ [WEvent.selectRefs id (.ok refs)] ++
          (collectEvents sv (h ++ [WEvent.selectRefs id (.ok refs)]) refs []).2 ++
          [WEvent.getTask id (sv.getTask (h ++ [WEvent.selectRefs id (.ok refs)] ++
            (collectEvents sv (h ++ [WEvent.selectRefs id (.ok refs)]) refs []).2) id)],
          y.isSetQA = false ∧ ∀ a b c d e f g, y ≠ WEvent.runTests a b c d e f g := by
        intro y hy
        simp only [List.mem_append, List.mem_singleton] at hy
        rcases hy with (hy | hy) | hy
        · subst hy; exact ⟨rfl, by intros; simp⟩
        · obtain ⟨_, _, hh⟩ := collectEvents_events sv refs _ _ _ hy
          subst hh; exact ⟨rfl, by intros; simp⟩
        · subst hy; exact ⟨rfl, by intros; simp⟩
      cases ht : sv.getTask (h ++ [WEvent.selectRefs id (.ok refs)] ++
          (collectEvents sv (h ++ [WEvent.selectRefs id (.ok refs)]) refs []).2) id with
      | error e =>
        rw [ht] at hpre
        simp only [ht] at hx
        exact absurd rfl ((hpre _ hx).2 _ _ _ _ _ _ _)
      | ok bytes =>
        rw [ht] at hpre
        simp only [ht] at hx ⊢
        cases hu : sv.unmarshal bytes with
        | error e =>
          simp only [hu] at hx
          exact absurd rfl ((hpre _ hx).2 _ _ _ _ _ _ _)
        | ok task =>
          simp only [hu] at hx ⊢
          rw [List.mem_append] at hx
          rcases hx with hx | hx
          · exact absurd rfl ((hpre _ hx).2 _ _ _ _ _ _ _)
          · obtain ⟨tail, htail, hcases⟩ := recordRun_events sv
              (h ++ ([WEvent.selectRefs id (.ok refs)] ++
                (collectEvents sv (h ++ [WEvent.selectRefs id (.ok refs)]) refs []).2 ++
                [WEvent.getTask id (.ok bytes)])) id
              ((task.asString (str "repository")).getD [])
              ((task.asString (str "commit")).getD []) (selectPatch evs)
              ((task.asString (str "test_image")).getD (str "golang:1.22"))
              ((task.asString (str "test_command")).getD (str "go test ./..."))
            rw [htail] at hx
            rw [List.mem_cons] at hx
            rcases hx with hx | hx
            · simp only [WEvent.runTests.injEq] at hx
              obtain ⟨e1, e2, e3, e4, e5, e6, e7⟩ := hx
              subst e1 e2 e3 e4 e5
              exact ⟨refs, evs, _, rfl, hc, rfl, rfl, rfl, by rw [e6, e7],
                fun y hy => (hpre y hy).1⟩
            · exact absurd rfl (hcases _ hx _ _ _ _ _ _ _)

/-- An error returned by `recordRun` is the error of the write of the tests
result. -/
theorem recordRun_ret_error {sv : Server} {h : List WEvent}
    {id repositoryURL startCommit patch testImage testCommand : GoString} {e : GoError}
    (hret : (recordRun sv h id repositoryURL startCommit patch testImage testCommand).ret =
      .returned (some e)) :
    ∃ b, WEvent.setQA b id (some e) ∈
      (recordRun sv h id repositoryURL startCommit patch testImage testCommand).events := by
  cases h2 : (sv.runTests h repositoryURL startCommit patch testImage testCommand).2 with
  | some err => simp [recordRun, h2] at hret
  | none =>
    cases h1 : (sv.runTests h repositoryURL startCommit patch testImage testCommand).1 with
    | none => simp [recordRun, h2, h1] at hret
    | some res =>
      simp only [recordRun, h2, h1, Outcome.returned.injEq] at hret ⊢
      refine ⟨sv.marshal
        { tests := { runner := str "docker", image := testImage, command := testCommand
                     ok := res.OK, stdout := res.Stdout, stderr := res.Stderr
                     exit_code := res.ExitCode }
          judge := Judge (str "(summary)") sv.llmModel }, ?_⟩
      rw [← hret]
      simp

/-- Every error `handleQA` returns is the error of a failed call: the
selection of the references, a fetch, the read of the task, its decoding, or
the write of the tests result. -/
theorem handleQA_error_source {sv : Server} {h : List WEvent} {id : GoString} {e : GoError}
    (hret : (handleQA sv h id).ret = .returned (some e)) :
    WEvent.selectRefs id (.error e) ∈ (handleQA sv h id).events ∨
    (∃ ref, WEvent.getJSON ref (.error e) ∈ (handleQA sv h id).events) ∨
    WEvent.getTask id (.error e) ∈ (handleQA sv h id).events ∨
    (∃ bytes, WEvent.getTask id (.ok bytes) ∈ (handleQA sv h id).events ∧
      sv.unmarshal bytes = .error e) ∨
    (∃ b, WEvent.setQA b id (some e) ∈ (handleQA sv h id).events) := by
  unfold handleQA at hret ⊢
  cases h0 : sv.selectRefs h id with
  | error e0 =>
    simp only [h0, Outcome.returned.injEq, Option.some.injEq] at hret ⊢
    subst hret
    exact Or.inl (by simp)
  | ok refs =>
    simp only [h0] at hret ⊢
    cases hc : (collectEvents sv (h ++ [WEvent.selectRefs id (.ok refs)]) refs []).1 with
    | error e0 =>
      simp only [hc, Outcome.returned.injEq, Option.some.injEq] at hret ⊢
      subst hret
      obtain ⟨ref, hr⟩ := collectEvents_error sv refs _ _ _ hc
      exact Or.inr (Or.inl ⟨ref, List.mem_append_right _ hr⟩)
    | ok evs =>
      simp only [hc] at hret ⊢
      cases ht : sv.getTask (h ++ [WEvent.selectRefs id (.ok refs)] ++
          (collectEvents sv (h ++ [WEvent.selectRefs id (.ok refs)]) refs []).2) id with
      | error e0 =>
        simp only [ht, Outcome.returned.injEq, Option.some.injEq] at hret ⊢
        subst hret
        exact Or.inr (Or.inr (Or.inl (by simp)))
      | ok bytes =>
        simp only [ht] at hret ⊢
        cases hu : sv.unmarshal bytes with
        | error e0 =>
          simp only [hu, Outcome.returned.injEq, Option.some.injEq] at hret ⊢
          subst hret
          exact Or.inr (Or.inr (Or.inr (Or.inl ⟨bytes, by simp, hu⟩)))
        | ok task =>
          simp only [hu] at hret ⊢
          refine Or.inr (Or.inr (Or.inr (Or.inr ?_)))
          obtain ⟨b, hb⟩ := recordRun_ret_error hret
          exact ⟨b, List.mem_append_right _ hb⟩

/-- C17.  The loop over the object references: when it ends without error,
every reference has been fetched, in order, and the collected events are the
object-typed elements of the `events` arrays of the fetched documents,
concatenated in that order (a document whose `events` is missing or not an
array, and an element that is not an object, contribute nothing); it ends with
an error only when a fetch failed, with the error of that fetch.  Every error
`handleQA` returns is the error of a failed call to the database, the object
store or the JSON decoder of the task: the shape of a fetched document is
never the cause. -/
theorem collectEvents_spec (sv : Server) (h : List WEvent) (refs : List GoString) :
    (∀ evs, (collectEvents sv h refs []).1 = .ok evs →
      fetchedRefs (collectEvents sv h refs []).2 = refs ∧
      evs = (fetchedDocs (collectEvents sv h refs []).2).flatMap objectEvents) ∧
    (∀ e, (collectEvents sv h refs []).1 = .error e →
      ∃ ref, WEvent.getJSON ref (.error e) ∈ (collectEvents sv h refs []).2) ∧
    ((∀ ref e, WEvent.getJSON ref (.error e) ∉ (collectEvents sv h refs []).2) →
      ∃ evs, (collectEvents sv h refs []).1 = .ok evs) ∧
    (∀ id e, (handleQA sv h id).ret = .returned (some e) →
      WEvent.selectRefs id (.error e) ∈ (handleQA sv h id).events ∨
      (∃ ref, WEvent.getJSON ref (.error e) ∈ (handleQA sv h id).events) ∨
      WEvent.getTask id (.error e) ∈ (handleQA sv h id).events ∨
      (∃ bytes, WEvent.getTask id (.ok bytes) ∈ (handleQA sv h id).events ∧
        sv.unmarshal bytes = .error e) ∨
      (∃ b, WEvent.setQA b id (some e) ∈ (handleQA sv h id).events)) := by
  refine ⟨?_, ?_, ?_, fun id e hret => handleQA_error_source hret⟩
  · intro evs hok
    obtain ⟨h1, h2⟩ := collectEvents_ok sv refs h [] evs hok
    exact ⟨h2, by simpa using h1⟩
  · intro e herr
    exact collectEvents_error sv refs h [] e herr
  · intro hno
    cases hc : (collectEvents sv h refs []).1 with
    | ok evs => exact ⟨evs, rfl⟩
    | error e =>
      obtain ⟨ref, hr⟩ := collectEvents_error sv refs h [] e hc
      exact absurd hr (hno ref e)

/-- Witness for C17: of the two fetched documents, the first holds two
objects and a number in its `events` array and the second has a string under
`events`; the collected events are the two objects, in order. -/
theorem collectEvents_spec_witness :
    (collectEvents twoPatches [] [str "s3://b/1", str "s3://b/2"] []).1 = .ok [patchA, patchB] ∧
    fetchedDocs (collectEvents twoPatches [] [str "s3://b/1", str "s3://b/2"] []).2 =
      [batchDoc, noEventsDoc] ∧
    [patchA, patchB] =
      (fetchedDocs (collectEvents twoPatches [] [str "s3://b/1", str "s3://b/2"] []).2).flatMap
        objectEvents :=
  ⟨rfl, rfl, ((collectEvents_spec twoPatches [] [str "s3://b/1", str "s3://b/2"]).1
    [patchA, patchB] rfl).2⟩

/-! ## The worker: the patch passed to the runner -/

theorem selectPatch_eq_firstPatch (events : List Obj) : selectPatch events = firstPatch events := by
  induction events with
  | nil => rfl
  | cons e rest ih =>
    unfold selectPatch firstPatch
    cases hr : isReplace e with
    | false =>
      have hp : isPatchEvent e = false := by simp [isPatchEvent, hr]
      simp only [Bool.false_eq_true, if_false, List.find?_cons, hp]
      rw [ih]; rfl
    | true =>
      cases hs : e.asString (str "patch_unified") with
      | none =>
        have hp : isPatchEvent e = false := by simp [isPatchEvent, hr, hs]
        simp only [if_true, List.find?_cons, hp]
        rw [ih]; rfl
      | some v =>
        have hp : isPatchEvent e = true := by simp [isPatchEvent, hr, hs]
        simp only [if_true, List.find?_cons, hp, patchOf, hs, Option.getD_some]

/-- C16 at a trace with two patch-type edit events.  The events collected
from the fetched documents are `patchA` then `patchB`, so the most recent
patch is `B`; `handleQA` passes `A`, the patch of the first of them, to the
runner, whose parameter is the final patch. -/
theorem handleQA_passes_first_patch :
    (collectEvents twoPatches [WEvent.selectRefs (str "t1") (.ok [str "s3://b/1", str "s3://b/2"])]
      [str "s3://b/1", str "s3://b/2"] []).1 = .ok [patchA, patchB] ∧
    mostRecentPatch [patchA, patchB] = str "B" ∧
    passedPatch (handleQA twoPatches [] (str "t1")).events = some (str "A") ∧
    str "A" ≠ str "B" :=
  ⟨rfl, by decide, by decide, by decide⟩

/-- What the code does for every trace: the loop that picks the patch returns
the `patch_unified` string of the first collected event whose op is `replace`
and that carries a string `patch_unified`, the empty string when there is
none; and whenever the events of `handleQA` show a call of the runner, the
patch passed is the one picked from the events collected from the fetched
documents. -/
theorem handleQA_patch (sv : Server) (h : List WEvent) (id : GoString) :
    (∀ events, selectPatch events = firstPatch events) ∧
    (∀ repo sc p img cmd res err,
      WEvent.runTests repo sc p img cmd res err ∈ (handleQA sv h id).events →
      ∃ refs evs, sv.selectRefs h id = .ok refs ∧
        (collectEvents sv (h ++ [WEvent.selectRefs id (.ok refs)]) refs []).1 = .ok evs ∧
        p = firstPatch evs) := by
  refine ⟨selectPatch_eq_firstPatch, ?_⟩
  intro repo sc p img cmd res err hx
  obtain ⟨refs, evs, _, h0, hc, hp, _⟩ := handleQA_run hx
  exact ⟨refs, evs, h0, hc, by rw [hp, selectPatch_eq_firstPatch]⟩

/-- On the trace with the events `patchA` then `patchB` the runner is called
with the patch `A`, the first one. -/
theorem handleQA_patch_example :
    WEvent.runTests (str "u") [] (str "A") (str "golang:1.22") (str "go test ./...")
        (some ⟨true, [], [], 0⟩) none ∈ (handleQA twoPatches [] (str "t1")).events ∧
    firstPatch [patchA, patchB] = str "A" ∧
    ∃ refs evs, twoPatches.selectRefs [] (str "t1") = .ok refs ∧
      (collectEvents twoPatches ([] ++ [WEvent.selectRefs (str "t1") (.ok refs)]) refs []).1
        = .ok evs ∧
      str "A" = firstPatch evs :=
  have hm : WEvent.runTests (str "u") [] (str "A") (str "golang:1.22") (str "go test ./...")
      (some ⟨true, [], [], 0⟩) none ∈ (handleQA twoPatches [] (str "t1")).events :=
    List.getElem?_mem (show (handleQA twoPatches [] (str "t1")).events[4]? = some _ from rfl)
  ⟨hm, by decide, (handleQA_patch twoPatches [] (str "t1")).2 _ _ _ _ _ _ _ hm⟩

/-! ## The worker: an error of the runner -/

/-- C18.  Whenever the events of `handleQA` show that the runner returned an
error, `handleQA` returns nil; the call of the runner is followed by exactly
one more call, the write of the error text under the key `error` of the qa
document of the trace, whose answer (success or failure) does not matter; and
no event of the call stores a tests result. -/
theorem handleQA_runner_error (sv : Server) (h : List WEvent) (id : GoString)
    (repo sc p img cmd : GoString) (res : Option TestResult) (err : GoError)
    (hx : WEvent.runTests repo sc p img cmd res (some err) ∈ (handleQA sv h id).events) :
    (handleQA sv h id).ret = .returned none ∧
    (∃ pre, (handleQA sv h id).events =
      pre ++ [WEvent.runTests repo sc p img cmd res (some err),
        WEvent.setQAError id err.Error
          (sv.setQAError (h ++ pre ++ [WEvent.runTests repo sc p img cmd res (some err)]) id
            err.Error)]) ∧
    (∀ y ∈ (handleQA sv h id).events, y.isSetQA = false) := by
  obtain ⟨refs, evs, pre, _, _, _, hev, hret, hrr, hpre⟩ := handleQA_run hx
  have h2 : (sv.runTests (h ++ pre) repo sc p img cmd).2 = some err := by rw [hrr]
  have h1 : (sv.runTests (h ++ pre) repo sc p img cmd).1 = res := by rw [hrr]
  have hrec := @recordRun_error sv (h ++ pre) id repo sc p img cmd err h2
  rw [h1] at hrec
  rw [hrec] at hev hret
  refine ⟨hret, ⟨pre, by rw [hev, List.append_assoc]⟩, ?_⟩
  intro y hy
  rw [hev, List.mem_append] at hy
  rcases hy with hy | hy
  · exact hpre y hy
  · simp only [List.mem_cons, List.mem_singleton, List.not_mem_nil, or_false] at hy
    rcases hy with hy | hy <;> subst hy <;> rfl

/-- Witness for C18: with a runner that returns the error `boom` and a
database that refuses the write of the error, `handleQA` still returns nil
and stores no tests result. -/
theorem handleQA_runner_error_witness :
    WEvent.runTests (str "u") [] (str "A") (str "golang:1.22") (str "go test ./...")
        none (some boom) ∈ (handleQA runnerFails [] (str "t1")).events ∧
    (handleQA runnerFails [] (str "t1")).ret = .returned none ∧
    ∀ y ∈ (handleQA runnerFails [] (str "t1")).events, y.isSetQA = false :=
  have hm : WEvent.runTests (str "u") [] (str "A") (str "golang:1.22") (str "go test ./...")
      none (some boom) ∈ (handleQA runnerFails [] (str "t1")).events :=
    List.getElem?_mem (show (handleQA runnerFails [] (str "t1")).events[4]? = some _ from rfl)
  have hr := handleQA_runner_error runnerFails [] (str "t1") (str "u") [] (str "A")
    (str "golang:1.22") (str "go test ./...") none boom hm
  ⟨hm, hr.1, hr.2.2⟩

/-! ## Object references -/

theorem IndexByte_not_mem (c : Byte) : ∀ s : GoString, c ∉ s → IndexByte s c = -1 := by
  intro s
  induction s with
  | nil => intro _; rfl
  | cons b rest ih =>
    intro hc
    have hb : b ≠ c := fun hbc => hc (by rw [hbc]; exact List.mem_cons_self _ _)
    have hr : c ∉ rest := fun hm => hc (List.mem_cons_of_mem _ hm)
    simp [IndexByte, hb, ih hr]

theorem IndexByte_append (c : Byte) (q : GoString) :
    ∀ p : GoString, c ∉ p → IndexByte (p ++ c :: q) c = (p.length : Int) := by
  intro p
  induction p with
  | nil => intro _; simp [IndexByte]
  | cons b rest ih =>
    intro hc
    have hb : b ≠ c := fun hbc => hc (by rw [hbc]; exact List.mem_cons_self _ _)
    have hr : c ∉ rest := fun hm => hc (List.mem_cons_of_mem _ hm)
    have h0 : ¬ ((rest.length : Int) < 0) := by omega
    rw [List.cons_append, IndexByte, if_neg hb, ih hr, if_neg h0, List.length_cons]
    push_cast
    rfl

/-- `IndexByte` finds the first occurrence, or returns -1 when there is
none. -/
theorem IndexByte_spec (c : Byte) (s : GoString) :
    (c ∉ s ∧ IndexByte s c = -1) ∨
    ∃ p q, s = p ++ c :: q ∧ c ∉ p ∧ IndexByte s c = (p.length : Int) := by
  induction s with
  | nil => exact Or.inl ⟨by simp, rfl⟩
  | cons b rest ih =>
    by_cases hb : b = c
    · subst hb
      exact Or.inr ⟨[], rest, rfl, by simp, by simp [IndexByte]⟩
    · rcases ih with ⟨hn, _⟩ | ⟨p, q, hs, hp, _⟩
      · have hc : c ∉ b :: rest := by
          simp only [List.mem_cons, not_or]
          exact ⟨fun hcb => hb hcb.symm, hn⟩
        exact Or.inl ⟨hc, IndexByte_not_mem c _ hc⟩
      · have hc : c ∉ b :: p := by
          simp only [List.mem_cons, not_or]
          exact ⟨fun hcb => hb hcb.symm, hp⟩
        refine Or.inr ⟨b :: p, q, by rw [hs]; rfl, hc, ?_⟩
        rw [hs]
        exact IndexByte_append c q (b :: p) hc

theorem HasPrefix_append (p s : GoString) : HasPrefix (p ++ s) p = true := by
  simp [HasPrefix, List.isPrefixOf_iff_prefix]

theorem TrimPrefix_append (p s : GoString) : TrimPrefix (p ++ s) p = s := by
  simp [TrimPrefix, HasPrefix_append]

theorem HasPrefix_iff (s p : GoString) : HasPrefix s p = true ↔ ∃ rest, s = p ++ rest := by
  simp only [HasPrefix, List.isPrefixOf_iff_prefix]
  constructor
  · rintro ⟨t, ht⟩; exact ⟨t, ht.symm⟩
  · rintro ⟨t, ht⟩; exact ⟨t, ht.symm⟩

/-- What `parseS3Ref` returns for a reference with the prefix, in terms of
the first `/` of the rest. -/
theorem parseS3Ref_prefixed (quote : GoString → GoString) (rest : GoString) :
    ((47 : Byte) ∉ rest →
      parseS3Ref quote (str "s3://" ++ rest) =
        ([], [], some (newErr (str "bad s3 ref (need bucket/key): " ++
          quote (str "s3://" ++ rest))))) ∧
    (∀ b k, (47 : Byte) ∉ b → rest = b ++ 47 :: k →
      parseS3Ref quote (str "s3://" ++ rest) =
        if b = [] ∨ k = [] then
          ([], [], some (newErr (str "bad s3 ref (need bucket/key): " ++
            quote (str "s3://" ++ rest))))
        else (b, k, none)) := by
  refine ⟨?_, ?_⟩
  · intro hn
    simp only [parseS3Ref, HasPrefix_append, TrimPrefix_append, not_true_eq_false, if_false,
      IndexByte_not_mem _ _ hn]
    rw [if_pos (Or.inl (by decide))]
  · intro b k hb hrest
    subst hrest
    simp only [parseS3Ref, HasPrefix_append, TrimPrefix_append, not_true_eq_false, if_false,
      IndexByte_append _ _ _ hb, List.length_append, List.length_cons]
    by_cases hbe : b = []
    · subst hbe
      simp
    · by_cases hke : k = []
      · subst hke
        simp
      · have hbl : 0 < b.length := List.length_pos.mpr hbe
        have hkl : 0 < k.length := List.length_pos.mpr hke
        have hcond : ¬ (((b.length : Int) ≤ 0) ∨
            (b.length : Int) = ((b.length + (k.length + 1) : Nat) : Int) - 1) := by
          push_cast
          omega
        rw [if_neg hcond, if_neg (by simp [hbe, hke])]
        have h1 : ((b.length : Int)).toNat = b.length := by simp
        have h2 : ((b.length : Int) + 1).toNat = b.length + 1 := by omega
        rw [h1, h2]
        simp

/-- C21.  (1) For every non-empty bucket without `/` and every non-empty key,
`parseS3Ref` applied to `s3://` + bucket + `/` + key returns the bucket, the
key and no error; in particular it inverts the reference a successful
`PutJSON` returns.  (2) `parseS3Ref` returns an error (and two empty strings)
for every reference that lacks the prefix `s3://`, and for every reference
whose rest after the prefix starts with `/` or is empty (empty bucket), has no
`/` (no `/` after the bucket), or ends with its first `/` (empty key).
(3) Altogether it returns no error exactly for the references of the form of
(1). -/
theorem parseS3Ref_spec (quote : GoString → GoString) :
    (∀ bucket key : GoString, bucket ≠ [] → (47 : Byte) ∉ bucket → key ≠ [] →
      parseS3Ref quote (str "s3://" ++ bucket ++ str "/" ++ key) = (bucket, key, none)) ∧
    (∀ (st : Store) (c : Client) (v : JSON) (ref : GoString),
      c.bucket ≠ [] → (47 : Byte) ∉ c.bucket → PutJSON st c v = (ref, none) →
      parseS3Ref quote ref = (c.bucket, str "batches/" ++ st.uuid ++ str ".json", none)) ∧
    (∀ ref : GoString, ¬ (str "s3://" <+: ref) →
      parseS3Ref quote ref =
        ([], [], some (newErr (str "bad s3 ref (missing s3://): " ++ quote ref)))) ∧
    (∀ rest : GoString,
      (rest = [] ∨ (∃ t, rest = 47 :: t) ∨ (47 : Byte) ∉ rest ∨
        (∃ b, (47 : Byte) ∉ b ∧ rest = b ++ [47])) →
      parseS3Ref quote (str "s3://" ++ rest) =
        ([], [], some (newErr (str "bad s3 ref (need bucket/key): " ++
          quote (str "s3://" ++ rest))))) ∧
    (∀ ref : GoString, (parseS3Ref quote ref).2.2 = none ↔
      ∃ bucket key, bucket ≠ [] ∧ (47 : Byte) ∉ bucket ∧ key ≠ [] ∧
        ref = str "s3://" ++ bucket ++ str "/" ++ key) := by
  have hslash : str "/" = [(47 : Byte)] := by decide
  have hgood : ∀ bucket key : GoString, bucket ≠ [] → (47 : Byte) ∉ bucket → key ≠ [] →
      parseS3Ref quote (str "s3://" ++ bucket ++ str "/" ++ key) = (bucket, key, none) := by
    intro bucket key hb hs hk
    have := (parseS3Ref_prefixed quote (bucket ++ 47 :: key)).2 bucket key hs rfl
    rw [if_neg (by simp [hb, hk])] at this
    rw [← this, hslash]
    simp
  have hbad : ∀ rest : GoString,
      (rest = [] ∨ (∃ t, rest = 47 :: t) ∨ (47 : Byte) ∉ rest ∨
        (∃ b, (47 : Byte) ∉ b ∧ rest = b ++ [47])) →
      parseS3Ref quote (str "s3://" ++ rest) =
        ([], [], some (newErr (str "bad s3 ref (need bucket/key): " ++
          quote (str "s3://" ++ rest)))) := by
    intro rest hr
    rcases hr with hr | ⟨t, hr⟩ | hr | ⟨b, hb, hr⟩
    · subst hr
      exact (parseS3Ref_prefixed quote []).1 (by simp)
    · have := (parseS3Ref_prefixed quote rest).2 [] t (by simp) (by rw [hr]; rfl)
      rw [if_pos (Or.inl rfl)] at this
      exact this
    · exact (parseS3Ref_prefixed quote rest).1 hr
    · have := (parseS3Ref_prefixed quote rest).2 b [] hb hr
      rw [if_pos (Or.inr rfl)] at this
      exact this
  refine ⟨hgood, ?_, ?_, hbad, ?_⟩
  · intro st c v ref hb hs hput
    unfold PutJSON at hput
    cases hm : st.marshal v with
    | error e => simp [hm] at hput
    | ok body =>
      simp only [hm] at hput
      split at hput
      · simp at hput
      · simp only [Prod.mk.injEq, and_true] at hput
        rw [← hput]
        have hk : str "batches/" ++ st.uuid ++ str ".json" ≠ [] := by
          have : str "batches/" ≠ [] := by decide
          intro h
          simp only [List.append_eq_nil] at h
          exact this h.1.1
        have := hgood c.bucket (str "batches/" ++ st.uuid ++ str ".json") hb hs hk
        simpa [List.append_assoc] using this
  · intro ref hpre
    have hp : ¬ (HasPrefix ref (str "s3://") = true) := by
      simpa [HasPrefix, List.isPrefixOf_iff_prefix] using hpre
    simp [parseS3Ref, hp]
  · intro ref
    constructor
    · intro hok
      by_cases hp : HasPrefix ref (str "s3://") = true
      · obtain ⟨rest, hrest⟩ := (HasPrefix_iff _ _).mp hp
        subst hrest
        rcases IndexByte_spec 47 rest with ⟨hn, _⟩ | ⟨b, k, hs, hb, _⟩
        · rw [(parseS3Ref_prefixed quote rest).1 hn] at hok
          cases hok
        · rw [(parseS3Ref_prefixed quote rest).2 b k hb hs] at hok
          by_cases hbk : b = [] ∨ k = []
          · rw [if_pos hbk] at hok
            cases hok
          · simp only [not_or] at hbk
            exact ⟨b, k, hbk.1, hb, hbk.2, by rw [hs, hslash]; simp⟩
      · simp [parseS3Ref, hp] at hok
    · rintro ⟨bucket, key, hb, hs, hk, href⟩
      rw [href, hgood bucket key hb hs hk]

/-- Witness for C21: the reference a successful `PutJSON` returns for the
bucket `traces` is `s3://traces/batches/id1.json`, and `parseS3Ref` gives back
the bucket and the key; `s3://traces` and `traces/a` are rejected. -/
theorem parseS3Ref_spec_witness :
    PutJSON goodStore ⟨str "traces"⟩ .null = (str "s3://traces/batches/id1.json", none) ∧
    parseS3Ref (fun s => s) (str "s3://traces/batches/id1.json") =
      (str "traces", str "batches/id1.json", none) ∧
    (parseS3Ref (fun s => s) (str "s3://traces")).2.2 ≠ none ∧
    (parseS3Ref (fun s => s) (str "traces/a")).2.2 ≠ none :=
  have hput : PutJSON goodStore ⟨str "traces"⟩ .null =
      (str "s3://traces/batches/id1.json", none) := by decide
  have h1 := (parseS3Ref_spec (fun s => s)).2.1 goodStore ⟨str "traces"⟩ .null
    (str "s3://traces/batches/id1.json") (by decide) (by decide) hput
  have h2 := (parseS3Ref_spec (fun s => s)).2.2.2.1 (str "traces")
    (Or.inr (Or.inr (Or.inl (by decide))))
  have h3 := (parseS3Ref_spec (fun s => s)).2.2.1 (str "traces/a") (by decide)
  have e2 : str "s3://traces" = str "s3://" ++ str "traces" := by decide
  have r2 : (parseS3Ref (fun s => s) (str "s3://traces")).2.2 ≠ none := by
    rw [e2, h2]
    simp
  have r3 : (parseS3Ref (fun s => s) (str "traces/a")).2.2 ≠ none := by
    rw [h3]
    simp
  ⟨hput, h1.trans (by decide), r2, r3⟩

end QA
